import Mathlib

/-!
# Discovery engine of ign-transport: embedding and verified properties

Shallow embedding of `src/DiscoveryPrivate.cc` and of the publisher records of
`src/Publisher.cc`.  The engine state is an explicit record; every member
function becomes a pure function that returns the next state together with the
user callbacks it invoked and the datagrams it published, in program order.

Conventions of the embedding

* `std::map<std::string, T>` is an association list kept in key order
  (`SMap`).  The operations are written so that they behave like the map
  operations on every list whose keys are pairwise distinct (`SMap.WF`).
* A `std::function` member is represented by the Boolean "is it non-empty";
  calling it appends a `CbCall` to the callback trace.
* `steady_clock::time_point` is an integer tick count; the conversion of a
  tick difference to a count of milliseconds is a parameter of the sweep.
  `elapsedMilliseconds` is the conversion the source writes, through a
  `double` count of seconds, for a clock whose tick is the nanosecond.
* The wire codec (`Header`, `AdvMsg` of `Packet.hh`) is outside `src/`: a
  received datagram is given by its decoded fields, a published datagram by
  the fields handed to the codec.  The protocol version and the reserved flags
  word are the same on every header and are left out.
* A `char` buffer is the list of its bytes and a pointer into it is an offset;
  a 64-bit length is copied in the byte order of a little-endian host.
* `Publisher.hh` is outside `src/`: the call `this->GetMsgLength()` at the end
  of `Publisher::Pack` and `Publisher::Unpack` is taken as bound to
  `Publisher::GetMsgLength`, also when the object is a message or service
  publisher.
* The setters of the callbacks and of the tunables are outside `src/`; a run
  of the engine may change them at any point (`configure`).
-/

namespace Transport

/-! ## Basic types -/

/-- Visibility of an advertisement (`enum class Scope`). -/
inductive Scope where
  | Process
  | Host
  | All
  deriving DecidableEq, Repr

/-- Kind of advertisement handed to the public interface (`enum class MsgType`). -/
inductive MsgType where
  | Msg
  | Srv
  deriving DecidableEq, Repr

/-- A point in time of `std::chrono::steady_clock`, as a tick count. -/
abbrev Timestamp := Int

/-- Modelled from the spec: message type code of ADV (table of section 6;
the constant is declared in `Packet.hh`). -/
def AdvType : Nat := 1
/-- Modelled from the spec: message type code of SUB. -/
def SubType : Nat := 2
/-- Modelled from the spec: message type code of UNADV. -/
def UnadvType : Nat := 3
/-- Modelled from the spec: message type code of HELLO. -/
def HelloType : Nat := 4
/-- Modelled from the spec: message type code of BYE. -/
def ByeType : Nat := 5
/-- Modelled from the spec: message type code of ADV_SRV. -/
def AdvSrvType : Nat := 6
/-- Modelled from the spec: message type code of SUB_SRV. -/
def SubSrvType : Nat := 7
/-- Modelled from the spec: message type code of UNADV_SRV. -/
def UnadvSrvType : Nat := 8

/-- Modelled from the spec: default of `silenceInterval` in milliseconds. -/
def DefSilenceInterval : Nat := 3000
/-- Modelled from the spec: default of `activityInterval` in milliseconds. -/
def DefActivityInterval : Nat := 100
/-- Modelled from the spec: default of `advertiseInterval` in milliseconds. -/
def DefAdvertiseInterval : Nat := 1000
/-- Modelled from the spec: default of `heartbitInterval` in milliseconds. -/
def DefHeartbitInterval : Nat := 1000

/-! ## Ordered string-keyed maps -/

/-- Lexicographic order on code sequences, the order of `std::string::compare`. -/
def lexLt : List Nat → List Nat → Bool
  | _, [] => false
  | [], _ :: _ => true
  | a :: as, b :: bs => decide (a < b) || (decide (a = b) && lexLt as bs)

/-- Key order of a `std::map<std::string, T>`. -/
def strLt (a b : String) : Bool :=
  lexLt (a.data.map Char.toNat) (b.data.map Char.toNat)

/-- A `std::map<std::string, β>`: its entries in iteration order. -/
abbrev SMap (β : Type) := List (String × β)

namespace SMap

variable {β : Type}

/-- Keys of the map are pairwise distinct, as in every `std::map`. -/
def WF (m : SMap β) : Prop := (m.map Prod.fst).Nodup

instance decidableWF (m : SMap β) : Decidable (WF m) :=
  inferInstanceAs (Decidable (m.map Prod.fst).Nodup)

/-- Value stored under `k` (`find`), if any. -/
def find : SMap β → String → Option β
  | [], _ => none
  | (k', v) :: rest, k => if k' = k then some v else find rest k

/-- Overwrite the value of the entry with key `k`. -/
def replace : SMap β → String → β → SMap β
  | [], _, _ => []
  | (k', v') :: rest, k, v =>
    if k' = k then (k', v) :: rest else (k', v') :: replace rest k v

/-- Place a new entry in front of the first entry with a greater key. -/
def place : SMap β → String → β → SMap β
  | [], k, v => [(k, v)]
  | (k', v') :: rest, k, v =>
    if strLt k k' then (k, v) :: (k', v') :: rest else (k', v') :: place rest k v

/-- Assignment `m[k] = v`. -/
def insert (m : SMap β) (k : String) (v : β) : SMap β :=
  match m.find k with
  | some _ => m.replace k v
  | none => m.place k v

/-- Removal `m.erase(k)`. -/
def erase (m : SMap β) (k : String) : SMap β :=
  m.filter (fun e => decide (e.1 ≠ k))

end SMap

/-! ## Address registry -/

/-- Address record of one advertised (topic, node). -/
structure Address_t where
  addr : String
  ctrl : String
  pUuid : String
  nUuid : String
  scope : Scope
  deriving DecidableEq, Repr

/-- Records of one topic: process UUID to the records of its nodes, in
insertion order. -/
abbrev Addresses_M := SMap (List Address_t)

/-- Modelled from the spec: the address registry `TopicStorage` (its source
file is not part of `src/`), a mapping topic to (mapping pUuid to ordered list
of address records). -/
abbrev TopicStorage := SMap Addresses_M

namespace TopicStorage

/-- Modelled from the spec: `get(topic, pUuid, nUuid)` of the registry
(`TopicStorage::GetAddress`), lookup by exact string match. -/
def GetAddress (data : TopicStorage) (topic pUuid nUuid : String) :
    Option Address_t :=
  match data.find topic with
  | none => none
  | some m =>
    match m.find pUuid with
    | none => none
    | some v => v.find? (fun a => decide (a.nUuid = nUuid))

/-- Modelled from the spec: `add` of the registry (`TopicStorage::AddAddress`):
idempotent, returns true only if the record was newly created, and keeps the
fields of a record that already exists for `(topic, pUuid, nUuid)`.  A new
record goes to the end of the list of its `(topic, pUuid)`. -/
def AddAddress (data : TopicStorage) (topic addr ctrl pUuid nUuid : String)
    (scope : Scope) : Bool × TopicStorage :=
  match GetAddress data topic pUuid nUuid with
  | some _ => (false, data)
  | none =>
    let m := (data.find topic).getD []
    let v := (m.find pUuid).getD []
    (true, data.insert topic (m.insert pUuid (v ++ [⟨addr, ctrl, pUuid, nUuid, scope⟩])))

/-- Modelled from the spec: `get_all(topic)` of the registry
(`TopicStorage::GetAddresses`): the records of a topic per process, if the
topic is known. -/
def GetAddresses (data : TopicStorage) (topic : String) : Option Addresses_M :=
  data.find topic

/-- Modelled from the spec: the ordered list of records that the registry
holds for `(topic, pUuid)`, that is `get_all(topic)[pUuid]`; empty when there
is none. -/
def records (data : TopicStorage) (topic pUuid : String) : List Address_t :=
  match data.find topic with
  | none => []
  | some m => (m.find pUuid).getD []

/-- The record `a` is stored in the registry under `(topic, pUuid)`, in some
entry of the two nested maps. -/
def holds (data : TopicStorage) (topic pUuid : String) (a : Address_t) : Prop :=
  ∃ m v, (topic, m) ∈ data ∧ (pUuid, v) ∈ m ∧ a ∈ v

/-- Modelled from the spec: `has(topic)` of the registry
(`TopicStorage::HasTopic`). -/
def HasTopic (data : TopicStorage) (topic : String) : Bool :=
  (data.find topic).isSome

/-- Modelled from the spec: `has_any(topic, pUuid)` of the registry
(`TopicStorage::HasAnyAddresses`). -/
def HasAnyAddresses (data : TopicStorage) (topic pUuid : String) : Bool :=
  match data.find topic with
  | none => false
  | some m => (m.find pUuid).isSome

/-- Modelled from the spec: `del_by_node(topic, pUuid, nUuid)` of the registry
(`TopicStorage::DelAddressByNode`): removes the record of the node and cleans
up an inner and an outer map that became empty. -/
def DelAddressByNode (data : TopicStorage) (topic pUuid nUuid : String) :
    TopicStorage :=
  match data.find topic with
  | none => data
  | some m =>
    match m.find pUuid with
    | none => data
    | some v =>
      let v' := v.filter (fun a => decide (a.nUuid ≠ nUuid))
      let m' := if v'.isEmpty then m.erase pUuid else m.insert pUuid v'
      if m'.isEmpty then data.erase topic else data.insert topic m'

/-- Modelled from the spec: `del_by_proc(pUuid)` of the registry
(`TopicStorage::DelAddressesByProc`): removes, across all topics, every record
of the process and cleans up the maps that became empty. -/
def DelAddressesByProc (data : TopicStorage) (pUuid : String) : TopicStorage :=
  data.filterMap (fun e =>
    let m' := SMap.erase e.2 pUuid
    if m'.isEmpty then none else some (e.1, m'))

end TopicStorage

/-! ## Datagrams and callbacks -/

/-- Header of a discovery datagram: sender process, topic and type code. -/
structure Header where
  pUuid : String
  topic : String
  type : Nat
  deriving DecidableEq, Repr

/-- Body of an advertise or unadvertise datagram (`AdvMsg`). -/
structure AdvBody where
  addr : String
  ctrl : String
  nUuid : String
  scope : Scope
  deriving DecidableEq, Repr

/-- A datagram handed to the broadcast transport: a header, followed by a body
for the four advertise kinds. -/
structure Packet where
  header : Header
  body : Option AdvBody
  deriving DecidableEq, Repr

/-- A received datagram after decoding: the header fields and what
`AdvMsg::UnpackBody` reads behind the header (looked at for the advertise kinds
only).  The type code is kept as a number, so that unknown codes reach the
`default` branch; the scope is a value of the enumeration `Scope`. -/
structure Datagram where
  pUuid : String
  topic : String
  type : Nat
  addr : String
  ctrl : String
  nUuid : String
  scope : Scope
  deriving DecidableEq, Repr

/-- The four user callbacks of the engine. -/
inductive CbKind where
  | connection
  | disconnection
  | connectionSrv
  | disconnectionSrv
  deriving DecidableEq, Repr

/-- One invocation of a user callback with its six arguments. -/
structure CbCall where
  kind : CbKind
  topic : String
  addr : String
  ctrl : String
  pUuid : String
  nUuid : String
  scope : Scope
  deriving DecidableEq, Repr

/-- A repeating beacon: its period and the payload it publishes, if one was
set up. -/
structure Beacon where
  interval : Nat
  payload : Option Packet
  deriving DecidableEq, Repr

/-! ## Engine state -/

/-- State of the discovery engine (`class DiscoveryPrivate`). -/
structure DiscoveryPrivate where
  pUuid : String
  hostAddr : String
  silenceInterval : Nat
  activityInterval : Nat
  advertiseInterval : Nat
  heartbitInterval : Nat
  connectionCb : Bool
  disconnectionCb : Bool
  connectionSrvCb : Bool
  disconnectionSrvCb : Bool
  info : TopicStorage
  activity : SMap Timestamp
  beacons : SMap (SMap Beacon)
  deriving DecidableEq, Repr

/-- What one call of a member function leaves behind: the next state, the
callbacks invoked and the datagrams published, both in program order. -/
structure Run where
  st : DiscoveryPrivate
  calls : List CbCall
  sent : List Packet
  deriving DecidableEq, Repr

namespace DiscoveryPrivate

/-- The constructor: default intervals, no callback set, empty tables. -/
def new (pUuid hostAddr : String) : DiscoveryPrivate :=
  ⟨pUuid, hostAddr, DefSilenceInterval, DefActivityInterval,
    DefAdvertiseInterval, DefHeartbitInterval, false, false, false, false,
    [], [], []⟩

/-- `DiscoveryPrivate::SendMsg`: the datagrams published by one call.  The
advertise kinds carry a body, SUB, HELLO and BYE are a bare header, and every
other type code takes the `default` branch, which publishes nothing. -/
def SendMsg (s : DiscoveryPrivate) (type : Nat) (topic addr ctrl nUuid : String)
    (scope : Scope) : List Packet :=
  if type = AdvType ∨ type = UnadvType ∨ type = AdvSrvType ∨ type = UnadvSrvType then
    [⟨⟨s.pUuid, topic, type⟩, some ⟨addr, ctrl, nUuid, scope⟩⟩]
  else if type = SubType ∨ type = HelloType ∨ type = ByeType then
    [⟨⟨s.pUuid, topic, type⟩, none⟩]
  else
    []

/-- `DiscoveryPrivate::NewBeacon`: the beacon table after the call. -/
def NewBeacon (s : DiscoveryPrivate) (advType : MsgType) (topic nUuid : String) :
    SMap (SMap Beacon) :=
  if s.beacons.find topic = none ∨
      ((s.beacons.find topic).getD []).find nUuid = none then
    let inner := (s.beacons.find topic).getD []
    match TopicStorage.GetAddress s.info topic s.pUuid nUuid with
    | none =>
      s.beacons.insert topic (inner.insert nUuid ⟨s.advertiseInterval, none⟩)
    | some node =>
      let type := if advType = MsgType.Msg then AdvType else AdvSrvType
      s.beacons.insert topic (inner.insert nUuid ⟨s.advertiseInterval,
        some ⟨⟨s.pUuid, topic, type⟩,
          some ⟨node.addr, node.ctrl, node.nUuid, node.scope⟩⟩⟩)
  else
    s.beacons

/-- `DiscoveryPrivate::DelBeacon`: the beacon table after the call. -/
def DelBeacon (s : DiscoveryPrivate) (topic nUuid : String) : SMap (SMap Beacon) :=
  match s.beacons.find topic with
  | none => s.beacons
  | some inner =>
    match inner.find nUuid with
    | none => s.beacons
    | some _ =>
      let inner' := inner.erase nUuid
      if inner'.isEmpty then s.beacons.erase topic
      else s.beacons.insert topic inner'

/-- `DiscoveryPrivate::Advertise`. -/
def Advertise (s : DiscoveryPrivate) (advType : MsgType)
    (topic addr ctrl nUuid : String) (scope : Scope) : Run :=
  let s1 := { s with
    info := (TopicStorage.AddAddress s.info topic addr ctrl s.pUuid nUuid scope).2 }
  if scope = Scope.Process then
    ⟨s1, [], []⟩
  else
    ⟨{ s1 with beacons := s1.NewBeacon advType topic nUuid }, [], []⟩

/-- `DiscoveryPrivate::Unadvertise`. -/
def Unadvertise (s : DiscoveryPrivate) (unadvType : MsgType)
    (topic nUuid : String) : Run :=
  match TopicStorage.GetAddress s.info topic s.pUuid nUuid with
  | none => ⟨s, [], []⟩
  | some inf =>
    let s1 := { s with
      info := TopicStorage.DelAddressByNode s.info topic s.pUuid nUuid }
    if inf.scope = Scope.Process then
      ⟨s1, [], []⟩
    else
      let out :=
        if unadvType = MsgType.Msg then
          s1.SendMsg UnadvType topic inf.addr inf.ctrl nUuid inf.scope
        else
          s1.SendMsg UnadvSrvType topic inf.addr inf.ctrl nUuid inf.scope
      ⟨{ s1 with beacons := s1.DelBeacon topic nUuid }, [], out⟩

/-- The nested loops of `Discover` for a service call: the first record
visited gets the only callback, and then the function returns. -/
def discoverSrvLoop (s : DiscoveryPrivate) (topic : String) :
    List (String × Address_t) → List CbCall
  | [] => []
  | (p, node) :: rest =>
    if s.connectionSrvCb then
      [⟨CbKind.connectionSrv, topic, node.addr, node.ctrl, p, node.nUuid, node.scope⟩]
    else
      discoverSrvLoop s topic rest

/-- The nested loops of `Discover` for a topic: one callback per record. -/
def discoverMsgLoop (s : DiscoveryPrivate) (topic : String) :
    List (String × Address_t) → List CbCall
  | [] => []
  | (p, node) :: rest =>
    if s.connectionCb then
      ⟨CbKind.connection, topic, node.addr, node.ctrl, p, node.nUuid, node.scope⟩
        :: discoverMsgLoop s topic rest
    else
      discoverMsgLoop s topic rest

/-- The (process, record) pairs in the order in which the two nested `for`
loops over an `Addresses_M` visit them. -/
def visitOrder : Addresses_M → List (String × Address_t)
  | [] => []
  | (p, nodes) :: rest => nodes.map (fun node => (p, node)) ++ visitOrder rest

/-- `DiscoveryPrivate::Discover`. -/
def Discover (s : DiscoveryPrivate) (topic : String) (isSrvCall : Bool) : Run :=
  let out :=
    if isSrvCall then s.SendMsg SubSrvType topic "" "" "" Scope.All
    else s.SendMsg SubType topic "" "" "" Scope.All
  if TopicStorage.HasTopic s.info topic then
    match TopicStorage.GetAddresses s.info topic with
    | none => ⟨s, [], out⟩
    | some addresses =>
      if isSrvCall then ⟨s, discoverSrvLoop s topic (visitOrder addresses), out⟩
      else ⟨s, discoverMsgLoop s topic (visitOrder addresses), out⟩
  else
    ⟨s, [], out⟩

/-- The scope check of `DispatchDiscoveryMsg`: true when the datagram or the
record is to be skipped. -/
def scopeDrops (s : DiscoveryPrivate) (fromIp : String) (scope : Scope) : Bool :=
  decide (scope = Scope.Process) ||
    (decide (scope = Scope.Host) && decide (fromIp ≠ s.hostAddr))

/-- The loop of the SUB branch of `DispatchDiscoveryMsg` over the local
records of the topic. -/
def answerLoop (s : DiscoveryPrivate) (fromIp topic : String) :
    List Address_t → List Packet
  | [] => []
  | nodeInfo :: rest =>
    if s.scopeDrops fromIp nodeInfo.scope then
      answerLoop s fromIp topic rest
    else
      s.SendMsg AdvType topic nodeInfo.addr nodeInfo.ctrl nodeInfo.nUuid nodeInfo.scope
        ++ answerLoop s fromIp topic rest

/-- `DiscoveryPrivate::DispatchDiscoveryMsg` on the decoded datagram `d`
received from `fromIp` at time `now`. -/
def DispatchDiscoveryMsg (s : DiscoveryPrivate) (now : Timestamp)
    (fromIp : String) (d : Datagram) : Run :=
  if d.pUuid = s.pUuid then
    ⟨s, [], []⟩
  else
    let s1 := { s with activity := s.activity.insert d.pUuid now }
    if d.type = AdvType ∨ d.type = AdvSrvType then
      if s1.scopeDrops fromIp d.scope then
        ⟨s1, [], []⟩
      else
        let r := TopicStorage.AddAddress s1.info d.topic d.addr d.ctrl d.pUuid
          d.nUuid d.scope
        let s2 := { s1 with info := r.2 }
        if r.1 then
          if d.type = AdvType ∧ s2.connectionCb then
            ⟨s2, [⟨CbKind.connection, d.topic, d.addr, d.ctrl, d.pUuid, d.nUuid,
              d.scope⟩], []⟩
          else if d.type = AdvSrvType ∧ s2.connectionSrvCb then
            ⟨s2, [⟨CbKind.connectionSrv, d.topic, d.addr, d.ctrl, d.pUuid,
              d.nUuid, d.scope⟩], []⟩
          else
            ⟨s2, [], []⟩
        else
          ⟨s2, [], []⟩
    else if d.type = SubType ∨ d.type = SubSrvType then
      if TopicStorage.HasAnyAddresses s1.info d.topic s1.pUuid then
        match TopicStorage.GetAddresses s1.info d.topic with
        | none => ⟨s1, [], []⟩
        | some addresses =>
          ⟨s1, [], answerLoop s1 fromIp d.topic ((addresses.find s1.pUuid).getD [])⟩
      else
        ⟨s1, [], []⟩
    else if d.type = HelloType then
      ⟨s1, [], []⟩
    else if d.type = ByeType then
      let s2 := { s1 with activity := s1.activity.erase d.pUuid }
      let calls :=
        if s2.disconnectionCb then
          [⟨CbKind.disconnection, "", "", "", d.pUuid, "", Scope.All⟩]
        else []
      ⟨{ s2 with info := TopicStorage.DelAddressesByProc s2.info d.pUuid }, calls, []⟩
    else if d.type = UnadvType ∨ d.type = UnadvSrvType then
      if s1.scopeDrops fromIp d.scope then
        ⟨s1, [], []⟩
      else
        let calls :=
          if d.type = UnadvType ∧ s1.disconnectionCb then
            [⟨CbKind.disconnection, d.topic, d.addr, d.ctrl, d.pUuid, d.nUuid,
              d.scope⟩]
          else if d.type = UnadvSrvType ∧ s1.disconnectionSrvCb then
            [⟨CbKind.disconnectionSrv, d.topic, d.addr, d.ctrl, d.pUuid, d.nUuid,
              d.scope⟩]
          else []
        let info' := TopicStorage.DelAddressByNode s1.info d.topic d.pUuid d.nUuid
        ⟨{ s1 with info := info' }, calls, []⟩
    else
      ⟨s1, [], []⟩

/-- How one pass of the activity sweep ends. -/
inductive Sweep where
  | finished (st : DiscoveryPrivate) (calls : List CbCall)
  | threw (st : DiscoveryPrivate) (calls : List CbCall)
  | spinning
  deriving DecidableEq, Repr

/-- The `for` loop of `RunActivityTask` over the activity entries `rest` that
the iterator has still to visit.  `elapsedMs now t` stands for the count of
`duration_cast<milliseconds>(now - t)`.  An entry of the engine itself takes
the `continue` that does not advance the iterator, so that iteration is
repeated for as long as there is fuel; calling an empty `disconnectionCb`
throws `std::bad_function_call`. -/
def sweepLoop (elapsedMs : Timestamp → Timestamp → Int) (now : Timestamp) :
    Nat → List (String × Timestamp) → DiscoveryPrivate → List CbCall → Sweep
  | 0, _, _, _ => Sweep.spinning
  | _ + 1, [], s, calls => Sweep.finished s calls
  | fuel + 1, (p, t) :: rest, s, calls =>
    if p = s.pUuid then
      sweepLoop elapsedMs now fuel ((p, t) :: rest) s calls
    else if elapsedMs now t > (s.silenceInterval : Int) then
      let s1 := { s with info := TopicStorage.DelAddressesByProc s.info p }
      if s1.disconnectionCb then
        sweepLoop elapsedMs now fuel rest
          { s1 with activity := s1.activity.erase p }
          (calls ++ [⟨CbKind.disconnection, "", "", "", p, "", Scope.All⟩])
      else
        Sweep.threw s1 calls
    else
      sweepLoop elapsedMs now fuel rest s calls

/-- One pass of `DiscoveryPrivate::RunActivityTask` (the body of its `while`
loop up to the unlock) at time `now`, with `fuel` loop iterations allowed. -/
def RunActivityTask (s : DiscoveryPrivate)
    (elapsedMs : Timestamp → Timestamp → Int) (now : Timestamp) (fuel : Nat) :
    Sweep :=
  sweepLoop elapsedMs now fuel s.activity s []

end DiscoveryPrivate

/-! ## Specification vocabulary -/

namespace DiscoveryPrivate

/-- The call by which the sweep and the BYE branch report that a process is
gone: `disconnectionCb("", "", "", pUuid, "", Scope::All)`. -/
def goneCall (p : String) : CbCall :=
  ⟨CbKind.disconnection, "", "", "", p, "", Scope.All⟩

/-- The processes among the entries `rest` that a sweep at time `now` finds
silent for more than `silenceInterval` milliseconds, in iteration order. -/
def expiredKeys (s : DiscoveryPrivate) (elapsedMs : Timestamp → Timestamp → Int)
    (now : Timestamp) (rest : List (String × Timestamp)) : List String :=
  (rest.filter (fun e => decide (elapsedMs now e.2 > (s.silenceInterval : Int)))).map
    Prod.fst

/-- The state after the processes `ks` were dropped one after the other from
the registry and from the activity table. -/
def dropProcs (s : DiscoveryPrivate) : List String → DiscoveryPrivate
  | [] => s
  | p :: ks =>
    dropProcs { s with info := TopicStorage.DelAddressesByProc s.info p,
                       activity := s.activity.erase p } ks

/-- Whether the beacon table has an entry for `(topic, nUuid)`. -/
def hasBeacon (s : DiscoveryPrivate) (topic nUuid : String) : Bool :=
  match s.beacons.find topic with
  | none => false
  | some inner => (inner.find nUuid).isSome

/-- Beacon and registry parity: there is a beacon for `(topic, nUuid)` exactly
when the registry holds a record for `(topic, own pUuid, nUuid)` whose scope is
not `Process`. -/
def BeaconParity (s : DiscoveryPrivate) : Prop :=
  ∀ topic nUuid : String,
    s.hasBeacon topic nUuid = true ↔
      ∃ r, TopicStorage.GetAddress s.info topic s.pUuid nUuid = some r ∧
        r.scope ≠ Scope.Process

/-- A call of the public interface or a received datagram. -/
inductive Event where
  | advertise (advType : MsgType) (topic addr ctrl nUuid : String) (scope : Scope)
  | unadvertise (unadvType : MsgType) (topic nUuid : String)
  | receive (now : Timestamp) (fromIp : String) (d : Datagram)
  | discover (topic : String) (isSrvCall : Bool)
  deriving DecidableEq, Repr

/-- The state after one event. -/
def step (s : DiscoveryPrivate) : Event → DiscoveryPrivate
  | Event.advertise advType topic addr ctrl nUuid scope =>
    (s.Advertise advType topic addr ctrl nUuid scope).st
  | Event.unadvertise unadvType topic nUuid => (s.Unadvertise unadvType topic nUuid).st
  | Event.receive now fromIp d => (s.DispatchDiscoveryMsg now fromIp d).st
  | Event.discover topic isSrvCall => (s.Discover topic isSrvCall).st

/-- The callbacks invoked by one event. -/
def stepCalls (s : DiscoveryPrivate) : Event → List CbCall
  | Event.advertise advType topic addr ctrl nUuid scope =>
    (s.Advertise advType topic addr ctrl nUuid scope).calls
  | Event.unadvertise unadvType topic nUuid => (s.Unadvertise unadvType topic nUuid).calls
  | Event.receive now fromIp d => (s.DispatchDiscoveryMsg now fromIp d).calls
  | Event.discover topic isSrvCall => (s.Discover topic isSrvCall).calls

/-- The state after a sequence of events, oldest first. -/
def steps (s : DiscoveryPrivate) (es : List Event) : DiscoveryPrivate :=
  es.foldl step s

/-- The callbacks invoked during a sequence of events, in the order of their
invocation. -/
def trace (s : DiscoveryPrivate) : List Event → List CbCall
  | [] => []
  | e :: es => s.stepCalls e ++ trace (s.step e) es

/-- The (process, record) pairs that the registry knows for a topic, in the
order in which `Discover` visits them. -/
def knownRecords (s : DiscoveryPrivate) (topic : String) : List (String × Address_t) :=
  match TopicStorage.GetAddresses s.info topic with
  | none => []
  | some addresses => visitOrder addresses

/-- The call by which `Discover` reports the record `e.2` of process `e.1` for
a topic: `connectionSrvCb` for a service call, `connectionCb` otherwise. -/
def knownCall (topic : String) (isSrvCall : Bool) (e : String × Address_t) : CbCall :=
  ⟨if isSrvCall then CbKind.connectionSrv else CbKind.connection,
    topic, e.2.addr, e.2.ctrl, e.1, e.2.nUuid, e.2.scope⟩

/-- The received datagrams that remove the record of the node `nUuid` of
another process `pUuid` for `topic`: an UNADV or UNADV_SRV for the triple that
passes the scope filter, or a BYE of the process. -/
def removesRecord (s : DiscoveryPrivate) (topic pUuid nUuid : String) : Event → Prop
  | Event.receive _ fromIp d =>
    d.pUuid = pUuid ∧ pUuid ≠ s.pUuid ∧
      (d.type = ByeType ∨
        ((d.type = UnadvType ∨ d.type = UnadvSrvType) ∧ d.topic = topic ∧
          d.nUuid = nUuid ∧ s.scopeDrops fromIp d.scope = false))
  | _ => False

end DiscoveryPrivate

/-- An engine B on host 10.0.0.2 with the four callbacks set. -/
def engineB : DiscoveryPrivate :=
  { DiscoveryPrivate.new "B" "10.0.0.2" with
    connectionCb := true, disconnectionCb := true,
    connectionSrvCb := true, disconnectionSrvCb := true }

/-- The ADV datagram of scenario S1: process A advertises `/t` for node n1. -/
def advFromA : Datagram :=
  ⟨"A", "/t", AdvType, "tcp://1:1", "tcp://1:2", "n1", Scope.All⟩

/-- Engine B after it received `advFromA` from 10.0.0.1 at time 5. -/
def engineBKnowsA : DiscoveryPrivate :=
  (engineB.DispatchDiscoveryMsg 5 "10.0.0.1" advFromA).st

/-- An engine A that advertises the service `/s` of its node n1 with scope All. -/
def engineAService : DiscoveryPrivate :=
  ((DiscoveryPrivate.new "A" "10.0.0.1").Advertise MsgType.Srv "/s" "tcp://1:1"
    "tcp://1:2" "n1" Scope.All).st

/-! ## Concrete engines and datagrams -/

/-- Engine A with three local records for `/t`, one per scope, and a record of
process B for the same topic. -/
def engineAThreeScopes : DiscoveryPrivate :=
  (DiscoveryPrivate.new "A" "10.0.0.1").steps
    [DiscoveryPrivate.Event.advertise MsgType.Msg "/t" "tcp://1:1" "tcp://1:2" "n1" Scope.All,
     DiscoveryPrivate.Event.advertise MsgType.Msg "/t" "tcp://1:3" "tcp://1:4" "n2" Scope.Host,
     DiscoveryPrivate.Event.advertise MsgType.Msg "/t" "tcp://1:5" "tcp://1:6" "n3" Scope.Process,
     DiscoveryPrivate.Event.receive 1 "10.0.0.2"
       ⟨"B", "/t", AdvType, "tcp://2:1", "tcp://2:2", "m1", Scope.All⟩]

/-- A SUB datagram of process C for `/t`. -/
def subFromC : Datagram := ⟨"C", "/t", SubType, "", "", "", Scope.All⟩

/-- The UNADV datagram of scenario S5: process A withdraws `/t` of node n1. -/
def unadvFromA : Datagram :=
  ⟨"A", "/t", UnadvType, "tcp://1:1", "tcp://1:2", "n1", Scope.All⟩

/-- A BYE datagram of process A. -/
def byeFromA : Datagram := ⟨"A", "", ByeType, "", "", "", Scope.All⟩

/-- An ADV datagram of process A with scope Host. -/
def advHostFromA : Datagram :=
  ⟨"A", "/t", AdvType, "tcp://1:1", "tcp://1:2", "n1", Scope.Host⟩

/-- Engine B after an ADV of process A at time 5, an ADV of process C at time
10 and a HELLO of process D at time 6. -/
def engineBThreePeers : DiscoveryPrivate :=
  engineB.steps
    [DiscoveryPrivate.Event.receive 5 "10.0.0.1" advFromA,
     DiscoveryPrivate.Event.receive 10 "10.0.0.3"
       ⟨"C", "/t", AdvType, "tcp://3:1", "tcp://3:2", "k1", Scope.All⟩,
     DiscoveryPrivate.Event.receive 6 "10.0.0.4"
       ⟨"D", "", HelloType, "", "", "", Scope.All⟩]

/-- Elapsed whole milliseconds when a clock tick is one millisecond. -/
def tickMs (now t : Timestamp) : Int := now - t

/-! ## Invariants of runs and further concrete engines -/

namespace DiscoveryPrivate
/-- No record of another process has scope `Process`. -/
def NoRemoteProcessScope (s : DiscoveryPrivate) : Prop :=
  ∀ t p a, TopicStorage.holds s.info t p a → p ≠ s.pUuid → a.scope ≠ Scope.Process
end DiscoveryPrivate

namespace DiscoveryPrivate
/-- Every record of another process was reported by a connection callback of
the trace `tr`. -/
def ConnectionSeen (s : DiscoveryPrivate) (tr : List CbCall) : Prop :=
  ∀ t p a, TopicStorage.holds s.info t p a → p ≠ s.pUuid →
    ∃ c ∈ tr, (c.kind = CbKind.connection ∨ c.kind = CbKind.connectionSrv) ∧
      c.topic = t ∧ c.pUuid = p ∧ c.nUuid = a.nUuid
end DiscoveryPrivate

/-- Engine B without any callback set, after the ADV of process A at time 5. -/
def engineBNoCallbacks : DiscoveryPrivate :=
  (DiscoveryPrivate.new "B" "10.0.0.2").steps
    [DiscoveryPrivate.Event.receive 5 "10.0.0.1" advFromA]

/-- Engine A with a record of scope All for node n1 and topic `/t`, advertised
as a topic. -/
def engineAOneTopic : DiscoveryPrivate :=
  ((DiscoveryPrivate.new "A" "10.0.0.1").Advertise MsgType.Msg "/t" "tcp://1:1"
    "tcp://1:2" "n1" Scope.All).st

/-! ## Reachable states -/

namespace DiscoveryPrivate

/-- Modelled from the spec: `set_*_callback(fn)` and the setters of the four
tunables of section 4.4 ("independently settable before or during operation"),
all at once: they store the callbacks and the intervals and touch nothing
else. -/
def configure (s : DiscoveryPrivate) (silence activity advertise heartbit : Nat)
    (connection disconnection connectionSrv disconnectionSrv : Bool) :
    DiscoveryPrivate :=
  { s with silenceInterval := silence, activityInterval := activity,
           advertiseInterval := advertise, heartbitInterval := heartbit,
           connectionCb := connection, disconnectionCb := disconnection,
           connectionSrvCb := connectionSrv, disconnectionSrvCb := disconnectionSrv }

/-- What happens to an engine: a call of the public interface or a received
datagram, a change of a callback or of a tunable, or one pass of the activity
sweep at time `now`. -/
inductive Action where
  | event (e : Event)
  | configure (silence activity advertise heartbit : Nat)
      (connection disconnection connectionSrv disconnectionSrv : Bool)
  | sweep (elapsedMs : Timestamp → Timestamp → Int) (now : Timestamp) (fuel : Nat)

/-- The state after one action; there is none after a sweep pass that threw or
that did not come to its end. -/
def perform (s : DiscoveryPrivate) : Action → Option DiscoveryPrivate
  | Action.event e => some (s.step e)
  | Action.configure silence activity advertise heartbit connection disconnection
      connectionSrv disconnectionSrv =>
    some (s.configure silence activity advertise heartbit connection disconnection
      connectionSrv disconnectionSrv)
  | Action.sweep elapsedMs now fuel =>
    match s.RunActivityTask elapsedMs now fuel with
    | Sweep.finished st _ => some st
    | Sweep.threw _ _ => none
    | Sweep.spinning => none

/-- The state after a sequence of actions, oldest first. -/
def performAll (s : DiscoveryPrivate) : List Action → Option DiscoveryPrivate
  | [] => some s
  | a :: as =>
    match s.perform a with
    | none => none
    | some s1 => performAll s1 as

/-- No entry of the activity table is keyed by the engine's own pUuid. -/
def NoOwnEntry (s : DiscoveryPrivate) : Prop :=
  ∀ e ∈ s.activity, e.1 ≠ s.pUuid

end DiscoveryPrivate

/-- A HELLO of process C. -/
def helloFromC : Datagram := ⟨"C", "", HelloType, "", "", "", Scope.All⟩

/-- The fresh engine B receives the ADV of A at time 5 and the HELLO of C at
time 3000, and then the sweep passes at time 3006. -/
def sweepAfterTwoPeers : List DiscoveryPrivate.Action :=
  [DiscoveryPrivate.Action.event (DiscoveryPrivate.Event.receive 5 "10.0.0.1" advFromA),
   DiscoveryPrivate.Action.event (DiscoveryPrivate.Event.receive 3000 "10.0.0.3" helloFromC)]

namespace DiscoveryPrivate

/-- The actions that remove the record of the node `nUuid` of another process
`pUuid` for `topic` from the registry of an engine in state `s`: a received
datagram that removes it (`removesRecord`), or a sweep pass that comes to its
end and reports the process gone with
`onDisconnection("", "", "", pUuid, "", All)`. -/
def removesRecordAt (s : DiscoveryPrivate) (topic pUuid nUuid : String) : Action → Prop
  | Action.event e => removesRecord s topic pUuid nUuid e
  | Action.configure _ _ _ _ _ _ _ _ => False
  | Action.sweep elapsedMs now fuel =>
    ∃ st calls, s.RunActivityTask elapsedMs now fuel = Sweep.finished st calls ∧
      goneCall pUuid ∈ calls

end DiscoveryPrivate

/-! ## The elapsed time of the sweep -/

/-- The number of binary digits of `n`, counted in at most `fuel` steps. -/
def bitLength : Nat → Nat → Nat
  | 0, _ => 0
  | fuel + 1, n => if n = 0 then 0 else bitLength fuel (n / 2) + 1

/-- The `double` nearest to the fraction `num / den` (`den` positive), ties to
the even significand, as the pair (m, e) of the value `m * 2 ^ e` with
`2 ^ 52 ≤ m < 2 ^ 53`, and (0, 0) for zero.  The exponent is not bounded: the
values met here are far from the overflow and underflow of the format. -/
def roundToDouble (num den : Nat) : Nat × Int :=
  if num = 0 then
    (0, 0)
  else
    let e₀ : Int := (bitLength num num : Int) - (bitLength den den : Int) - 52
    let q₀ := (num * 2 ^ (-e₀).toNat) / (den * 2 ^ e₀.toNat)
    let e : Int := if 2 ^ 52 ≤ q₀ then e₀ else e₀ - 1
    let n := num * 2 ^ (-e).toNat
    let d := den * 2 ^ e.toNat
    let q := n / d
    let r := n % d
    let m := if d < 2 * r ∨ (2 * r = d ∧ q % 2 = 1) then q + 1 else q
    if m = 2 ^ 53 then (2 ^ 52, e + 1) else (m, e)

/-- The quotient `x / c` of `double`s, for a whole number `c` below `2 ^ 53`. -/
def divDouble (x : Nat × Int) (c : Nat) : Nat × Int :=
  roundToDouble (x.1 * 2 ^ x.2.toNat) (c * 2 ^ (-x.2).toNat)

/-- The product `x * c` of `double`s, for a whole number `c` below `2 ^ 53`. -/
def mulDouble (x : Nat × Int) (c : Nat) : Nat × Int :=
  roundToDouble (x.1 * c * 2 ^ x.2.toNat) (2 ^ (-x.2).toNat)

/-- The whole part of a `double`, what the cast to an integer type keeps. -/
def truncDouble (x : Nat × Int) : Nat :=
  (x.1 * 2 ^ x.2.toNat) / 2 ^ (-x.2).toNat

/-- The count that `RunActivityTask` compares with `silenceInterval`:
`std::chrono::duration<double> elapsed = now - it->second;` followed by
`duration_cast<std::chrono::milliseconds>(elapsed).count()`, for time points
whose tick is the nanosecond.  By the rules of `duration_cast` the tick
difference is cast to `double` and divided by 1000000000, which gives the
`double` count of seconds; that count is multiplied by 1000 and cast to the
integer count of milliseconds, which drops the fraction.  Each operation
rounds as IEEE 754 binary64 does, to the nearest value and to the even
significand on a tie; a negative difference has the count of its absolute
value with the sign. -/
def elapsedMilliseconds (now t : Timestamp) : Int :=
  let ticks := now - t
  let seconds := divDouble (roundToDouble ticks.natAbs 1) 1000000000
  let ms := truncDouble (mulDouble seconds 1000)
  if ticks < 0 then -(ms : Int) else ms

/-- Engine B with the four callbacks set and `silenceInterval` set to 1000 ms,
after it received the ADV of process A at tick 5, ticks being nanoseconds. -/
def engineBSilence1000 : DiscoveryPrivate :=
  (DiscoveryPrivate.DispatchDiscoveryMsg { engineB with silenceInterval := 1000 } 5
    "10.0.0.1" advFromA).st

/-! ## Publisher records (`src/Publisher.cc`) -/

/-- A `std::string` of the publisher records, or a stretch of a `char` buffer:
its bytes, in order. -/
abbrev Bytes := List Nat

/-- Value of `enum class Scope_t`, given by its integer value.  Modelled from
the spec: the enumeration is declared outside `src/` and its enumerators are
`Process`, `Host` and `All`, in this order. -/
structure Scope_t where
  val : Nat
  deriving DecidableEq, Repr

/-- The enumerator `Scope_t::Process`. -/
def Scope_t.Process : Scope_t := ⟨0⟩
/-- The enumerator `Scope_t::Host`. -/
def Scope_t.Host : Scope_t := ⟨1⟩
/-- The enumerator `Scope_t::All`. -/
def Scope_t.All : Scope_t := ⟨2⟩

/-- The conversion `static_cast<uint8_t>(scope)`. -/
def Scope_t.toUInt8 (sc : Scope_t) : Nat := sc.val % 256

/-- The eight bytes that `memcpy(_buffer, &n, sizeof(uint64_t))` copies for the
64-bit unsigned `n` on a little-endian host, least significant byte first. -/
def u64le (n : Nat) : Bytes :=
  (List.range 8).map (fun i => n % 2 ^ 64 / 256 ^ i % 256)

/-- The buffer after `memcpy(_buffer + off, src, src.size())`: the bytes at
the offsets `off .. off + |src| - 1` are those of `src`, the others are kept. -/
def memcpy (buf : Bytes) (off : Nat) (src : Bytes) : Bytes :=
  buf.take off ++ src ++ buf.drop (off + src.length)

/-- The fields of `class Publisher`. -/
structure Publisher where
  topic : Bytes
  addr : Bytes
  pUuid : Bytes
  nUuid : Bytes
  scope : Scope_t
  deriving DecidableEq, Repr

namespace Publisher

/-- `Publisher::GetMsgLength`. -/
def GetMsgLength (p : Publisher) : Nat :=
  8 + p.topic.length + 8 + p.addr.length + 8 + p.nUuid.length + 1

/-- `Publisher::Pack` into the buffer `buf`: the value returned and the
buffer afterwards.  The local `off` is the distance by which the pointer
`_buffer` has been advanced. -/
def Pack (p : Publisher) (buf : Bytes) : Nat × Bytes :=
  if p.topic.isEmpty || p.addr.isEmpty || p.nUuid.isEmpty then
    (0, buf)
  else
    let topicLength := p.topic.length
    let buf := memcpy buf 0 (u64le topicLength)
    let off := 8
    let buf := memcpy buf off p.topic
    let off := off + topicLength
    let addrLength := p.addr.length
    let buf := memcpy buf off (u64le addrLength)
    let off := off + 8
    let buf := memcpy buf off p.addr
    let off := off + addrLength
    let nUuidLength := p.nUuid.length
    let buf := memcpy buf off (u64le nUuidLength)
    let off := off + 8
    let buf := memcpy buf off p.nUuid
    let off := off + nUuidLength
    let buf := memcpy buf off [p.scope.toUInt8]
    (p.GetMsgLength, buf)

/-- The bytes of the wire record of a publisher:
`u64 topic_len | topic | u64 addr_len | addr | u64 nUuid_len | nUuid | u8 scope`. -/
def wire (p : Publisher) : Bytes :=
  u64le p.topic.length ++ p.topic ++ u64le p.addr.length ++ p.addr ++
    u64le p.nUuid.length ++ p.nUuid ++ [p.scope.toUInt8]

end Publisher

/-- A publisher of topic `/t` (bytes 47, 116) at address `a:1`, node `n1`. -/
def publisherSample : Publisher :=
  ⟨[47, 116], [97, 58, 49], [65], [110, 49], Scope_t.All⟩

/-! ## Unpacking, message and service publishers -/

/-- The value of a sequence of bytes read as an unsigned integer, least
significant byte first. -/
def decodeLE : Bytes → Nat
  | [] => 0
  | b :: bs => b % 256 + 256 * decodeLE bs

/-- The 64-bit unsigned that `memcpy(&n, _buffer + off, sizeof(uint64_t))`
reads on a little-endian host. -/
def readU64 (buf : Bytes) (off : Nat) : Nat :=
  decodeLE ((buf.drop off).take 8)

/-- The string `std::string(_buffer + off, _buffer + off + len)`. -/
def readString (buf : Bytes) (off len : Nat) : Bytes :=
  (buf.drop off).take len

/-- The byte that `memcpy(&b, _buffer + off, sizeof(uint8_t))` reads. -/
def readU8 (buf : Bytes) (off : Nat) : Nat :=
  buf.getD off 0 % 256

namespace Publisher

/-- `Publisher::Unpack` from the buffer `buffer` (`none` for the null
pointer): the value returned and the publisher afterwards. -/
def Unpack (q : Publisher) (buffer : Option Bytes) : Nat × Publisher :=
  match buffer with
  | none => (0, q)
  | some buf =>
    let topicLength := readU64 buf 0
    let off := 8
    let q := { q with topic := readString buf off topicLength }
    let off := off + topicLength
    let addrLength := readU64 buf off
    let off := off + 8
    let q := { q with addr := readString buf off addrLength }
    let off := off + addrLength
    let nUuidLength := readU64 buf off
    let off := off + 8
    let q := { q with nUuid := readString buf off nUuidLength }
    let off := off + nUuidLength
    let q := { q with scope := ⟨readU8 buf off⟩ }
    (q.GetMsgLength, q)

end Publisher

/-- The fields of `class MessagePublisher`, a `Publisher` with a control
address and a message type name. -/
structure MessagePublisher extends Publisher where
  ctrl : Bytes
  msgTypeName : Bytes
  deriving DecidableEq, Repr

namespace MessagePublisher

/-- `MessagePublisher::GetMsgLength`. -/
def GetMsgLength (m : MessagePublisher) : Nat :=
  m.toPublisher.GetMsgLength + 8 + m.ctrl.length + 8 + m.msgTypeName.length

/-- `MessagePublisher::Pack`.  Modelled from the spec: `Publisher::Pack` ends
with `return this->GetMsgLength()` and the declaration of `GetMsgLength` is in
`Publisher.hh`, outside `src/`; the record `Publisher | ctrl | typeName` of
section 6 is the one written when that call is bound to
`Publisher::GetMsgLength`, which is what is taken here. -/
def Pack (m : MessagePublisher) (buf : Bytes) : Nat × Bytes :=
  if m.ctrl.isEmpty || m.msgTypeName.isEmpty then
    (0, buf)
  else
    let r := m.toPublisher.Pack buf
    let len := r.1
    if len = 0 then
      (0, r.2)
    else
      let buf := r.2
      let off := len
      let ctrlLength := m.ctrl.length
      let buf := memcpy buf off (u64le ctrlLength)
      let off := off + 8
      let buf := memcpy buf off m.ctrl
      let off := off + ctrlLength
      let typeNameLength := m.msgTypeName.length
      let buf := memcpy buf off (u64le typeNameLength)
      let off := off + 8
      let buf := memcpy buf off m.msgTypeName
      (m.GetMsgLength, buf)

/-- `MessagePublisher::Unpack`, with the same binding of `GetMsgLength` in
`Publisher::Unpack` as in `Pack`. -/
def Unpack (q : MessagePublisher) (buffer : Option Bytes) :
    Nat × MessagePublisher :=
  match buffer with
  | none => (0, q)
  | some buf =>
    let r := q.toPublisher.Unpack (some buf)
    let len := r.1
    let q := { q with toPublisher := r.2 }
    if len = 0 then
      (0, q)
    else
      let off := len
      let ctrlLength := readU64 buf off
      let off := off + 8
      let q := { q with ctrl := readString buf off ctrlLength }
      let off := off + ctrlLength
      let typeNameLength := readU64 buf off
      let off := off + 8
      let q := { q with msgTypeName := readString buf off typeNameLength }
      (q.GetMsgLength, q)

/-- The bytes of the wire record of a message publisher:
`Publisher | u64 ctrl_len | ctrl | u64 typeName_len | typeName`. -/
def wire (m : MessagePublisher) : Bytes :=
  m.toPublisher.wire ++ u64le m.ctrl.length ++ m.ctrl ++
    u64le m.msgTypeName.length ++ m.msgTypeName

end MessagePublisher

/-- The fields of `class ServicePublisher`, a `Publisher` with a socket
identifier and the names of the request and response types. -/
structure ServicePublisher extends Publisher where
  socketId : Bytes
  reqTypeName : Bytes
  repTypeName : Bytes
  deriving DecidableEq, Repr

namespace ServicePublisher

/-- `ServicePublisher::GetMsgLength`. -/
def GetMsgLength (s : ServicePublisher) : Nat :=
  8 + s.topic.length + 8 + s.addr.length + 8 + s.socketId.length +
    8 + s.nUuid.length + 1 + 8 + s.reqTypeName.length + 8 + s.repTypeName.length

/-- `ServicePublisher::Pack`, with the same binding of `GetMsgLength` in
`Publisher::Pack` as for `MessagePublisher`. -/
def Pack (s : ServicePublisher) (buf : Bytes) : Nat × Bytes :=
  if s.socketId.isEmpty || s.reqTypeName.isEmpty || s.repTypeName.isEmpty then
    (0, buf)
  else
    let r := s.toPublisher.Pack buf
    let len := r.1
    if len = 0 then
      (0, r.2)
    else
      let buf := r.2
      let off := len
      let socketIdLength := s.socketId.length
      let buf := memcpy buf off (u64le socketIdLength)
      let off := off + 8
      let buf := memcpy buf off s.socketId
      let off := off + socketIdLength
      let reqTypeLength := s.reqTypeName.length
      let buf := memcpy buf off (u64le reqTypeLength)
      let off := off + 8
      let buf := memcpy buf off s.reqTypeName
      let off := off + reqTypeLength
      let repTypeLength := s.repTypeName.length
      let buf := memcpy buf off (u64le repTypeLength)
      let off := off + 8
      let buf := memcpy buf off s.repTypeName
      (s.GetMsgLength, buf)

/-- `ServicePublisher::Unpack`. -/
def Unpack (q : ServicePublisher) (buffer : Option Bytes) :
    Nat × ServicePublisher :=
  match buffer with
  | none => (0, q)
  | some buf =>
    let r := q.toPublisher.Unpack (some buf)
    let len := r.1
    let q := { q with toPublisher := r.2 }
    if len = 0 then
      (0, q)
    else
      let off := len
      let socketIdLength := readU64 buf off
      let off := off + 8
      let q := { q with socketId := readString buf off socketIdLength }
      let off := off + socketIdLength
      let reqTypeLength := readU64 buf off
      let off := off + 8
      let q := { q with reqTypeName := readString buf off reqTypeLength }
      let off := off + reqTypeLength
      let repTypeLength := readU64 buf off
      let off := off + 8
      let q := { q with repTypeName := readString buf off repTypeLength }
      (q.GetMsgLength, q)

/-- The bytes of the wire record of a service publisher:
`Publisher | u64 socketId_len | socketId | u64 reqType_len | reqType |
u64 repType_len | repType`. -/
def wire (s : ServicePublisher) : Bytes :=
  s.toPublisher.wire ++ u64le s.socketId.length ++ s.socketId ++
    u64le s.reqTypeName.length ++ s.reqTypeName ++
    u64le s.repTypeName.length ++ s.repTypeName

end ServicePublisher

/-- A message publisher on top of `publisherSample`, control address `c:2`,
message type `M`. -/
def messagePublisherSample : MessagePublisher :=
  { publisherSample with ctrl := [99, 58, 50], msgTypeName := [77] }

/-- A service publisher on top of `publisherSample`, socket `s`, request type
`Q`, response type `R`. -/
def servicePublisherSample : ServicePublisher :=
  { publisherSample with socketId := [115], reqTypeName := [81], repTypeName := [82] }

/-- A publisher with all strings empty, as a default-constructed one. -/
def publisherBlank : Publisher := ⟨[], [], [], [], Scope_t.Process⟩

/-! ## Lemmas on ordered maps -/

namespace SMap
variable {β : Type}

theorem find_replace_self (m : SMap β) (k : String) (v : β) :
    find (replace m k v) k = (find m k).map (fun _ => v) := by
  induction m with
  | nil => rfl
  | cons e rest ih =>
    obtain ⟨k', v'⟩ := e
    by_cases h : k' = k
    · simp [replace, find, h]
    · simp [replace, find, h, ih]

theorem find_replace_ne (m : SMap β) (k k₂ : String) (v : β) (hne : k₂ ≠ k) :
    find (replace m k v) k₂ = find m k₂ := by
  induction m with
  | nil => rfl
  | cons e rest ih =>
    obtain ⟨k', v'⟩ := e
    by_cases h : k' = k
    · subst h
      have h2 : ¬ k' = k₂ := fun h => hne h.symm
      simp [replace, find, h2]
    · by_cases h2 : k' = k₂
      · subst h2; simp [replace, find, h]
      · simp [replace, find, h, h2, ih]

theorem find_place_self (m : SMap β) (k : String) (v : β) (hk : find m k = none) :
    find (place m k v) k = some v := by
  induction m with
  | nil => simp [place, find]
  | cons e rest ih =>
    obtain ⟨k', v'⟩ := e
    by_cases h : k' = k
    · simp [find, h] at hk
    · simp only [find, h, if_false] at hk
      by_cases hlt : strLt k k' = true
      · simp [place, find, hlt]
      · simp [place, find, hlt, h, ih hk]

theorem find_place_ne (m : SMap β) (k k₂ : String) (v : β) (hne : k₂ ≠ k) :
    find (place m k v) k₂ = find m k₂ := by
  have hne2 : ¬ k = k₂ := fun h => hne h.symm
  induction m with
  | nil => simp [place, find, hne2]
  | cons e rest ih =>
    obtain ⟨k', v'⟩ := e
    by_cases hlt : strLt k k' = true
    · simp [place, find, hlt, hne2]
    · by_cases h2 : k' = k₂
      · subst h2; simp [place, find, hlt]
      · simp [place, find, hlt, h2, ih]

theorem find_insert_self (m : SMap β) (k : String) (v : β) :
    find (insert m k v) k = some v := by
  unfold insert
  cases h : find m k with
  | none => simpa using find_place_self m k v h
  | some w => simp [find_replace_self, h]

theorem find_insert_ne (m : SMap β) (k k₂ : String) (v : β) (hne : k₂ ≠ k) :
    find (insert m k v) k₂ = find m k₂ := by
  unfold insert
  cases h : find m k with
  | none => simpa using find_place_ne m k k₂ v hne
  | some w => simpa using find_replace_ne m k k₂ v hne

theorem erase_cons_eq (rest : SMap β) (k : String) (v : β) :
    erase ((k, v) :: rest) k = erase rest k := by
  simp [erase, List.filter]

theorem erase_cons_ne (rest : SMap β) (k k' : String) (v : β) (h : k' ≠ k) :
    erase ((k', v) :: rest) k = (k', v) :: erase rest k := by
  simp [erase, List.filter, h]

theorem find_erase_self (m : SMap β) (k : String) : find (erase m k) k = none := by
  induction m with
  | nil => rfl
  | cons e rest ih =>
    obtain ⟨k', v'⟩ := e
    by_cases h : k' = k
    · subst h; rw [erase_cons_eq]; exact ih
    · rw [erase_cons_ne _ _ _ _ h]; simp [find, h, ih]

theorem find_erase_ne (m : SMap β) (k k₂ : String) (hne : k₂ ≠ k) :
    find (erase m k) k₂ = find m k₂ := by
  induction m with
  | nil => rfl
  | cons e rest ih =>
    obtain ⟨k', v'⟩ := e
    by_cases h : k' = k
    · subst h
      have h2 : ¬ k' = k₂ := fun h => hne h.symm
      rw [erase_cons_eq]; simp [find, h2, ih]
    · rw [erase_cons_ne _ _ _ _ h]
      by_cases h2 : k' = k₂
      · simp [find, h2]
      · simp [find, h2, ih]

theorem find_eq_none_of_not_mem (m : SMap β) (k : String)
    (h : k ∉ m.map Prod.fst) : find m k = none := by
  induction m with
  | nil => rfl
  | cons e rest ih =>
    obtain ⟨k', v'⟩ := e
    simp only [List.map_cons, List.mem_cons, not_or] at h
    have h1 : ¬ k' = k := fun h' => h.1 h'.symm
    simp [find, h1, ih h.2]

theorem find_of_mem (m : SMap β) (hm : WF m) (k : String) (v : β)
    (h : (k, v) ∈ m) : find m k = some v := by
  induction m with
  | nil => simp at h
  | cons e rest ih =>
    obtain ⟨k', v'⟩ := e
    simp only [WF, List.map_cons, List.nodup_cons] at hm
    rcases List.mem_cons.mp h with h | h
    · cases h; simp [find]
    · have hk : k ∈ rest.map Prod.fst := List.mem_map.mpr ⟨(k, v), h, rfl⟩
      have h1 : ¬ k' = k := fun h' => hm.1 (h' ▸ hk)
      simp [find, h1, ih hm.2 h]

theorem WF_erase (m : SMap β) (k : String) (hm : WF m) : WF (erase m k) := by
  unfold WF erase
  exact List.Nodup.sublist (List.Sublist.map _ (List.filter_sublist m)) hm

theorem erase_eq_nil_find (m : SMap β) (k k₂ : String) (h : erase m k = [])
    (hne : k₂ ≠ k) : find m k₂ = none := by
  rw [← find_erase_ne m k k₂ hne, h]; rfl

theorem insert_ne_nil (m : SMap β) (k : String) (v : β) : insert m k v ≠ [] := by
  intro h
  have := find_insert_self m k v
  rw [h] at this
  simp [find] at this

end SMap

/-! ## Lemmas on the registry -/

namespace TopicStorage

theorem records_of_find_none {data : TopicStorage} {t : String}
    (h : SMap.find data t = none) (p : String) : records data t p = [] := by
  simp only [records, h]

theorem records_of_find_some {data : TopicStorage} {t : String} {m : Addresses_M}
    (h : SMap.find data t = some m) (p : String) :
    records data t p = (SMap.find m p).getD [] := by
  simp only [records, h]

theorem GetAddress_eq_records (data : TopicStorage) (t p n : String) :
    GetAddress data t p n = (records data t p).find? (fun a => decide (a.nUuid = n)) := by
  cases h : SMap.find data t with
  | none => simp only [GetAddress, records, h, List.find?_nil]
  | some m =>
    cases h2 : SMap.find m p with
    | none => simp only [GetAddress, records, h, h2, Option.getD_none, List.find?_nil]
    | some v => simp only [GetAddress, records, h, h2, Option.getD_some]

theorem records_AddAddress (data : TopicStorage) (t a c p n : String) (sc : Scope)
    (t₂ p₂ : String) :
    records (AddAddress data t a c p n sc).2 t₂ p₂ =
      if t₂ = t ∧ p₂ = p ∧ GetAddress data t p n = none then
        records data t p ++ [⟨a, c, p, n, sc⟩]
      else records data t₂ p₂ := by
  cases hg : GetAddress data t p n with
  | some r => simp [AddAddress, hg]
  | none =>
    simp only [AddAddress, hg, and_true]
    by_cases ht : t₂ = t
    · subst ht
      by_cases hp : p₂ = p
      · subst hp
        simp only [and_self, if_true]
        rw [records_of_find_some (SMap.find_insert_self _ _ _), SMap.find_insert_self]
        cases h : SMap.find data t₂ with
        | none => simp only [records, h, Option.getD_none, Option.getD_some, SMap.find]
        | some m => simp only [records, h, Option.getD_some]
      · simp only [hp, and_false, if_false]
        rw [records_of_find_some (SMap.find_insert_self _ _ _),
          SMap.find_insert_ne _ _ _ _ hp]
        cases h : SMap.find data t₂ with
        | none => simp only [records, h, Option.getD_none, SMap.find]
        | some m => simp only [records, h, Option.getD_some]
    · simp only [ht, false_and, if_false]
      simp only [records, SMap.find_insert_ne _ _ _ _ ht]

theorem AddAddress_fst (data : TopicStorage) (t a c p n : String) (sc : Scope) :
    (AddAddress data t a c p n sc).1 = (GetAddress data t p n).isNone := by
  cases h : GetAddress data t p n <;> simp only [AddAddress, h] <;> rfl

theorem GetAddress_AddAddress_self (data : TopicStorage) (t a c p n : String)
    (sc : Scope) :
    GetAddress (AddAddress data t a c p n sc).2 t p n =
      some ((GetAddress data t p n).getD ⟨a, c, p, n, sc⟩) := by
  rw [GetAddress_eq_records, records_AddAddress]
  cases hg : GetAddress data t p n with
  | some r => simp [← GetAddress_eq_records, hg]
  | none =>
    rw [GetAddress_eq_records] at hg
    simp [List.find?_append, hg]

theorem find_inner_after (m : Addresses_M) (p : String) (v' : List Address_t)
    (p₂ : String) :
    (SMap.find (if v'.isEmpty then SMap.erase m p else SMap.insert m p v') p₂).getD [] =
      if p₂ = p then v' else (SMap.find m p₂).getD [] := by
  by_cases hv : v'.isEmpty = true
  · rw [if_pos hv]
    by_cases hp : p₂ = p
    · subst hp
      rw [SMap.find_erase_self, if_pos rfl, List.isEmpty_iff.mp hv]; rfl
    · rw [SMap.find_erase_ne _ _ _ hp, if_neg hp]
  · rw [if_neg hv]
    by_cases hp : p₂ = p
    · subst hp
      rw [SMap.find_insert_self, if_pos rfl]; rfl
    · rw [SMap.find_insert_ne _ _ _ _ hp, if_neg hp]

theorem records_outer_after (data : TopicStorage) (t : String) (m' : Addresses_M)
    (t₂ p₂ : String) :
    records (if m'.isEmpty then SMap.erase data t else SMap.insert data t m') t₂ p₂ =
      if t₂ = t then (SMap.find m' p₂).getD [] else records data t₂ p₂ := by
  by_cases he : m'.isEmpty = true
  · rw [if_pos he]
    by_cases ht : t₂ = t
    · subst ht
      rw [records_of_find_none (SMap.find_erase_self _ _), if_pos rfl,
        List.isEmpty_iff.mp he]
      rfl
    · rw [if_neg ht]
      simp only [records, SMap.find_erase_ne _ _ _ ht]
  · rw [if_neg he]
    by_cases ht : t₂ = t
    · subst ht
      rw [records_of_find_some (SMap.find_insert_self _ _ _), if_pos rfl]
    · rw [if_neg ht]
      simp only [records, SMap.find_insert_ne _ _ _ _ ht]

theorem records_DelAddressByNode (data : TopicStorage) (t p n t₂ p₂ : String) :
    records (DelAddressByNode data t p n) t₂ p₂ =
      if t₂ = t ∧ p₂ = p then
        (records data t p).filter (fun a => decide (a.nUuid ≠ n))
      else records data t₂ p₂ := by
  cases hft : SMap.find data t with
  | none =>
    simp only [DelAddressByNode, hft]
    by_cases h : t₂ = t ∧ p₂ = p
    · obtain ⟨rfl, rfl⟩ := h
      rw [if_pos ⟨rfl, rfl⟩, records_of_find_none hft]; rfl
    · rw [if_neg h]
  | some m =>
    cases hfp : SMap.find m p with
    | none =>
      simp only [DelAddressByNode, hft, hfp]
      by_cases h : t₂ = t ∧ p₂ = p
      · obtain ⟨rfl, rfl⟩ := h
        rw [if_pos ⟨rfl, rfl⟩, records_of_find_some hft, hfp]; rfl
      · rw [if_neg h]
    | some v =>
      simp only [DelAddressByNode, hft, hfp]
      rw [records_outer_after, find_inner_after]
      have hrec : records data t p = v := by
        rw [records_of_find_some hft, hfp]; rfl
      by_cases ht : t₂ = t
      · subst ht
        by_cases hp : p₂ = p
        · subst hp
          rw [if_pos rfl, if_pos rfl, if_pos ⟨rfl, rfl⟩, hrec]
        · rw [if_pos rfl, if_neg hp, if_neg (fun h => hp h.2), records_of_find_some hft]
      · rw [if_neg ht, if_neg (fun h => ht h.1)]

theorem DelAddressesByProc_cons (t₀ : String) (m₀ : Addresses_M) (rest : TopicStorage)
    (p : String) :
    DelAddressesByProc ((t₀, m₀) :: rest) p =
      if (SMap.erase m₀ p).isEmpty then DelAddressesByProc rest p
      else (t₀, SMap.erase m₀ p) :: DelAddressesByProc rest p := by
  by_cases he : (SMap.erase m₀ p).isEmpty = true
  · rw [if_pos he]
    simp only [DelAddressesByProc, List.filterMap_cons, he, if_true]
  · rw [if_neg he]
    simp only [DelAddressesByProc, List.filterMap_cons, he, Bool.false_eq_true, if_false]

theorem find_DelAddressesByProc (data : TopicStorage) (hwf : SMap.WF data)
    (p t : String) :
    SMap.find (DelAddressesByProc data p) t =
      match SMap.find data t with
      | none => none
      | some m => if (SMap.erase m p).isEmpty then none else some (SMap.erase m p) := by
  induction data with
  | nil => rfl
  | cons e rest ih =>
    obtain ⟨t₀, m₀⟩ := e
    simp only [SMap.WF, List.map_cons, List.nodup_cons] at hwf
    have ih := ih hwf.2
    rw [DelAddressesByProc_cons]
    by_cases ht : t₀ = t
    · subst ht
      have hrest : SMap.find rest t₀ = none :=
        SMap.find_eq_none_of_not_mem rest t₀ hwf.1
      by_cases he : (SMap.erase m₀ p).isEmpty = true
      · rw [if_pos he, ih, hrest]
        simp only [SMap.find, if_true, he]
      · rw [if_neg he]
        simp only [SMap.find, if_true, he, Bool.false_eq_true, if_false]
    · by_cases he : (SMap.erase m₀ p).isEmpty = true
      · rw [if_pos he, ih]
        simp only [SMap.find, ht, if_false]
      · rw [if_neg he]
        simp only [SMap.find, ht, if_false]
        exact ih

theorem keys_DelAddressesByProc (data : TopicStorage) (p k : String)
    (hk : k ∈ (DelAddressesByProc data p).map Prod.fst) : k ∈ data.map Prod.fst := by
  induction data with
  | nil => exact hk
  | cons e rest ih =>
    obtain ⟨t₀, m₀⟩ := e
    rw [DelAddressesByProc_cons] at hk
    by_cases he : (SMap.erase m₀ p).isEmpty = true
    · rw [if_pos he] at hk
      exact List.mem_cons_of_mem _ (ih hk)
    · rw [if_neg he] at hk
      simp only [List.map_cons, List.mem_cons] at hk ⊢
      rcases hk with hk | hk
      · exact Or.inl hk
      · exact Or.inr (ih hk)

theorem WF_DelAddressesByProc (data : TopicStorage) (hwf : SMap.WF data) (p : String) :
    SMap.WF (DelAddressesByProc data p) := by
  induction data with
  | nil => exact hwf
  | cons e rest ih =>
    obtain ⟨t₀, m₀⟩ := e
    simp only [SMap.WF, List.map_cons, List.nodup_cons] at hwf
    have ih := ih hwf.2
    rw [DelAddressesByProc_cons]
    by_cases he : (SMap.erase m₀ p).isEmpty = true
    · rw [if_pos he]; exact ih
    · rw [if_neg he]
      simp only [SMap.WF, List.map_cons, List.nodup_cons]
      exact ⟨fun h => hwf.1 (keys_DelAddressesByProc rest p t₀ h), ih⟩

theorem records_DelAddressesByProc (data : TopicStorage) (hwf : SMap.WF data)
    (p t p₂ : String) :
    records (DelAddressesByProc data p) t p₂ =
      if p₂ = p then [] else records data t p₂ := by
  have hf := find_DelAddressesByProc data hwf p t
  cases hft : SMap.find data t with
  | none =>
    rw [hft] at hf
    rw [records_of_find_none hf, records_of_find_none hft, ite_self]
  | some m =>
    rw [hft] at hf
    simp only at hf
    rw [records_of_find_some hft]
    by_cases he : (SMap.erase m p).isEmpty = true
    · rw [if_pos he] at hf
      rw [records_of_find_none hf]
      by_cases hp : p₂ = p
      · rw [if_pos hp]
      · rw [if_neg hp, SMap.erase_eq_nil_find m p p₂ (List.isEmpty_iff.mp he) hp]; rfl
    · rw [if_neg he] at hf
      rw [records_of_find_some hf]
      by_cases hp : p₂ = p
      · subst hp; rw [SMap.find_erase_self, if_pos rfl]; rfl
      · rw [SMap.find_erase_ne _ _ _ hp, if_neg hp]

theorem GetAddress_DelAddressesByProc_self (data : TopicStorage) (hwf : SMap.WF data)
    (p t n : String) : GetAddress (DelAddressesByProc data p) t p n = none := by
  rw [GetAddress_eq_records, records_DelAddressesByProc data hwf, if_pos rfl]; rfl

theorem GetAddress_DelAddressesByProc_ne (data : TopicStorage) (hwf : SMap.WF data)
    (p t p₂ n : String) (hp : p₂ ≠ p) :
    GetAddress (DelAddressesByProc data p) t p₂ n = GetAddress data t p₂ n := by
  rw [GetAddress_eq_records, records_DelAddressesByProc data hwf, if_neg hp,
    ← GetAddress_eq_records]

theorem find?_filter_nUuid_self (v : List Address_t) (n : String) :
    (v.filter (fun a => decide (a.nUuid ≠ n))).find? (fun a => decide (a.nUuid = n)) =
      none := by
  induction v with
  | nil => rfl
  | cons a rest ih =>
    by_cases h : a.nUuid = n
    · rw [List.filter_cons_of_neg (by simp [h])]; exact ih
    · rw [List.filter_cons_of_pos (by simp [h]), List.find?_cons_of_neg _ (by simp [h])]
      exact ih

theorem find?_filter_nUuid_ne (v : List Address_t) (n n₂ : String) (hn : n₂ ≠ n) :
    (v.filter (fun a => decide (a.nUuid ≠ n))).find? (fun a => decide (a.nUuid = n₂)) =
      v.find? (fun a => decide (a.nUuid = n₂)) := by
  induction v with
  | nil => rfl
  | cons a rest ih =>
    by_cases h : a.nUuid = n
    · have h2 : ¬ a.nUuid = n₂ := fun h' => hn (h'.symm.trans h)
      rw [List.filter_cons_of_neg (by simp [h]), List.find?_cons_of_neg _ (by simp [h2])]
      exact ih
    · rw [List.filter_cons_of_pos (by simp [h])]
      by_cases h2 : a.nUuid = n₂
      · rw [List.find?_cons_of_pos _ (by simp [h2]), List.find?_cons_of_pos _ (by simp [h2])]
      · rw [List.find?_cons_of_neg _ (by simp [h2]), List.find?_cons_of_neg _ (by simp [h2])]
        exact ih

theorem GetAddress_DelAddressByNode_self (data : TopicStorage) (t p n : String) :
    GetAddress (DelAddressByNode data t p n) t p n = none := by
  rw [GetAddress_eq_records, records_DelAddressByNode, if_pos ⟨rfl, rfl⟩]
  exact find?_filter_nUuid_self _ _

theorem GetAddress_DelAddressByNode_ne (data : TopicStorage) (t p n t₂ p₂ n₂ : String)
    (h : ¬ (t₂ = t ∧ p₂ = p ∧ n₂ = n)) :
    GetAddress (DelAddressByNode data t p n) t₂ p₂ n₂ = GetAddress data t₂ p₂ n₂ := by
  rw [GetAddress_eq_records, records_DelAddressByNode, GetAddress_eq_records]
  by_cases htp : t₂ = t ∧ p₂ = p
  · obtain ⟨rfl, rfl⟩ := htp
    rw [if_pos ⟨rfl, rfl⟩]
    exact find?_filter_nUuid_ne _ _ _ (fun hn => h ⟨rfl, rfl, hn⟩)
  · rw [if_neg htp]

end TopicStorage

/-! ## Dispatch of received datagrams -/

open DiscoveryPrivate TopicStorage

theorem scopeDrops_eq_false (s : DiscoveryPrivate) (fromIp : String) (sc : Scope) :
    s.scopeDrops fromIp sc = false ↔
      (sc = Scope.All ∨ (sc = Scope.Host ∧ fromIp = s.hostAddr)) := by
  cases sc <;> simp [scopeDrops]

theorem scopeDrops_eq_true (s : DiscoveryPrivate) (fromIp : String) (sc : Scope) :
    s.scopeDrops fromIp sc = true ↔
      (sc = Scope.Process ∨ (sc = Scope.Host ∧ fromIp ≠ s.hostAddr)) := by
  cases sc <;> simp [scopeDrops]

theorem scopeDrops_activity (s : DiscoveryPrivate) (a : SMap Timestamp)
    (fromIp : String) (sc : Scope) :
    scopeDrops { s with activity := a } fromIp sc = s.scopeDrops fromIp sc := rfl

/-- C1: an ADV or ADV_SRV datagram of another process that passes the scope
filter leaves a record for (topic, sender pUuid, body nUuid) in the registry
(the one that was there, or else the advertised one); the connection callback
of the datagram kind is invoked exactly once, when set, if the registry had no
record for the triple, no callback is invoked if it had one, and a callback of
the other kind is never invoked. -/
theorem C1_adv_registers_and_notifies_once (s : DiscoveryPrivate) (now : Timestamp)
    (fromIp : String) (d : Datagram)
    (hself : d.pUuid ≠ s.pUuid)
    (htype : d.type = AdvType ∨ d.type = AdvSrvType)
    (hscope : d.scope = Scope.All ∨ (d.scope = Scope.Host ∧ fromIp = s.hostAddr)) :
    GetAddress (s.DispatchDiscoveryMsg now fromIp d).st.info d.topic d.pUuid d.nUuid =
        some ((GetAddress s.info d.topic d.pUuid d.nUuid).getD
          ⟨d.addr, d.ctrl, d.pUuid, d.nUuid, d.scope⟩) ∧
    (GetAddress s.info d.topic d.pUuid d.nUuid = none → d.type = AdvType →
      (s.DispatchDiscoveryMsg now fromIp d).calls =
        if s.connectionCb then
          [⟨CbKind.connection, d.topic, d.addr, d.ctrl, d.pUuid, d.nUuid, d.scope⟩]
        else []) ∧
    (GetAddress s.info d.topic d.pUuid d.nUuid = none → d.type = AdvSrvType →
      (s.DispatchDiscoveryMsg now fromIp d).calls =
        if s.connectionSrvCb then
          [⟨CbKind.connectionSrv, d.topic, d.addr, d.ctrl, d.pUuid, d.nUuid, d.scope⟩]
        else []) ∧
    (GetAddress s.info d.topic d.pUuid d.nUuid ≠ none →
      (s.DispatchDiscoveryMsg now fromIp d).calls = []) ∧
    (∀ c ∈ (s.DispatchDiscoveryMsg now fromIp d).calls,
      (d.type = AdvType → c.kind = CbKind.connection) ∧
      (d.type = AdvSrvType → c.kind = CbKind.connectionSrv)) := by
  have hpass : s.scopeDrops fromIp d.scope = false := (scopeDrops_eq_false _ _ _).mpr hscope
  have hrun : s.DispatchDiscoveryMsg now fromIp d =
      ⟨{ s with activity := s.activity.insert d.pUuid now,
                info := (AddAddress s.info d.topic d.addr d.ctrl d.pUuid d.nUuid d.scope).2 },
        if (GetAddress s.info d.topic d.pUuid d.nUuid).isNone then
          (if d.type = AdvType ∧ s.connectionCb then
            [⟨CbKind.connection, d.topic, d.addr, d.ctrl, d.pUuid, d.nUuid, d.scope⟩]
          else if d.type = AdvSrvType ∧ s.connectionSrvCb then
            [⟨CbKind.connectionSrv, d.topic, d.addr, d.ctrl, d.pUuid, d.nUuid, d.scope⟩]
          else [])
        else [], []⟩ := by
    unfold DispatchDiscoveryMsg
    simp only [hself, if_false, htype, if_true, scopeDrops_activity, hpass,
      Bool.false_eq_true, AddAddress_fst]
    cases hg : GetAddress s.info d.topic d.pUuid d.nUuid with
    | none =>
      simp only [Option.isNone_none, if_true]
      split <;> [rfl; (split <;> rfl)]
    | some r => simp only [Option.isNone_some, Bool.false_eq_true, if_false]
  rw [hrun]
  refine ⟨GetAddress_AddAddress_self _ _ _ _ _ _ _, ?_, ?_, ?_, ?_⟩
  · intro hnone hadv
    have h1 : ¬ AdvType = AdvSrvType := by decide
    simp [hnone, hadv, h1]
  · intro hnone hsrv
    have h2 : ¬ AdvSrvType = AdvType := by decide
    simp [hnone, hsrv, h2]
  · intro hsome
    cases hg : GetAddress s.info d.topic d.pUuid d.nUuid with
    | none => exact absurd hg hsome
    | some r => simp
  · intro c hc
    simp only at hc
    split at hc
    · split at hc
      · rename_i h
        simp only [List.mem_singleton] at hc
        subst hc
        exact ⟨fun _ => rfl, fun hsrv => by rw [hsrv] at h; exact absurd h.1 (by decide)⟩
      · split at hc
        · rename_i h
          simp only [List.mem_singleton] at hc
          subst hc
          exact ⟨fun hadv => by rw [hadv] at h; exact absurd h.1 (by decide), fun _ => rfl⟩
        · simp at hc
    · simp at hc

theorem dispatch_adv_dropped (s : DiscoveryPrivate) (now : Timestamp) (fromIp : String)
    (d : Datagram) (hself : d.pUuid ≠ s.pUuid)
    (htype : d.type = AdvType ∨ d.type = AdvSrvType)
    (hdrop : s.scopeDrops fromIp d.scope = true) :
    s.DispatchDiscoveryMsg now fromIp d =
      ⟨{ s with activity := s.activity.insert d.pUuid now }, [], []⟩ := by
  unfold DispatchDiscoveryMsg
  simp only [hself, if_false, htype, if_true, scopeDrops_activity, hdrop]

/-- C2: for an ADV or ADV_SRV datagram of another process, a body scope of
Process, or of Host with a source address other than the local host address,
leaves the registry unchanged and invokes no callback; so the registry changes
or a callback is invoked only if the scope is All, or Host with the source
address equal to the local host address. -/
theorem C2_adv_scope_filter (s : DiscoveryPrivate) (now : Timestamp)
    (fromIp : String) (d : Datagram)
    (hself : d.pUuid ≠ s.pUuid)
    (htype : d.type = AdvType ∨ d.type = AdvSrvType) :
    ((d.scope = Scope.Process ∨ (d.scope = Scope.Host ∧ fromIp ≠ s.hostAddr)) →
      (s.DispatchDiscoveryMsg now fromIp d).st.info = s.info ∧
      (s.DispatchDiscoveryMsg now fromIp d).calls = []) ∧
    (((s.DispatchDiscoveryMsg now fromIp d).st.info ≠ s.info ∨
        (s.DispatchDiscoveryMsg now fromIp d).calls ≠ []) →
      (d.scope = Scope.All ∨ (d.scope = Scope.Host ∧ fromIp = s.hostAddr))) := by
  have hdropped : s.scopeDrops fromIp d.scope = true →
      (s.DispatchDiscoveryMsg now fromIp d).st.info = s.info ∧
      (s.DispatchDiscoveryMsg now fromIp d).calls = [] := by
    intro h
    rw [dispatch_adv_dropped s now fromIp d hself htype h]
    exact ⟨rfl, rfl⟩
  refine ⟨fun h => hdropped ((scopeDrops_eq_true _ _ _).mpr h), ?_⟩
  intro hchg
  cases hd : s.scopeDrops fromIp d.scope with
  | false => exact (scopeDrops_eq_false _ _ _).mp hd
  | true =>
    obtain ⟨h1, h2⟩ := hdropped hd
    rcases hchg with h | h
    · exact absurd h1 h
    · exact absurd h2 h

/-- C3: a datagram whose header pUuid is the one of the engine, whatever its
type, leaves the whole engine state unchanged (registry, activity table and
beacon table included), publishes nothing and invokes no callback. -/
theorem C3_self_datagram_ignored (s : DiscoveryPrivate) (now : Timestamp)
    (fromIp : String) (d : Datagram) (hself : d.pUuid = s.pUuid) :
    (s.DispatchDiscoveryMsg now fromIp d).st = s ∧
    (s.DispatchDiscoveryMsg now fromIp d).st.info = s.info ∧
    (s.DispatchDiscoveryMsg now fromIp d).st.activity = s.activity ∧
    (s.DispatchDiscoveryMsg now fromIp d).st.beacons = s.beacons ∧
    (s.DispatchDiscoveryMsg now fromIp d).sent = [] ∧
    (s.DispatchDiscoveryMsg now fromIp d).calls = [] := by
  have h : s.DispatchDiscoveryMsg now fromIp d = ⟨s, [], []⟩ := by
    unfold DispatchDiscoveryMsg
    simp only [hself, if_true]
  rw [h]
  exact ⟨rfl, rfl, rfl, rfl, rfl, rfl⟩

theorem dispatch_bye (s : DiscoveryPrivate) (now : Timestamp) (fromIp : String)
    (d : Datagram) (hself : d.pUuid ≠ s.pUuid) (htype : d.type = ByeType) :
    s.DispatchDiscoveryMsg now fromIp d =
      ⟨{ s with activity := (s.activity.insert d.pUuid now).erase d.pUuid,
                info := DelAddressesByProc s.info d.pUuid },
        if s.disconnectionCb then
          [⟨CbKind.disconnection, "", "", "", d.pUuid, "", Scope.All⟩]
        else [], []⟩ := by
  have h1 : ¬ (ByeType = AdvType ∨ ByeType = AdvSrvType) := by decide
  have h2 : ¬ (ByeType = SubType ∨ ByeType = SubSrvType) := by decide
  have h3 : ¬ ByeType = HelloType := by decide
  unfold DispatchDiscoveryMsg
  simp only [hself, if_false, htype, h1, h2, h3, if_true]

/-- C4: after a BYE datagram of another process P the activity table has no
entry for P, the registry holds no record of P under any topic, the records of
every other process are the same as before, and the disconnection callback,
when set, was invoked exactly once, with ("", "", "", P, "", All). -/
theorem C4_bye_removes_process (s : DiscoveryPrivate) (now : Timestamp)
    (fromIp : String) (d : Datagram)
    (hself : d.pUuid ≠ s.pUuid) (htype : d.type = ByeType)
    (hwf : SMap.WF s.info) :
    SMap.find (s.DispatchDiscoveryMsg now fromIp d).st.activity d.pUuid = none ∧
    (∀ t, records (s.DispatchDiscoveryMsg now fromIp d).st.info t d.pUuid = []) ∧
    (∀ t n, GetAddress (s.DispatchDiscoveryMsg now fromIp d).st.info t d.pUuid n = none) ∧
    (∀ t p, p ≠ d.pUuid →
      records (s.DispatchDiscoveryMsg now fromIp d).st.info t p = records s.info t p) ∧
    (s.DispatchDiscoveryMsg now fromIp d).calls =
      (if s.disconnectionCb then
        [⟨CbKind.disconnection, "", "", "", d.pUuid, "", Scope.All⟩]
      else []) := by
  rw [dispatch_bye s now fromIp d hself htype]
  refine ⟨SMap.find_erase_self _ _, ?_, ?_, ?_, rfl⟩
  · intro t
    show records (DelAddressesByProc s.info d.pUuid) t d.pUuid = []
    rw [records_DelAddressesByProc _ hwf, if_pos rfl]
  · intro t n
    exact GetAddress_DelAddressesByProc_self _ hwf _ _ _
  · intro t p hp
    show records (DelAddressesByProc s.info d.pUuid) t p = records s.info t p
    rw [records_DelAddressesByProc _ hwf, if_neg hp]

theorem dispatch_unadv (s : DiscoveryPrivate) (now : Timestamp) (fromIp : String)
    (d : Datagram) (hself : d.pUuid ≠ s.pUuid)
    (htype : d.type = UnadvType ∨ d.type = UnadvSrvType) :
    s.DispatchDiscoveryMsg now fromIp d =
      if s.scopeDrops fromIp d.scope then
        ⟨{ s with activity := s.activity.insert d.pUuid now }, [], []⟩
      else
        ⟨{ s with activity := s.activity.insert d.pUuid now,
                  info := DelAddressByNode s.info d.topic d.pUuid d.nUuid },
          if d.type = UnadvType ∧ s.disconnectionCb then
            [⟨CbKind.disconnection, d.topic, d.addr, d.ctrl, d.pUuid, d.nUuid, d.scope⟩]
          else if d.type = UnadvSrvType ∧ s.disconnectionSrvCb then
            [⟨CbKind.disconnectionSrv, d.topic, d.addr, d.ctrl, d.pUuid, d.nUuid, d.scope⟩]
          else [], []⟩ := by
  have h1 : ¬ (d.type = AdvType ∨ d.type = AdvSrvType) := by
    rcases htype with h | h <;> rw [h] <;> decide
  have h2 : ¬ (d.type = SubType ∨ d.type = SubSrvType) := by
    rcases htype with h | h <;> rw [h] <;> decide
  have h3 : ¬ d.type = HelloType := by
    rcases htype with h | h <;> rw [h] <;> decide
  have h4 : ¬ d.type = ByeType := by
    rcases htype with h | h <;> rw [h] <;> decide
  unfold DispatchDiscoveryMsg
  simp only [hself, if_false, h1, h2, h3, h4, htype, if_true, scopeDrops_activity]

/-- C5: an UNADV or UNADV_SRV datagram of another process that passes the scope
filter leaves no record for (topic, sender pUuid, body nUuid), leaves the
lookup of every other triple unchanged, and invokes the disconnection callback
of its kind, when set, exactly once with the fields of the datagram; a datagram
that fails the filter changes no record and invokes no callback. -/
theorem C5_unadv_removes_node (s : DiscoveryPrivate) (now : Timestamp)
    (fromIp : String) (d : Datagram)
    (hself : d.pUuid ≠ s.pUuid)
    (htype : d.type = UnadvType ∨ d.type = UnadvSrvType) :
    ((d.scope = Scope.All ∨ (d.scope = Scope.Host ∧ fromIp = s.hostAddr)) →
      GetAddress (s.DispatchDiscoveryMsg now fromIp d).st.info d.topic d.pUuid d.nUuid
        = none ∧
      (∀ t p n, ¬ (t = d.topic ∧ p = d.pUuid ∧ n = d.nUuid) →
        GetAddress (s.DispatchDiscoveryMsg now fromIp d).st.info t p n =
          GetAddress s.info t p n) ∧
      (d.type = UnadvType →
        (s.DispatchDiscoveryMsg now fromIp d).calls =
          if s.disconnectionCb then
            [⟨CbKind.disconnection, d.topic, d.addr, d.ctrl, d.pUuid, d.nUuid, d.scope⟩]
          else []) ∧
      (d.type = UnadvSrvType →
        (s.DispatchDiscoveryMsg now fromIp d).calls =
          if s.disconnectionSrvCb then
            [⟨CbKind.disconnectionSrv, d.topic, d.addr, d.ctrl, d.pUuid, d.nUuid,
              d.scope⟩]
          else [])) ∧
    ((d.scope = Scope.Process ∨ (d.scope = Scope.Host ∧ fromIp ≠ s.hostAddr)) →
      (s.DispatchDiscoveryMsg now fromIp d).st.info = s.info ∧
      (s.DispatchDiscoveryMsg now fromIp d).calls = []) := by
  rw [dispatch_unadv s now fromIp d hself htype]
  constructor
  · intro hpass
    rw [if_neg (by rw [(scopeDrops_eq_false _ _ _).mpr hpass]; decide)]
    refine ⟨GetAddress_DelAddressByNode_self _ _ _ _, ?_, ?_, ?_⟩
    · intro t p n h
      exact GetAddress_DelAddressByNode_ne _ _ _ _ _ _ _ h
    · intro h
      have h1 : ¬ UnadvType = UnadvSrvType := by decide
      simp [h, h1]
    · intro h
      have h2 : ¬ UnadvSrvType = UnadvType := by decide
      simp [h, h2]
  · intro hdrop
    rw [if_pos ((scopeDrops_eq_true _ _ _).mpr hdrop)]
    exact ⟨rfl, rfl⟩

/-! ## The activity sweep -/

namespace DiscoveryPrivate

theorem dropProcs_fields (s : DiscoveryPrivate) (ks : List String) :
    (s.dropProcs ks).pUuid = s.pUuid ∧
    (s.dropProcs ks).silenceInterval = s.silenceInterval ∧
    (s.dropProcs ks).disconnectionCb = s.disconnectionCb := by
  induction ks generalizing s with
  | nil => exact ⟨rfl, rfl, rfl⟩
  | cons p ks ih => exact ih _

theorem dropProcs_activity (s : DiscoveryPrivate) (ks : List String) (P : String) :
    SMap.find (s.dropProcs ks).activity P =
      if P ∈ ks then none else SMap.find s.activity P := by
  induction ks generalizing s with
  | nil => simp [dropProcs]
  | cons p ks ih =>
    rw [dropProcs, ih]
    by_cases hP : P ∈ ks
    · simp [hP]
    · by_cases hp : P = p
      · subst hp; simp [hP, SMap.find_erase_self]
      · simp [hP, hp, SMap.find_erase_ne _ _ _ hp]

theorem dropProcs_WF (s : DiscoveryPrivate) (ks : List String) (hwf : SMap.WF s.info) :
    SMap.WF (s.dropProcs ks).info := by
  induction ks generalizing s with
  | nil => exact hwf
  | cons p ks ih => exact ih _ (WF_DelAddressesByProc _ hwf _)

theorem dropProcs_records (s : DiscoveryPrivate) (ks : List String)
    (hwf : SMap.WF s.info) (t P : String) :
    records (s.dropProcs ks).info t P =
      if P ∈ ks then [] else records s.info t P := by
  induction ks generalizing s with
  | nil => simp [dropProcs]
  | cons p ks ih =>
    rw [dropProcs, ih _ (WF_DelAddressesByProc _ hwf _)]
    simp only [records_DelAddressesByProc _ hwf]
    by_cases hP : P ∈ ks
    · simp [hP]
    · by_cases hp : P = p
      · subst hp; simp [hP]
      · simp [hP, hp]

theorem expiredKeys_cons (s : DiscoveryPrivate) (elapsedMs : Timestamp → Timestamp → Int)
    (now : Timestamp) (p : String) (t : Timestamp) (rest : List (String × Timestamp)) :
    s.expiredKeys elapsedMs now ((p, t) :: rest) =
      if elapsedMs now t > (s.silenceInterval : Int) then
        p :: s.expiredKeys elapsedMs now rest
      else s.expiredKeys elapsedMs now rest := by
  by_cases h : elapsedMs now t > (s.silenceInterval : Int)
  · rw [if_pos h]
    simp only [expiredKeys]
    rw [List.filter_cons_of_pos (by simpa using h)]
    rfl
  · rw [if_neg h]
    simp only [expiredKeys]
    rw [List.filter_cons_of_neg (by simpa using h)]

/-- The sweep loop, when the callback is set and no entry still to visit is
the engine's own, ends after one iteration per entry. -/
theorem sweepLoop_finished (elapsedMs : Timestamp → Timestamp → Int) (now : Timestamp)
    (fuel : Nat) (rest : List (String × Timestamp)) (s : DiscoveryPrivate)
    (calls : List CbCall)
    (hfuel : rest.length < fuel)
    (hcb : s.disconnectionCb = true)
    (hself : ∀ e ∈ rest, e.1 ≠ s.pUuid) :
    sweepLoop elapsedMs now fuel rest s calls =
      Sweep.finished (s.dropProcs (s.expiredKeys elapsedMs now rest))
        (calls ++ (s.expiredKeys elapsedMs now rest).map goneCall) := by
  induction rest generalizing fuel s calls with
  | nil =>
    cases fuel with
    | zero => exact absurd hfuel (Nat.lt_irrefl _)
    | succ fuel => simp [sweepLoop, expiredKeys, dropProcs]
  | cons e rest ih =>
    obtain ⟨p, t⟩ := e
    cases fuel with
    | zero => exact absurd hfuel (Nat.not_lt_zero _)
    | succ fuel =>
      have hp : p ≠ s.pUuid := hself (p, t) (List.mem_cons_self _ _)
      have hrest : ∀ e ∈ rest, e.1 ≠ s.pUuid :=
        fun e he => hself e (List.mem_cons_of_mem _ he)
      have hlen : rest.length < fuel := by
        simp only [List.length_cons] at hfuel; omega
      rw [expiredKeys_cons]
      by_cases hexp : elapsedMs now t > (s.silenceInterval : Int)
      · have step : sweepLoop elapsedMs now (fuel + 1) ((p, t) :: rest) s calls =
            sweepLoop elapsedMs now fuel rest
              { s with info := TopicStorage.DelAddressesByProc s.info p,
                       activity := s.activity.erase p }
              (calls ++ [goneCall p]) := by
          simp only [sweepLoop, hp, if_false, hexp, if_true, hcb, goneCall]
        have hnext := ih fuel
          { s with info := TopicStorage.DelAddressesByProc s.info p,
                   activity := s.activity.erase p }
          (calls ++ [goneCall p]) hlen hcb hrest
        rw [step, if_pos hexp, hnext]
        simp only [dropProcs, expiredKeys, List.map_cons, List.append_assoc,
          List.singleton_append]
      · have step : sweepLoop elapsedMs now (fuel + 1) ((p, t) :: rest) s calls =
            sweepLoop elapsedMs now fuel rest s calls := by
          simp only [sweepLoop, hp, if_false, hexp]
        rw [step, if_neg hexp]
        exact ih fuel _ _ hlen hcb hrest

theorem mem_expiredKeys (s : DiscoveryPrivate) (elapsedMs : Timestamp → Timestamp → Int)
    (now : Timestamp) (rest : List (String × Timestamp)) (P : String) :
    P ∈ s.expiredKeys elapsedMs now rest ↔
      ∃ last, (P, last) ∈ rest ∧ elapsedMs now last > (s.silenceInterval : Int) := by
  simp only [expiredKeys, List.mem_map, List.mem_filter, decide_eq_true_eq]
  constructor
  · rintro ⟨⟨k, last⟩, ⟨hmem, hexp⟩, rfl⟩
    exact ⟨last, hmem, hexp⟩
  · rintro ⟨last, hmem, hexp⟩
    exact ⟨(P, last), ⟨hmem, hexp⟩, rfl⟩

theorem expiredKeys_nodup (s : DiscoveryPrivate) (elapsedMs : Timestamp → Timestamp → Int)
    (now : Timestamp) (rest : List (String × Timestamp)) (hwf : SMap.WF rest) :
    (s.expiredKeys elapsedMs now rest).Nodup :=
  List.Nodup.sublist (List.Sublist.map _ (List.filter_sublist rest)) hwf

theorem filter_goneCall (ks : List String) (P : String) (hnd : ks.Nodup) :
    (ks.map goneCall).filter (fun c => decide (c.pUuid = P)) =
      if P ∈ ks then [goneCall P] else [] := by
  induction ks with
  | nil => rfl
  | cons k ks ih =>
    simp only [List.nodup_cons] at hnd
    have ih := ih hnd.2
    by_cases hk : k = P
    · subst hk
      rw [List.map_cons, List.filter_cons_of_pos (by simp [goneCall]), ih,
        if_neg hnd.1, if_pos (List.mem_cons_self _ _)]
    · rw [List.map_cons, List.filter_cons_of_neg (by simp [goneCall, hk]), ih]
      have : P ∈ k :: ks ↔ P ∈ ks := by
        simp only [List.mem_cons]
        exact ⟨fun h => h.resolve_left (fun h' => hk h'.symm), Or.inr⟩
      simp only [this]

end DiscoveryPrivate

/-- One pass of the activity sweep at time `now`, with the disconnection
callback set, on a state whose activity table holds no entry of the engine
itself, whatever the conversion `elapsedMs` of a tick difference to a count of
milliseconds: the pass ends, and for every activity entry (P, last_seen) whose
count is strictly greater than `silenceInterval` the entry is gone, the
registry holds no record of P under any topic and the only callback about P is
one `onDisconnection("", "", "", P, "", All)`; every entry whose count is at
most `silenceInterval` is kept with its time stamp and its registry records,
and no callback is about its process. -/
theorem sweep_reaps_silent_processes (s : DiscoveryPrivate)
    (elapsedMs : Timestamp → Timestamp → Int) (now : Timestamp) (fuel : Nat)
    (hcb : s.disconnectionCb = true)
    (hself : s.pUuid ∉ s.activity.map Prod.fst)
    (hact : SMap.WF s.activity) (hinfo : SMap.WF s.info)
    (hfuel : s.activity.length < fuel) :
    ∃ st calls, s.RunActivityTask elapsedMs now fuel = Sweep.finished st calls ∧
      (∀ P last, (P, last) ∈ s.activity →
        elapsedMs now last > (s.silenceInterval : Int) →
          SMap.find st.activity P = none ∧
          (∀ t, records st.info t P = []) ∧
          calls.filter (fun c => decide (c.pUuid = P)) =
            [⟨CbKind.disconnection, "", "", "", P, "", Scope.All⟩]) ∧
      (∀ P last, (P, last) ∈ s.activity →
        elapsedMs now last ≤ (s.silenceInterval : Int) →
          SMap.find st.activity P = some last ∧
          (∀ t, records st.info t P = records s.info t P) ∧
          calls.filter (fun c => decide (c.pUuid = P)) = []) := by
  have hselfmem : ∀ e ∈ s.activity, e.1 ≠ s.pUuid := by
    intro e he h
    exact hself (h ▸ List.mem_map_of_mem Prod.fst he)
  refine ⟨_, _, sweepLoop_finished elapsedMs now fuel s.activity s [] hfuel hcb hselfmem,
    ?_, ?_⟩
  · intro P last hmem hexp
    have hin : P ∈ s.expiredKeys elapsedMs now s.activity :=
      (mem_expiredKeys _ _ _ _ _).mpr ⟨last, hmem, hexp⟩
    refine ⟨?_, ?_, ?_⟩
    · rw [dropProcs_activity, if_pos hin]
    · intro t
      rw [dropProcs_records _ _ hinfo, if_pos hin]
    · rw [List.nil_append, filter_goneCall _ _ (expiredKeys_nodup _ _ _ _ hact), if_pos hin]
      rfl
  · intro P last hmem hkeep
    have hout : P ∉ s.expiredKeys elapsedMs now s.activity := by
      intro hin
      obtain ⟨last', hmem', hexp'⟩ := (mem_expiredKeys _ _ _ _ _).mp hin
      have h1 := SMap.find_of_mem _ hact _ _ hmem
      have h2 := SMap.find_of_mem _ hact _ _ hmem'
      rw [h1] at h2
      cases h2
      omega
    refine ⟨?_, ?_, ?_⟩
    · rw [dropProcs_activity, if_neg hout]
      exact SMap.find_of_mem _ hact _ _ hmem
    · intro t
      rw [dropProcs_records _ _ hinfo, if_neg hout]
    · rw [List.nil_append, filter_goneCall _ _ (expiredKeys_nodup _ _ _ _ hact), if_neg hout]

/-- C6 (fails on the code at the conversion of the elapsed time): the sweep
compares `duration_cast<milliseconds>(elapsed).count()` with `silenceInterval`,
where `elapsed` is the tick difference as a `double` count of seconds.  With
that count the pass does what is asked: with the callback set and no own entry
it ends, every entry whose count exceeds `silenceInterval` is removed with the
records of its process and one `onDisconnection("", "", "", P, "", All)`, and
every other entry is kept with its records and without a callback.  But the
count is not the elapsed time in whole milliseconds.  Engine B with
`silenceInterval` 1000 heard of A at tick 5; at tick 1001000005, which is
1001 ms later, the count is 1000, and the pass keeps the entry and the record
of A and invokes no callback.  One millisecond later the count is 1002 and A
is reaped. -/
theorem C6_sweep_keeps_process_silent_1001_ms :
    (∀ (s : DiscoveryPrivate) (now : Timestamp) (fuel : Nat),
      s.disconnectionCb = true → s.pUuid ∉ s.activity.map Prod.fst →
      SMap.WF s.activity → SMap.WF s.info → s.activity.length < fuel →
      ∃ st calls,
        s.RunActivityTask elapsedMilliseconds now fuel = Sweep.finished st calls ∧
        (∀ P last, (P, last) ∈ s.activity →
          elapsedMilliseconds now last > (s.silenceInterval : Int) →
            SMap.find st.activity P = none ∧
            (∀ t, records st.info t P = []) ∧
            calls.filter (fun c => decide (c.pUuid = P)) =
              [⟨CbKind.disconnection, "", "", "", P, "", Scope.All⟩]) ∧
        (∀ P last, (P, last) ∈ s.activity →
          elapsedMilliseconds now last ≤ (s.silenceInterval : Int) →
            SMap.find st.activity P = some last ∧
            (∀ t, records st.info t P = records s.info t P) ∧
            calls.filter (fun c => decide (c.pUuid = P)) = [])) ∧
    engineBSilence1000.disconnectionCb = true ∧
    engineBSilence1000.silenceInterval = 1000 ∧
    engineBSilence1000.activity = [("A", 5)] ∧
    GetAddress engineBSilence1000.info "/t" "A" "n1" =
      some ⟨"tcp://1:1", "tcp://1:2", "A", "n1", Scope.All⟩ ∧
    ((1001000005 : Int) - 5) / 1000000 = 1001 ∧
    elapsedMilliseconds 1001000005 5 = 1000 ∧
    engineBSilence1000.RunActivityTask elapsedMilliseconds 1001000005 2 =
      Sweep.finished engineBSilence1000 [] ∧
    elapsedMilliseconds 1002000005 5 = 1002 ∧
    engineBSilence1000.RunActivityTask elapsedMilliseconds 1002000005 2 =
      Sweep.finished { engineBSilence1000 with info := [], activity := [] }
        [⟨CbKind.disconnection, "", "", "", "A", "", Scope.All⟩] := by
  refine ⟨?_, by decide, by decide, by decide, by decide, by decide, by decide, by decide,
    by decide, by decide⟩
  intro s now fuel hcb hself hact hinfo hfuel
  exact sweep_reaps_silent_processes s elapsedMilliseconds now fuel hcb hself hact hinfo hfuel

/-! ## Beacons, discovery requests and their answers -/

/-- C7 (fails on the code): the state reached from the fresh engine by
advertising ("/t", n1) with scope Process and then again with scope All has a
beacon for ("/t", n1) although the record kept for it has scope Process, so the
parity of beacon table and registry does not hold there. -/
theorem C7_beacon_parity_fails_after_readvertise :
    ¬ BeaconParity ((DiscoveryPrivate.new "A" "10.0.0.1").steps
      [Event.advertise MsgType.Msg "/t" "tcp://1:1" "tcp://1:2" "n1" Scope.Process,
       Event.advertise MsgType.Msg "/t" "tcp://1:1" "tcp://1:2" "n1" Scope.All]) := by
  intro h
  have hb := (h "/t" "n1").mp (by decide)
  obtain ⟨r, hr, hs⟩ := hb
  have hrec : GetAddress ((DiscoveryPrivate.new "A" "10.0.0.1").steps
      [Event.advertise MsgType.Msg "/t" "tcp://1:1" "tcp://1:2" "n1" Scope.Process,
       Event.advertise MsgType.Msg "/t" "tcp://1:1" "tcp://1:2" "n1" Scope.All]).info
      "/t" "A" "n1" = some ⟨"tcp://1:1", "tcp://1:2", "A", "n1", Scope.Process⟩ := by
    decide
  rw [show ((DiscoveryPrivate.new "A" "10.0.0.1").steps
      [Event.advertise MsgType.Msg "/t" "tcp://1:1" "tcp://1:2" "n1" Scope.Process,
       Event.advertise MsgType.Msg "/t" "tcp://1:1" "tcp://1:2" "n1" Scope.All]).pUuid
      = "A" from rfl] at hr
  rw [hrec] at hr
  cases hr
  exact hs rfl

/-- C8 (fails on the code for service calls): `Discover` for a topic
publishes exactly one SUB datagram, a bare header with the engine's pUuid and
the topic, but `Discover` for a service publishes nothing, because `SendMsg`
has no case for the SUB_SRV type code. -/
theorem C8_discover_srv_publishes_nothing (s : DiscoveryPrivate) (topic : String) :
    (s.Discover topic true).sent = [] ∧
    (s.Discover topic false).sent = [⟨⟨s.pUuid, topic, SubType⟩, none⟩] := by
  have hsrv : s.SendMsg SubSrvType topic "" "" "" Scope.All = [] := by
    simp [SendMsg, SubSrvType, SubType, HelloType, ByeType, AdvType, UnadvType,
      AdvSrvType, UnadvSrvType]
  have hmsg : s.SendMsg SubType topic "" "" "" Scope.All =
      [⟨⟨s.pUuid, topic, SubType⟩, none⟩] := by
    simp [SendMsg, SubType, AdvType, UnadvType, AdvSrvType, UnadvSrvType]
  constructor
  · unfold Discover
    simp only [if_true, hsrv]
    split
    · split <;> rfl
    · rfl
  · unfold Discover
    simp only [Bool.false_eq_true, if_false, hmsg]
    split
    · split <;> rfl
    · rfl

/-- C9 (fails on the code for service requests): engine A advertises the
service `/s`; its answer to a SUB_SRV datagram of process B is one datagram of
type ADV, not ADV_SRV, carrying the fields of the local record. -/
theorem C9_sub_srv_answered_with_adv :
    (engineAService.DispatchDiscoveryMsg 7 "10.0.0.2"
        ⟨"B", "/s", SubSrvType, "", "", "", Scope.All⟩).sent =
      [⟨⟨"A", "/s", AdvType⟩, some ⟨"tcp://1:1", "tcp://1:2", "n1", Scope.All⟩⟩] ∧
    AdvType ≠ AdvSrvType := by
  decide

theorem dispatch_sub (s : DiscoveryPrivate) (now : Timestamp) (fromIp : String)
    (d : Datagram) (hself : d.pUuid ≠ s.pUuid)
    (htype : d.type = SubType ∨ d.type = SubSrvType) :
    s.DispatchDiscoveryMsg now fromIp d =
      ⟨{ s with activity := s.activity.insert d.pUuid now }, [],
        answerLoop { s with activity := s.activity.insert d.pUuid now } fromIp d.topic
          (records s.info d.topic s.pUuid)⟩ := by
  have h1 : ¬ (d.type = AdvType ∨ d.type = AdvSrvType) := by
    rcases htype with h | h <;> rw [h] <;> decide
  unfold DispatchDiscoveryMsg
  simp only [hself, if_false, h1, htype, if_true]
  cases hft : SMap.find s.info d.topic with
  | none =>
    simp only [HasAnyAddresses, hft, Bool.false_eq_true, if_false,
      records_of_find_none hft, answerLoop]
  | some m =>
    cases hfp : SMap.find m s.pUuid with
    | none =>
      simp only [HasAnyAddresses, hft, hfp, Option.isSome_none, Bool.false_eq_true,
        if_false, records_of_find_some hft, Option.getD_none, answerLoop]
    | some v =>
      simp only [HasAnyAddresses, hft, hfp, Option.isSome_some, if_true, GetAddresses,
        records_of_find_some hft, Option.getD_some]

theorem answerLoop_bodies (s : DiscoveryPrivate) (fromIp topic : String)
    (l : List Address_t) :
    (answerLoop s fromIp topic l).map Packet.body =
      (l.filter (fun a => decide (a.scope = Scope.All ∨
          (a.scope = Scope.Host ∧ fromIp = s.hostAddr)))).map
        (fun a => some ⟨a.addr, a.ctrl, a.nUuid, a.scope⟩) := by
  induction l with
  | nil => rfl
  | cons a rest ih =>
    cases hd : s.scopeDrops fromIp a.scope with
    | true =>
      have hnot : ¬ (a.scope = Scope.All ∨ (a.scope = Scope.Host ∧ fromIp = s.hostAddr)) := by
        intro h
        rw [(scopeDrops_eq_false _ _ _).mpr h] at hd
        exact Bool.noConfusion hd
      rw [List.filter_cons_of_neg (by simpa using hnot)]
      simp only [answerLoop, hd, if_true]
      exact ih
    | false =>
      have hyes := (scopeDrops_eq_false _ _ _).mp hd
      rw [List.filter_cons_of_pos (by simpa using hyes)]
      simp only [answerLoop, hd, Bool.false_eq_true, if_false, List.map_append, ih,
        List.map_cons]
      have hsend : (s.SendMsg AdvType topic a.addr a.ctrl a.nUuid a.scope).map Packet.body =
          [some ⟨a.addr, a.ctrl, a.nUuid, a.scope⟩] := by
        simp [SendMsg]
      rw [hsend]
      rfl

theorem answerLoop_headers (s : DiscoveryPrivate) (fromIp topic : String)
    (l : List Address_t) :
    ∀ p ∈ answerLoop s fromIp topic l,
      p.header.pUuid = s.pUuid ∧ p.header.topic = topic := by
  induction l with
  | nil => intro p hp; simp [answerLoop] at hp
  | cons a rest ih =>
    intro p hp
    cases hd : s.scopeDrops fromIp a.scope with
    | true =>
      simp only [answerLoop, hd, if_true] at hp
      exact ih p hp
    | false =>
      simp only [answerLoop, hd, Bool.false_eq_true, if_false, List.mem_append] at hp
      rcases hp with hp | hp
      · simp only [SendMsg, true_or, if_true, List.mem_singleton] at hp
        subst hp
        exact ⟨rfl, rfl⟩
      · exact ih p hp

/-- C10: for a SUB or SUB_SRV datagram of another process the replies are in
one-to-one correspondence, in order, with the records stored under (topic, own
pUuid) whose scope is All, or Host when the source address is the local host
address; each reply carries the fields of its record, the engine's pUuid and
the topic.  Records of scope Process, of scope Host for another source, and
records of other processes get no reply; without a local record for the topic
nothing is sent, and the registry is unchanged in every case. -/
theorem C10_sub_replies_per_local_record (s : DiscoveryPrivate) (now : Timestamp)
    (fromIp : String) (d : Datagram)
    (hself : d.pUuid ≠ s.pUuid)
    (htype : d.type = SubType ∨ d.type = SubSrvType) :
    (s.DispatchDiscoveryMsg now fromIp d).sent.map Packet.body =
      ((records s.info d.topic s.pUuid).filter
        (fun a => decide (a.scope = Scope.All ∨
          (a.scope = Scope.Host ∧ fromIp = s.hostAddr)))).map
        (fun a => some ⟨a.addr, a.ctrl, a.nUuid, a.scope⟩) ∧
    (∀ p ∈ (s.DispatchDiscoveryMsg now fromIp d).sent,
      p.header.pUuid = s.pUuid ∧ p.header.topic = d.topic) ∧
    (records s.info d.topic s.pUuid = [] →
      (s.DispatchDiscoveryMsg now fromIp d).sent = []) ∧
    (s.DispatchDiscoveryMsg now fromIp d).st.info = s.info ∧
    (s.DispatchDiscoveryMsg now fromIp d).calls = [] := by
  rw [dispatch_sub s now fromIp d hself htype]
  refine ⟨answerLoop_bodies _ _ _ _, answerLoop_headers _ _ _ _, ?_, rfl, rfl⟩
  intro h
  simp only [h, answerLoop]

/-- Witness of C10: engine A holds local records of scope All, Host and
Process for `/t` and a record of process B; a SUB of process C from another
host is answered once, for the record of scope All. -/
theorem C10_witness :
    subFromC.pUuid ≠ engineAThreeScopes.pUuid ∧
    (engineAThreeScopes.DispatchDiscoveryMsg 9 "10.0.0.3" subFromC).sent.map Packet.body =
      [some ⟨"tcp://1:1", "tcp://1:2", "n1", Scope.All⟩] ∧
    (engineAThreeScopes.DispatchDiscoveryMsg 9 "10.0.0.3" subFromC).st.info =
      engineAThreeScopes.info :=
  have h := C10_sub_replies_per_local_record engineAThreeScopes 9 "10.0.0.3" subFromC
    (by decide) (Or.inl rfl)
  ⟨by decide, h.1.trans (by decide), h.2.2.2.1⟩

/-! ## Witnesses -/

/-- Witness of C1: engine B, which knows nothing, receives the ADV of process
A from another host: the record is stored and `onConnection` is invoked once. -/
theorem C1_witness :
    advFromA.pUuid ≠ engineB.pUuid ∧
    GetAddress (engineB.DispatchDiscoveryMsg 5 "10.0.0.1" advFromA).st.info "/t" "A" "n1" =
      some ⟨"tcp://1:1", "tcp://1:2", "A", "n1", Scope.All⟩ ∧
    (engineB.DispatchDiscoveryMsg 5 "10.0.0.1" advFromA).calls =
      [⟨CbKind.connection, "/t", "tcp://1:1", "tcp://1:2", "A", "n1", Scope.All⟩] :=
  have h := C1_adv_registers_and_notifies_once engineB 5 "10.0.0.1" advFromA
    (by decide) (Or.inl rfl) (Or.inl rfl)
  ⟨by decide, h.1, h.2.1 (by decide) rfl⟩

/-- Witness of C2: an ADV of scope Host from another host changes neither the
registry of engine B nor its callback trace. -/
theorem C2_witness :
    advHostFromA.pUuid ≠ engineB.pUuid ∧
    (engineB.DispatchDiscoveryMsg 5 "10.0.0.1" advHostFromA).st.info = engineB.info ∧
    (engineB.DispatchDiscoveryMsg 5 "10.0.0.1" advHostFromA).calls = [] :=
  have h := C2_adv_scope_filter engineB 5 "10.0.0.1" advHostFromA (by decide) (Or.inl rfl)
  ⟨by decide, h.1 (Or.inr ⟨rfl, by decide⟩)⟩

/-- Witness of C3: engine B ignores an ADV that carries its own pUuid. -/
theorem C3_witness :
    (engineB.DispatchDiscoveryMsg 5 "10.0.0.2"
      ⟨"B", "/t", AdvType, "tcp://1:1", "tcp://1:2", "n1", Scope.All⟩).st = engineB ∧
    (engineB.DispatchDiscoveryMsg 5 "10.0.0.2"
      ⟨"B", "/t", AdvType, "tcp://1:1", "tcp://1:2", "n1", Scope.All⟩).calls = [] :=
  have h := C3_self_datagram_ignored engineB 5 "10.0.0.2"
    ⟨"B", "/t", AdvType, "tcp://1:1", "tcp://1:2", "n1", Scope.All⟩ rfl
  ⟨h.1, h.2.2.2.2.2⟩

/-- Witness of C4: engine B knows processes A, C and D; a BYE of A removes the
activity entry and the record of A, keeps the record of C and invokes
`onDisconnection` once. -/
theorem C4_witness :
    byeFromA.pUuid ≠ engineBThreePeers.pUuid ∧
    SMap.WF engineBThreePeers.info ∧
    SMap.find (engineBThreePeers.DispatchDiscoveryMsg 20 "10.0.0.1" byeFromA).st.activity
      "A" = none ∧
    records (engineBThreePeers.DispatchDiscoveryMsg 20 "10.0.0.1" byeFromA).st.info
      "/t" "A" = [] ∧
    records (engineBThreePeers.DispatchDiscoveryMsg 20 "10.0.0.1" byeFromA).st.info
      "/t" "C" = [⟨"tcp://3:1", "tcp://3:2", "C", "k1", Scope.All⟩] ∧
    (engineBThreePeers.DispatchDiscoveryMsg 20 "10.0.0.1" byeFromA).calls =
      [⟨CbKind.disconnection, "", "", "", "A", "", Scope.All⟩] :=
  have hwf : SMap.WF engineBThreePeers.info := by decide
  have h := C4_bye_removes_process engineBThreePeers 20 "10.0.0.1" byeFromA
    (by decide) rfl hwf
  ⟨by decide, hwf, h.1, h.2.1 "/t", (h.2.2.2.1 "/t" "C" (by decide)).trans (by decide),
    h.2.2.2.2⟩

/-- Witness of C5: scenario S5 on engine B, the UNADV of process A removes the
record learnt from its ADV and invokes `onDisconnection` once with the fields
of the datagram. -/
theorem C5_witness :
    unadvFromA.pUuid ≠ engineBKnowsA.pUuid ∧
    GetAddress engineBKnowsA.info "/t" "A" "n1" =
      some ⟨"tcp://1:1", "tcp://1:2", "A", "n1", Scope.All⟩ ∧
    GetAddress (engineBKnowsA.DispatchDiscoveryMsg 8 "10.0.0.1" unadvFromA).st.info
      "/t" "A" "n1" = none ∧
    (engineBKnowsA.DispatchDiscoveryMsg 8 "10.0.0.1" unadvFromA).calls =
      [⟨CbKind.disconnection, "/t", "tcp://1:1", "tcp://1:2", "A", "n1", Scope.All⟩] :=
  have h := (C5_unadv_removes_node engineBKnowsA 8 "10.0.0.1" unadvFromA
    (by decide) (Or.inl rfl)).1 (Or.inl rfl)
  ⟨by decide, by decide, h.1, h.2.2.1 rfl⟩

/-- A sweep of engine B at time 3006, one tick per millisecond: process A, last
seen at 5, is reaped with its record and one callback; process D, last seen at
6 and silent for exactly 3000 ms, and process C are kept. -/
theorem sweep_reaps_silent_processes_at_3006 :
    engineBThreePeers.disconnectionCb = true ∧
    engineBThreePeers.pUuid ∉ engineBThreePeers.activity.map Prod.fst ∧
    SMap.WF engineBThreePeers.activity ∧ SMap.WF engineBThreePeers.info ∧
    ∃ st calls, engineBThreePeers.RunActivityTask tickMs 3006 4 = Sweep.finished st calls ∧
      SMap.find st.activity "A" = none ∧
      records st.info "/t" "A" = [] ∧
      calls.filter (fun c => decide (c.pUuid = "A")) =
        [⟨CbKind.disconnection, "", "", "", "A", "", Scope.All⟩] ∧
      SMap.find st.activity "D" = some 6 ∧
      SMap.find st.activity "C" = some 10 ∧
      records st.info "/t" "C" = records engineBThreePeers.info "/t" "C" ∧
      calls.filter (fun c => decide (c.pUuid = "C")) = [] := by
  have hcb : engineBThreePeers.disconnectionCb = true := rfl
  have hself : engineBThreePeers.pUuid ∉ engineBThreePeers.activity.map Prod.fst := by
    decide
  have hact : SMap.WF engineBThreePeers.activity := by decide
  have hinfo : SMap.WF engineBThreePeers.info := by decide
  obtain ⟨st, calls, hrun, hexp, hkeep⟩ :=
    sweep_reaps_silent_processes engineBThreePeers tickMs 3006 4 hcb hself hact hinfo
      (by decide)
  have hA := hexp "A" 5 (by decide) (by decide)
  have hD := hkeep "D" 6 (by decide) (by decide)
  have hC := hkeep "C" 10 (by decide) (by decide)
  exact ⟨hcb, hself, hact, hinfo, st, calls, hrun, hA.1, hA.2.1 "/t", hA.2.2, hD.1, hC.1,
    hC.2.1 "/t", hC.2.2⟩

/-! ## Discovery from the local registry -/

namespace DiscoveryPrivate

theorem Discover_eq (s : DiscoveryPrivate) (topic : String) (isSrvCall : Bool) :
    s.Discover topic isSrvCall =
      ⟨s,
        if isSrvCall then discoverSrvLoop s topic (s.knownRecords topic)
        else discoverMsgLoop s topic (s.knownRecords topic),
        if isSrvCall then s.SendMsg SubSrvType topic "" "" "" Scope.All
        else s.SendMsg SubType topic "" "" "" Scope.All⟩ := by
  unfold Discover knownRecords
  cases hf : GetAddresses s.info topic with
  | none =>
    have hno : HasTopic s.info topic = false := by
      unfold HasTopic; unfold GetAddresses at hf; rw [hf]; rfl
    simp only [hno, Bool.false_eq_true, if_false]
    cases isSrvCall <;> rfl
  | some addresses =>
    have hyes : HasTopic s.info topic = true := by
      unfold HasTopic; unfold GetAddresses at hf; rw [hf]; rfl
    simp only [hyes, if_true]
    cases isSrvCall <;> rfl

theorem Discover_st (s : DiscoveryPrivate) (topic : String) (isSrvCall : Bool) :
    (s.Discover topic isSrvCall).st = s := by
  rw [Discover_eq]

theorem Discover_calls (s : DiscoveryPrivate) (topic : String) (isSrvCall : Bool) :
    (s.Discover topic isSrvCall).calls =
      if isSrvCall then discoverSrvLoop s topic (s.knownRecords topic)
      else discoverMsgLoop s topic (s.knownRecords topic) := by
  rw [Discover_eq]

theorem discoverMsgLoop_set (s : DiscoveryPrivate) (topic : String)
    (l : List (String × Address_t)) (hcb : s.connectionCb = true) :
    discoverMsgLoop s topic l = l.map (knownCall topic false) := by
  induction l with
  | nil => rfl
  | cons e rest ih =>
    obtain ⟨p, node⟩ := e
    simp only [discoverMsgLoop, hcb, if_true, ih, List.map_cons, knownCall,
      Bool.false_eq_true, if_false]

theorem discoverSrvLoop_set (s : DiscoveryPrivate) (topic : String)
    (l : List (String × Address_t)) (hcb : s.connectionSrvCb = true) :
    discoverSrvLoop s topic l = (l.head?.map (knownCall topic true)).toList := by
  cases l with
  | nil => rfl
  | cons e rest =>
    obtain ⟨p, node⟩ := e
    simp only [discoverSrvLoop, hcb, if_true, List.head?_cons, Option.map_some',
      Option.toList, knownCall]

theorem filter_visitOrder (m : Addresses_M) (hwf : SMap.WF m) (p : String) :
    (visitOrder m).filter (fun e => decide (e.1 = p)) =
      ((SMap.find m p).getD []).map (fun a => (p, a)) := by
  induction m with
  | nil => rfl
  | cons e rest ih =>
    obtain ⟨p₀, nodes⟩ := e
    simp only [SMap.WF, List.map_cons, List.nodup_cons] at hwf
    have ih := ih hwf.2
    simp only [visitOrder, List.filter_append]
    by_cases hp : p₀ = p
    · subst hp
      have hrest : SMap.find rest p₀ = none := SMap.find_eq_none_of_not_mem rest p₀ hwf.1
      rw [ih, hrest]
      have hall : (nodes.map (fun node => (p₀, node))).filter (fun e => decide (e.1 = p₀)) =
          nodes.map (fun node => (p₀, node)) := by
        apply List.filter_eq_self.mpr
        intro e he
        obtain ⟨a, _, rfl⟩ := List.mem_map.mp he
        simp
      rw [hall]
      simp [SMap.find]
    · have hnone : (nodes.map (fun node => (p₀, node))).filter (fun e => decide (e.1 = p)) =
          [] := by
        apply List.filter_eq_nil_iff.mpr
        intro e he
        obtain ⟨a, _, rfl⟩ := List.mem_map.mp he
        simp [hp]
      rw [hnone, ih]
      simp [SMap.find, hp]

end DiscoveryPrivate

/-- C11: with the callback set, `Discover` for a service invokes
`onConnectionSrv` at most once, and exactly once, with the fields of a known
record, when the topic has a known record; `Discover` for a topic invokes
`onConnection` once per known record, each time with the fields of that
record, so as many times as there are known records.  The calls for one
process follow the order of its record list, and a newly added record goes to
the end of that list, so that order is the order of insertion. -/
theorem C11_discover_reports_known_records (s : DiscoveryPrivate) (topic : String) :
    (s.connectionSrvCb = true →
      (s.Discover topic true).calls.length ≤ 1 ∧
      (s.knownRecords topic ≠ [] →
        ∃ e ∈ s.knownRecords topic,
          (s.Discover topic true).calls = [knownCall topic true e])) ∧
    (s.connectionCb = true →
      (s.Discover topic false).calls = (s.knownRecords topic).map (knownCall topic false) ∧
      (s.Discover topic false).calls.length = (s.knownRecords topic).length ∧
      (∀ m p, SMap.find s.info topic = some m → SMap.WF m →
        (s.Discover topic false).calls.filter (fun c => decide (c.pUuid = p)) =
          (records s.info topic p).map (fun a => knownCall topic false (p, a)))) ∧
    (∀ addr ctrl p n sc, GetAddress s.info topic p n = none →
      records (AddAddress s.info topic addr ctrl p n sc).2 topic p =
        records s.info topic p ++ [⟨addr, ctrl, p, n, sc⟩]) := by
  refine ⟨?_, ?_, ?_⟩
  · intro hcb
    rw [Discover_calls, if_pos rfl, discoverSrvLoop_set _ _ _ hcb]
    constructor
    · cases (s.knownRecords topic).head? <;> simp [Option.toList]
    · intro hne
      cases hk : s.knownRecords topic with
      | nil => exact absurd hk hne
      | cons e rest =>
        exact ⟨e, List.mem_cons_self _ _, rfl⟩
  · intro hcb
    have hcalls : (s.Discover topic false).calls =
        (s.knownRecords topic).map (knownCall topic false) := by
      rw [Discover_calls, if_neg (by decide), discoverMsgLoop_set _ _ _ hcb]
    refine ⟨hcalls, by rw [hcalls, List.length_map], ?_⟩
    intro m p hfind hwf
    have hknown : s.knownRecords topic = visitOrder m := by
      simp only [knownRecords, GetAddresses, hfind]
    rw [hcalls, hknown, records_of_find_some hfind, List.filter_map]
    have hfun : ((fun c : CbCall => decide (c.pUuid = p)) ∘ knownCall topic false) =
        (fun e : String × Address_t => decide (e.1 = p)) := by
      funext e; rfl
    rw [hfun, filter_visitOrder m hwf p, List.map_map]
    rfl
  · intro addr ctrl p n sc hnone
    rw [records_AddAddress, if_pos ⟨rfl, rfl, hnone⟩]

/-- Witness of C11: engine B knows one record of process A and one of process
C for `/t`; `Discover` for the topic reports both, `Discover` for the service
reports one. -/
theorem C11_witness :
    engineBThreePeers.connectionCb = true ∧ engineBThreePeers.connectionSrvCb = true ∧
    (engineBThreePeers.Discover "/t" false).calls =
      [⟨CbKind.connection, "/t", "tcp://1:1", "tcp://1:2", "A", "n1", Scope.All⟩,
       ⟨CbKind.connection, "/t", "tcp://3:1", "tcp://3:2", "C", "k1", Scope.All⟩] ∧
    (engineBThreePeers.Discover "/t" true).calls.length ≤ 1 :=
  have h := C11_discover_reports_known_records engineBThreePeers "/t"
  ⟨rfl, rfl, (h.2.1 rfl).1.trans (by decide), (h.1 rfl).1⟩

/-! ## Membership in the registry -/

namespace SMap
variable {β : Type}

theorem mem_of_find (m : SMap β) (k : String) (v : β) (h : find m k = some v) :
    (k, v) ∈ m := by
  induction m with
  | nil => simp [find] at h
  | cons e rest ih =>
    obtain ⟨k', v'⟩ := e
    by_cases hk : k' = k
    · subst hk
      simp only [find, if_true, Option.some.injEq] at h
      subst h
      exact List.mem_cons_self _ _
    · simp only [find, hk, if_false] at h
      exact List.mem_cons_of_mem _ (ih h)

theorem mem_replace (m : SMap β) (k : String) (v : β) (e : String × β)
    (h : e ∈ replace m k v) : e = (k, v) ∨ e ∈ m := by
  induction m with
  | nil => simp [replace] at h
  | cons e' rest ih =>
    obtain ⟨k', v'⟩ := e'
    by_cases hk : k' = k
    · subst hk
      simp only [replace, if_true, List.mem_cons] at h
      rcases h with h | h
      · exact Or.inl h
      · exact Or.inr (List.mem_cons_of_mem _ h)
    · simp only [replace, hk, if_false, List.mem_cons] at h
      rcases h with h | h
      · exact Or.inr (h ▸ List.mem_cons_self _ _)
      · rcases ih h with h' | h'
        · exact Or.inl h'
        · exact Or.inr (List.mem_cons_of_mem _ h')

theorem mem_place (m : SMap β) (k : String) (v : β) (e : String × β)
    (h : e ∈ place m k v) : e = (k, v) ∨ e ∈ m := by
  induction m with
  | nil =>
    simp only [place, List.mem_singleton] at h
    exact Or.inl h
  | cons e' rest ih =>
    obtain ⟨k', v'⟩ := e'
    by_cases hlt : strLt k k' = true
    · simp only [place, hlt, if_true, List.mem_cons] at h
      rcases h with h | h | h
      · exact Or.inl h
      · exact Or.inr (h ▸ List.mem_cons_self _ _)
      · exact Or.inr (List.mem_cons_of_mem _ h)
    · simp only [place, hlt, Bool.false_eq_true, if_false, List.mem_cons] at h
      rcases h with h | h
      · exact Or.inr (h ▸ List.mem_cons_self _ _)
      · rcases ih h with h' | h'
        · exact Or.inl h'
        · exact Or.inr (List.mem_cons_of_mem _ h')

theorem mem_insert (m : SMap β) (k : String) (v : β) (e : String × β)
    (h : e ∈ insert m k v) : e = (k, v) ∨ e ∈ m := by
  unfold insert at h
  cases hf : find m k with
  | none => rw [hf] at h; exact mem_place m k v e h
  | some w => rw [hf] at h; exact mem_replace m k v e h

theorem mem_erase (m : SMap β) (k : String) (e : String × β) (h : e ∈ erase m k) :
    e ∈ m :=
  (List.mem_filter.mp h).1

theorem mem_erase_or_insert (m : SMap β) (k : String) (v : β) (c : Bool)
    (e : String × β) (h : e ∈ (if c then erase m k else insert m k v)) :
    e ∈ m ∨ e = (k, v) := by
  cases c with
  | true => exact Or.inl (mem_erase _ _ _ h)
  | false =>
    rcases mem_insert _ _ _ _ h with h | h
    · exact Or.inr h
    · exact Or.inl h

end SMap

namespace TopicStorage

theorem holds_of_GetAddress (data : TopicStorage) (t p n : String) (a : Address_t)
    (h : GetAddress data t p n = some a) : holds data t p a ∧ a.nUuid = n := by
  unfold GetAddress at h
  cases hft : SMap.find data t with
  | none => simp [hft] at h
  | some m =>
    cases hfp : SMap.find m p with
    | none => simp [hft, hfp] at h
    | some v =>
      simp only [hft, hfp] at h
      exact ⟨⟨m, v, SMap.mem_of_find _ _ _ hft, SMap.mem_of_find _ _ _ hfp,
        List.mem_of_find?_eq_some h⟩, by simpa using List.find?_some h⟩

theorem holds_AddAddress (data : TopicStorage) (t₀ a₀ c₀ p₀ n₀ : String) (sc : Scope)
    (t p : String) (a : Address_t)
    (h : holds (AddAddress data t₀ a₀ c₀ p₀ n₀ sc).2 t p a) :
    holds data t p a ∨
      (t = t₀ ∧ p = p₀ ∧ a = ⟨a₀, c₀, p₀, n₀, sc⟩ ∧ GetAddress data t₀ p₀ n₀ = none) := by
  unfold AddAddress at h
  cases hg : GetAddress data t₀ p₀ n₀ with
  | some r => rw [hg] at h; exact Or.inl h
  | none =>
    rw [hg] at h
    obtain ⟨m, v, hm, hv, ha⟩ := h
    simp only at hm
    rcases SMap.mem_insert _ _ _ _ hm with hm | hm
    · obtain ⟨ht, hmeq⟩ := Prod.mk.inj hm
      subst hmeq
      cases hft : SMap.find data t₀ with
      | none =>
        rw [hft] at hv
        simp only [Option.getD_none, SMap.find] at hv
        rcases SMap.mem_insert _ _ _ _ hv with hv | hv
        · obtain ⟨hp, hveq⟩ := Prod.mk.inj hv
          subst hveq
          simp only [List.nil_append, List.mem_singleton] at ha
          exact Or.inr ⟨ht, hp, ha, rfl⟩
        · simp at hv
      | some m₀ =>
        rw [hft] at hv
        simp only [Option.getD_some] at hv
        rcases SMap.mem_insert _ _ _ _ hv with hv | hv
        · obtain ⟨hp, hveq⟩ := Prod.mk.inj hv
          subst hveq
          rcases List.mem_append.mp ha with ha | ha
          · cases hfp : SMap.find m₀ p₀ with
            | none => rw [hfp] at ha; simp at ha
            | some v₀ =>
              rw [hfp] at ha
              simp only [Option.getD_some] at ha
              exact Or.inl ⟨m₀, v₀, ht ▸ SMap.mem_of_find _ _ _ hft,
                hp ▸ SMap.mem_of_find _ _ _ hfp, ha⟩
          · simp only [List.mem_singleton] at ha
            exact Or.inr ⟨ht, hp, ha, rfl⟩
        · exact Or.inl ⟨m₀, v, ht ▸ SMap.mem_of_find _ _ _ hft, hv, ha⟩
    · exact Or.inl ⟨m, v, hm, hv, ha⟩

theorem holds_DelAddressByNode (data : TopicStorage) (t₀ p₀ n₀ t p : String)
    (a : Address_t) (h : holds (DelAddressByNode data t₀ p₀ n₀) t p a) :
    holds data t p a := by
  unfold DelAddressByNode at h
  cases hft : SMap.find data t₀ with
  | none => rw [hft] at h; exact h
  | some m₀ =>
    cases hfp : SMap.find m₀ p₀ with
    | none => simp only [hft, hfp] at h; exact h
    | some v₀ =>
      simp only [hft, hfp] at h
      obtain ⟨m, v, hm, hv, ha⟩ := h
      rcases SMap.mem_erase_or_insert _ _ _ _ _ hm with hm | hm
      · exact ⟨m, v, hm, hv, ha⟩
      · obtain ⟨ht, hmeq⟩ := Prod.mk.inj hm
        subst hmeq
        rcases SMap.mem_erase_or_insert _ _ _ _ _ hv with hv | hv
        · exact ⟨m₀, v, ht ▸ SMap.mem_of_find _ _ _ hft, hv, ha⟩
        · obtain ⟨hp, hveq⟩ := Prod.mk.inj hv
          subst hveq
          exact ⟨m₀, v₀, ht ▸ SMap.mem_of_find _ _ _ hft, hp ▸ SMap.mem_of_find _ _ _ hfp,
            (List.mem_filter.mp ha).1⟩

theorem holds_DelAddressesByProc (data : TopicStorage) (p₀ t p : String)
    (a : Address_t) (h : holds (DelAddressesByProc data p₀) t p a) :
    holds data t p a := by
  obtain ⟨m, v, hm, hv, ha⟩ := h
  unfold DelAddressesByProc at hm
  obtain ⟨e, he, hsome⟩ := List.mem_filterMap.mp hm
  simp only at hsome
  split at hsome
  · exact absurd hsome (by simp)
  · simp only [Option.some.injEq, Prod.mk.injEq] at hsome
    obtain ⟨h1, h2⟩ := hsome
    subst h1 h2
    exact ⟨e.2, v, he, SMap.mem_erase _ _ _ hv, ha⟩

end TopicStorage

/-! ## Runs: scope of stored records and order of callbacks -/

theorem dispatch_adv_accepted (s : DiscoveryPrivate) (now : Timestamp) (fromIp : String)
    (d : Datagram) (hself : d.pUuid ≠ s.pUuid)
    (htype : d.type = AdvType ∨ d.type = AdvSrvType)
    (hpass : s.scopeDrops fromIp d.scope = false) :
    s.DispatchDiscoveryMsg now fromIp d =
      ⟨{ s with activity := s.activity.insert d.pUuid now,
                info := (AddAddress s.info d.topic d.addr d.ctrl d.pUuid d.nUuid d.scope).2 },
        if (GetAddress s.info d.topic d.pUuid d.nUuid).isNone then
          (if d.type = AdvType ∧ s.connectionCb then
            [⟨CbKind.connection, d.topic, d.addr, d.ctrl, d.pUuid, d.nUuid, d.scope⟩]
          else if d.type = AdvSrvType ∧ s.connectionSrvCb then
            [⟨CbKind.connectionSrv, d.topic, d.addr, d.ctrl, d.pUuid, d.nUuid, d.scope⟩]
          else [])
        else [], []⟩ := by
  unfold DispatchDiscoveryMsg
  simp only [hself, if_false, htype, if_true, scopeDrops_activity, hpass,
    Bool.false_eq_true, AddAddress_fst]
  cases hg : GetAddress s.info d.topic d.pUuid d.nUuid with
  | none =>
    simp only [Option.isNone_none, if_true]
    split <;> [rfl; (split <;> rfl)]
  | some r => simp only [Option.isNone_some, Bool.false_eq_true, if_false]

theorem dispatch_quiet (s : DiscoveryPrivate) (now : Timestamp) (fromIp : String)
    (d : Datagram) (hself : d.pUuid ≠ s.pUuid)
    (h1 : ¬ (d.type = AdvType ∨ d.type = AdvSrvType))
    (h2 : ¬ (d.type = SubType ∨ d.type = SubSrvType))
    (h4 : ¬ d.type = ByeType)
    (h5 : ¬ (d.type = UnadvType ∨ d.type = UnadvSrvType)) :
    s.DispatchDiscoveryMsg now fromIp d =
      ⟨{ s with activity := s.activity.insert d.pUuid now }, [], []⟩ := by
  unfold DispatchDiscoveryMsg
  simp only [hself, if_false, h1, h2, h4, h5, ite_self]

/-- The five ways in which `DispatchDiscoveryMsg` ends. -/
theorem dispatch_shape (s : DiscoveryPrivate) (now : Timestamp) (fromIp : String)
    (d : Datagram) :
    (d.pUuid = s.pUuid ∧ s.DispatchDiscoveryMsg now fromIp d = ⟨s, [], []⟩) ∨
    (d.pUuid ≠ s.pUuid ∧ d.type ≠ ByeType ∧ ∃ sent,
      s.DispatchDiscoveryMsg now fromIp d =
        ⟨{ s with activity := s.activity.insert d.pUuid now }, [], sent⟩) ∨
    (d.pUuid ≠ s.pUuid ∧ (d.type = AdvType ∨ d.type = AdvSrvType) ∧
      s.scopeDrops fromIp d.scope = false ∧
      s.DispatchDiscoveryMsg now fromIp d =
        ⟨{ s with activity := s.activity.insert d.pUuid now,
                  info := (AddAddress s.info d.topic d.addr d.ctrl d.pUuid d.nUuid
                    d.scope).2 },
          if (GetAddress s.info d.topic d.pUuid d.nUuid).isNone then
            (if d.type = AdvType ∧ s.connectionCb then
              [⟨CbKind.connection, d.topic, d.addr, d.ctrl, d.pUuid, d.nUuid, d.scope⟩]
            else if d.type = AdvSrvType ∧ s.connectionSrvCb then
              [⟨CbKind.connectionSrv, d.topic, d.addr, d.ctrl, d.pUuid, d.nUuid, d.scope⟩]
            else [])
          else [], []⟩) ∨
    (d.pUuid ≠ s.pUuid ∧ d.type = ByeType ∧
      s.DispatchDiscoveryMsg now fromIp d =
        ⟨{ s with activity := (s.activity.insert d.pUuid now).erase d.pUuid,
                  info := DelAddressesByProc s.info d.pUuid },
          if s.disconnectionCb then
            [⟨CbKind.disconnection, "", "", "", d.pUuid, "", Scope.All⟩]
          else [], []⟩) ∨
    (d.pUuid ≠ s.pUuid ∧ (d.type = UnadvType ∨ d.type = UnadvSrvType) ∧
      s.scopeDrops fromIp d.scope = false ∧
      s.DispatchDiscoveryMsg now fromIp d =
        ⟨{ s with activity := s.activity.insert d.pUuid now,
                  info := DelAddressByNode s.info d.topic d.pUuid d.nUuid },
          if d.type = UnadvType ∧ s.disconnectionCb then
            [⟨CbKind.disconnection, d.topic, d.addr, d.ctrl, d.pUuid, d.nUuid, d.scope⟩]
          else if d.type = UnadvSrvType ∧ s.disconnectionSrvCb then
            [⟨CbKind.disconnectionSrv, d.topic, d.addr, d.ctrl, d.pUuid, d.nUuid, d.scope⟩]
          else [], []⟩) := by
  by_cases hself : d.pUuid = s.pUuid
  · left
    refine ⟨hself, ?_⟩
    unfold DispatchDiscoveryMsg
    simp only [hself, if_true]
  · right
    by_cases hadv : d.type = AdvType ∨ d.type = AdvSrvType
    · have hnb : d.type ≠ ByeType := by
        rcases hadv with h | h <;> rw [h] <;> decide
      by_cases hd : s.scopeDrops fromIp d.scope = true
      · exact Or.inl ⟨hself, hnb, [], dispatch_adv_dropped s now fromIp d hself hadv hd⟩
      · have hd := (Bool.not_eq_true _).mp hd
        exact Or.inr (Or.inl ⟨hself, hadv, hd,
          dispatch_adv_accepted s now fromIp d hself hadv hd⟩)
    · by_cases hsub : d.type = SubType ∨ d.type = SubSrvType
      · have hnb : d.type ≠ ByeType := by
          rcases hsub with h | h <;> rw [h] <;> decide
        exact Or.inl ⟨hself, hnb, _, dispatch_sub s now fromIp d hself hsub⟩
      · by_cases hbye : d.type = ByeType
        · exact Or.inr (Or.inr (Or.inl ⟨hself, hbye, dispatch_bye s now fromIp d hself hbye⟩))
        · by_cases hun : d.type = UnadvType ∨ d.type = UnadvSrvType
          · have hrun := dispatch_unadv s now fromIp d hself hun
            by_cases hd : s.scopeDrops fromIp d.scope = true
            · rw [if_pos hd] at hrun
              exact Or.inl ⟨hself, hbye, [], hrun⟩
            · rw [if_neg hd] at hrun
              exact Or.inr (Or.inr (Or.inr ⟨hself, hun, (Bool.not_eq_true _).mp hd, hrun⟩))
          · exact Or.inl ⟨hself, hbye, [],
              dispatch_quiet s now fromIp d hself hadv hsub hbye hun⟩

namespace DiscoveryPrivate

theorem Advertise_eq (s : DiscoveryPrivate) (advType : MsgType)
    (topic addr ctrl nUuid : String) (scope : Scope) :
    ∃ b, s.Advertise advType topic addr ctrl nUuid scope =
      ⟨{ s with info := (AddAddress s.info topic addr ctrl s.pUuid nUuid scope).2,
                beacons := b }, [], []⟩ := by
  unfold Advertise
  by_cases h : scope = Scope.Process
  · exact ⟨s.beacons, by rw [if_pos h]⟩
  · rw [if_neg h]
    exact ⟨_, rfl⟩

theorem Unadvertise_eq (s : DiscoveryPrivate) (unadvType : MsgType)
    (topic nUuid : String) :
    s.Unadvertise unadvType topic nUuid = ⟨s, [], []⟩ ∨
    ∃ b sent, s.Unadvertise unadvType topic nUuid =
      ⟨{ s with info := DelAddressByNode s.info topic s.pUuid nUuid, beacons := b }, [],
        sent⟩ := by
  unfold Unadvertise
  cases hg : GetAddress s.info topic s.pUuid nUuid with
  | none => exact Or.inl rfl
  | some inf =>
    right
    by_cases h : inf.scope = Scope.Process
    · exact ⟨s.beacons, [], by simp only [h, if_true]⟩
    · simp only [h, if_false]
      exact ⟨_, _, rfl⟩

/-- What an event can do to the registry, and what it never touches. -/
theorem step_shape (s : DiscoveryPrivate) (e : Event) :
    (s.step e).pUuid = s.pUuid ∧ (s.step e).hostAddr = s.hostAddr ∧
    (s.step e).connectionCb = s.connectionCb ∧
    (s.step e).connectionSrvCb = s.connectionSrvCb ∧
    ((s.step e).info = s.info ∨
      (∃ topic addr ctrl nUuid scope,
        (s.step e).info = (AddAddress s.info topic addr ctrl s.pUuid nUuid scope).2) ∨
      (∃ topic nUuid, (s.step e).info = DelAddressByNode s.info topic s.pUuid nUuid) ∨
      (∃ now fromIp d, e = Event.receive now fromIp d ∧ d.pUuid ≠ s.pUuid ∧
        ((s.scopeDrops fromIp d.scope = false ∧ (d.type = AdvType ∨ d.type = AdvSrvType) ∧
          (s.step e).info =
            (AddAddress s.info d.topic d.addr d.ctrl d.pUuid d.nUuid d.scope).2) ∨
         (d.type = ByeType ∧ (s.step e).info = DelAddressesByProc s.info d.pUuid) ∨
         (s.scopeDrops fromIp d.scope = false ∧
          (d.type = UnadvType ∨ d.type = UnadvSrvType) ∧
          (s.step e).info = DelAddressByNode s.info d.topic d.pUuid d.nUuid)))) := by
  cases e with
  | advertise advType topic addr ctrl nUuid scope =>
    obtain ⟨b, hb⟩ := Advertise_eq s advType topic addr ctrl nUuid scope
    have hst : s.step (Event.advertise advType topic addr ctrl nUuid scope) =
        (s.Advertise advType topic addr ctrl nUuid scope).st := rfl
    rw [hst, hb]
    exact ⟨rfl, rfl, rfl, rfl, Or.inr (Or.inl ⟨topic, addr, ctrl, nUuid, scope, rfl⟩)⟩
  | unadvertise unadvType topic nUuid =>
    have hst : s.step (Event.unadvertise unadvType topic nUuid) =
        (s.Unadvertise unadvType topic nUuid).st := rfl
    rcases Unadvertise_eq s unadvType topic nUuid with h | ⟨b, sent, h⟩
    · rw [hst, h]
      exact ⟨rfl, rfl, rfl, rfl, Or.inl rfl⟩
    · rw [hst, h]
      exact ⟨rfl, rfl, rfl, rfl, Or.inr (Or.inr (Or.inl ⟨topic, nUuid, rfl⟩))⟩
  | discover topic isSrvCall =>
    have hst : s.step (Event.discover topic isSrvCall) = s := Discover_st s topic isSrvCall
    rw [hst]
    exact ⟨rfl, rfl, rfl, rfl, Or.inl rfl⟩
  | receive now fromIp d =>
    have hst : s.step (Event.receive now fromIp d) =
        (s.DispatchDiscoveryMsg now fromIp d).st := rfl
    rcases dispatch_shape s now fromIp d with ⟨_, h⟩ | ⟨_, _, sent, h⟩ | ⟨hs, ht, hp, h⟩ |
      ⟨hs, ht, h⟩ | ⟨hs, ht, hp, h⟩
    · rw [hst, h]
      exact ⟨rfl, rfl, rfl, rfl, Or.inl rfl⟩
    · rw [hst, h]
      exact ⟨rfl, rfl, rfl, rfl, Or.inl rfl⟩
    · rw [hst, h]
      exact ⟨rfl, rfl, rfl, rfl, Or.inr (Or.inr (Or.inr
        ⟨now, fromIp, d, rfl, hs, Or.inl ⟨hp, ht, rfl⟩⟩))⟩
    · rw [hst, h]
      exact ⟨rfl, rfl, rfl, rfl, Or.inr (Or.inr (Or.inr
        ⟨now, fromIp, d, rfl, hs, Or.inr (Or.inl ⟨ht, rfl⟩)⟩))⟩
    · rw [hst, h]
      exact ⟨rfl, rfl, rfl, rfl, Or.inr (Or.inr (Or.inr
        ⟨now, fromIp, d, rfl, hs, Or.inr (Or.inr ⟨hp, ht, rfl⟩)⟩))⟩

theorem steps_cons (s : DiscoveryPrivate) (e : Event) (es : List Event) :
    s.steps (e :: es) = (s.step e).steps es := rfl

theorem steps_pUuid (s : DiscoveryPrivate) (es : List Event) :
    (s.steps es).pUuid = s.pUuid := by
  induction es generalizing s with
  | nil => rfl
  | cons e es ih => rw [steps_cons, ih, (step_shape s e).1]

theorem step_noRemoteProcessScope (s : DiscoveryPrivate) (e : Event)
    (h : NoRemoteProcessScope s) : NoRemoteProcessScope (s.step e) := by
  obtain ⟨hp, _, _, _, hinfo⟩ := step_shape s e
  intro t p a hold hne
  rw [hp] at hne
  rcases hinfo with hi | ⟨topic, addr, ctrl, nUuid, scope, hi⟩ | ⟨topic, nUuid, hi⟩ |
    ⟨now, fromIp, d, _, hs, hcase⟩
  · rw [hi] at hold; exact h t p a hold hne
  · rw [hi] at hold
    rcases holds_AddAddress _ _ _ _ _ _ _ _ _ _ hold with hold | ⟨_, hpe, _, _⟩
    · exact h t p a hold hne
    · exact absurd hpe hne
  · rw [hi] at hold
    exact h t p a (holds_DelAddressByNode _ _ _ _ _ _ _ hold) hne
  · rcases hcase with ⟨hpass, _, hi⟩ | ⟨_, hi⟩ | ⟨_, _, hi⟩
    · rw [hi] at hold
      rcases holds_AddAddress _ _ _ _ _ _ _ _ _ _ hold with hold | ⟨_, _, hae, _⟩
      · exact h t p a hold hne
      · rw [hae]
        intro hsc
        have hsc' : d.scope = Scope.Process := hsc
        rcases (scopeDrops_eq_false _ _ _).mp hpass with h1 | ⟨h1, _⟩ <;>
          rw [hsc'] at h1 <;> exact Scope.noConfusion h1
    · rw [hi] at hold
      exact h t p a (holds_DelAddressesByProc _ _ _ _ _ hold) hne
    · rw [hi] at hold
      exact h t p a (holds_DelAddressByNode _ _ _ _ _ _ _ hold) hne

theorem steps_noRemoteProcessScope (s : DiscoveryPrivate) (es : List Event)
    (h : NoRemoteProcessScope s) : NoRemoteProcessScope (s.steps es) := by
  induction es generalizing s with
  | nil => exact h
  | cons e es ih => exact ih _ (step_noRemoteProcessScope s e h)

theorem mem_visitOrder (m : Addresses_M) (p : String) (a : Address_t)
    (h : (p, a) ∈ visitOrder m) : ∃ v, (p, v) ∈ m ∧ a ∈ v := by
  induction m with
  | nil => simp [visitOrder] at h
  | cons e rest ih =>
    obtain ⟨p₀, nodes⟩ := e
    simp only [visitOrder, List.mem_append, List.mem_map] at h
    rcases h with ⟨node, hnode, heq⟩ | h
    · obtain ⟨h1, h2⟩ := Prod.mk.inj heq
      subst h1 h2
      exact ⟨nodes, List.mem_cons_self _ _, hnode⟩
    · obtain ⟨v, hv, ha⟩ := ih h
      exact ⟨v, List.mem_cons_of_mem _ hv, ha⟩

theorem holds_of_mem_knownRecords (s : DiscoveryPrivate) (topic p : String)
    (a : Address_t) (h : (p, a) ∈ s.knownRecords topic) : holds s.info topic p a := by
  unfold knownRecords GetAddresses at h
  cases hf : SMap.find s.info topic with
  | none => rw [hf] at h; simp at h
  | some m =>
    rw [hf] at h
    obtain ⟨v, hv, ha⟩ := mem_visitOrder m p a h
    exact ⟨m, v, SMap.mem_of_find _ _ _ hf, hv, ha⟩

theorem mem_discoverMsgLoop (s : DiscoveryPrivate) (topic : String)
    (l : List (String × Address_t)) (c : CbCall) (h : c ∈ discoverMsgLoop s topic l) :
    ∃ e ∈ l, c = knownCall topic false e := by
  induction l with
  | nil => simp [discoverMsgLoop] at h
  | cons e rest ih =>
    obtain ⟨p, node⟩ := e
    by_cases hcb : s.connectionCb = true
    · simp only [discoverMsgLoop, hcb, if_true, List.mem_cons] at h
      rcases h with h | h
      · exact ⟨(p, node), List.mem_cons_self _ _, h⟩
      · obtain ⟨e, he, hc⟩ := ih h
        exact ⟨e, List.mem_cons_of_mem _ he, hc⟩
    · simp only [discoverMsgLoop, hcb, if_false] at h
      obtain ⟨e, he, hc⟩ := ih h
      exact ⟨e, List.mem_cons_of_mem _ he, hc⟩

theorem mem_discoverSrvLoop (s : DiscoveryPrivate) (topic : String)
    (l : List (String × Address_t)) (c : CbCall) (h : c ∈ discoverSrvLoop s topic l) :
    ∃ e ∈ l, c = knownCall topic true e := by
  induction l with
  | nil => simp [discoverSrvLoop] at h
  | cons e rest ih =>
    obtain ⟨p, node⟩ := e
    by_cases hcb : s.connectionSrvCb = true
    · simp only [discoverSrvLoop, hcb, if_true, List.mem_singleton] at h
      exact ⟨(p, node), List.mem_cons_self _ _, h⟩
    · simp only [discoverSrvLoop, hcb, if_false] at h
      obtain ⟨e, he, hc⟩ := ih h
      exact ⟨e, List.mem_cons_of_mem _ he, hc⟩

theorem mem_Discover_calls (s : DiscoveryPrivate) (topic : String) (isSrvCall : Bool)
    (c : CbCall) (h : c ∈ (s.Discover topic isSrvCall).calls) :
    ∃ e ∈ s.knownRecords topic, c = knownCall topic isSrvCall e := by
  rw [Discover_calls] at h
  cases isSrvCall with
  | true => exact mem_discoverSrvLoop s topic _ c h
  | false => exact mem_discoverMsgLoop s topic _ c h

end DiscoveryPrivate

/-- C12, counterexample: engine B stores the ADV of scope Host that process A
sent from B's own host address; `Discover` then invokes `onConnection` for
that record, whose scope is Host and whose pUuid is not the engine's own. -/
theorem C12_discover_reports_remote_host_record :
    ((engineB.DispatchDiscoveryMsg 5 "10.0.0.2" advHostFromA).st.Discover "/t" false).calls =
      [⟨CbKind.connection, "/t", "tcp://1:1", "tcp://1:2", "A", "n1", Scope.Host⟩] ∧
    "A" ≠ engineB.pUuid := by
  decide

/-- C12, as amended: `Discover` has no scope filter of its own, the filter is
applied when a datagram is received.  In every state reached from an engine
with an empty registry by advertise, unadvertise and discover calls and
received datagrams, no record of another process has scope Process, so
`Discover` invokes no connection callback for a record of scope Process whose
pUuid is not the engine's own. -/
theorem C12_discover_no_remote_process_scope (s₀ : DiscoveryPrivate)
    (es : List Event) (topic : String) (isSrvCall : Bool) (hempty : s₀.info = []) :
    ∀ c ∈ ((s₀.steps es).Discover topic isSrvCall).calls,
      c.pUuid ≠ s₀.pUuid → c.scope ≠ Scope.Process := by
  have h0 : NoRemoteProcessScope s₀ := by
    intro t p a hold _
    obtain ⟨m, v, hm, _, _⟩ := hold
    rw [hempty] at hm
    simp at hm
  have hinv := steps_noRemoteProcessScope s₀ es h0
  intro c hc hne
  obtain ⟨e, he, hce⟩ := mem_Discover_calls _ _ _ _ hc
  obtain ⟨p, a⟩ := e
  have hold := holds_of_mem_knownRecords _ _ _ _ he
  rw [hce]
  rw [hce] at hne
  exact hinv topic p a hold (by rw [steps_pUuid]; exact hne)

/-- Witness of C12 as amended: engine B after the ADV of process A. -/
theorem C12_witness :
    engineB.info = [] ∧
    ∀ c ∈ ((engineB.steps [Event.receive 5 "10.0.0.1" advFromA]).Discover "/t" false).calls,
      c.pUuid ≠ engineB.pUuid → c.scope ≠ Scope.Process :=
  ⟨rfl, C12_discover_no_remote_process_scope engineB
    [Event.receive 5 "10.0.0.1" advFromA] "/t" false rfl⟩

namespace DiscoveryPrivate

theorem mem_dispatch_calls (s : DiscoveryPrivate) (now : Timestamp) (fromIp : String)
    (d : Datagram) (c : CbCall) (hc : c ∈ (s.DispatchDiscoveryMsg now fromIp d).calls) :
    d.pUuid ≠ s.pUuid ∧ c.pUuid = d.pUuid ∧
    ((c.kind = CbKind.connection ∨ c.kind = CbKind.connectionSrv) →
      c.topic = d.topic ∧ c.nUuid = d.nUuid ∧
      (d.type = AdvType ∨ d.type = AdvSrvType) ∧
      s.scopeDrops fromIp d.scope = false ∧
      GetAddress s.info d.topic d.pUuid d.nUuid = none) := by
  rcases dispatch_shape s now fromIp d with ⟨_, h⟩ | ⟨_, _, sent, h⟩ | ⟨hs, ht, hp, h⟩ |
    ⟨hs, ht, h⟩ | ⟨hs, ht, hp, h⟩
  · rw [h] at hc; simp at hc
  · rw [h] at hc; simp at hc
  · rw [h] at hc
    simp only at hc
    cases hg : GetAddress s.info d.topic d.pUuid d.nUuid with
    | some r => rw [hg] at hc; simp at hc
    | none =>
      rw [hg] at hc
      simp only [Option.isNone_none, if_true] at hc
      split at hc
      · simp only [List.mem_singleton] at hc
        subst hc
        exact ⟨hs, rfl, fun _ => ⟨rfl, rfl, ht, hp, rfl⟩⟩
      · split at hc
        · simp only [List.mem_singleton] at hc
          subst hc
          exact ⟨hs, rfl, fun _ => ⟨rfl, rfl, ht, hp, rfl⟩⟩
        · simp at hc
  · rw [h] at hc
    simp only at hc
    split at hc
    · simp only [List.mem_singleton] at hc
      subst hc
      exact ⟨hs, rfl, fun hk => by rcases hk with hk | hk <;> exact CbKind.noConfusion hk⟩
    · simp at hc
  · rw [h] at hc
    simp only at hc
    split at hc
    · simp only [List.mem_singleton] at hc
      subst hc
      exact ⟨hs, rfl, fun hk => by rcases hk with hk | hk <;> exact CbKind.noConfusion hk⟩
    · split at hc
      · simp only [List.mem_singleton] at hc
        subst hc
        exact ⟨hs, rfl, fun hk => by rcases hk with hk | hk <;> exact CbKind.noConfusion hk⟩
      · simp at hc

theorem step_connectionSeen (s : DiscoveryPrivate) (e : Event) (tr : List CbCall)
    (hcb : s.connectionCb = true) (hsrv : s.connectionSrvCb = true)
    (h : ConnectionSeen s tr) : ConnectionSeen (s.step e) (tr ++ s.stepCalls e) := by
  obtain ⟨hp, _, _, _, hinfo⟩ := step_shape s e
  intro t p a hold hne
  rw [hp] at hne
  have hold_old : holds s.info t p a →
      ∃ c ∈ tr ++ s.stepCalls e, (c.kind = CbKind.connection ∨ c.kind = CbKind.connectionSrv) ∧
        c.topic = t ∧ c.pUuid = p ∧ c.nUuid = a.nUuid := by
    intro ho
    obtain ⟨c, hc, hrest⟩ := h t p a ho hne
    exact ⟨c, List.mem_append_left _ hc, hrest⟩
  rcases hinfo with hi | ⟨topic, addr, ctrl, nUuid, scope, hi⟩ | ⟨topic, nUuid, hi⟩ |
    ⟨now, fromIp, d, he, hs, hcase⟩
  · rw [hi] at hold; exact hold_old hold
  · rw [hi] at hold
    rcases holds_AddAddress _ _ _ _ _ _ _ _ _ _ hold with hold | ⟨_, hpe, _, _⟩
    · exact hold_old hold
    · exact absurd hpe hne
  · rw [hi] at hold
    exact hold_old (holds_DelAddressByNode _ _ _ _ _ _ _ hold)
  · rcases hcase with ⟨hpass, htype, hi⟩ | ⟨_, hi⟩ | ⟨_, _, hi⟩
    · rw [hi] at hold
      rcases holds_AddAddress _ _ _ _ _ _ _ _ _ _ hold with hold | ⟨hte, hpe, hae, hnone⟩
      · exact hold_old hold
      · subst he
        have hcalls : s.stepCalls (Event.receive now fromIp d) =
            (s.DispatchDiscoveryMsg now fromIp d).calls := rfl
        rw [hcalls, dispatch_adv_accepted s now fromIp d hs htype hpass]
        simp only [hnone, Option.isNone_none, if_true, hcb, hsrv, and_true]
        rcases htype with hty | hty
        · refine ⟨⟨CbKind.connection, d.topic, d.addr, d.ctrl, d.pUuid, d.nUuid, d.scope⟩,
            ?_, Or.inl rfl, hte.symm, hpe.symm, by rw [hae]⟩
          apply List.mem_append_right
          simp [hty]
        · have hne' : ¬ AdvSrvType = AdvType := by decide
          refine ⟨⟨CbKind.connectionSrv, d.topic, d.addr, d.ctrl, d.pUuid, d.nUuid, d.scope⟩,
            ?_, Or.inr rfl, hte.symm, hpe.symm, by rw [hae]⟩
          apply List.mem_append_right
          simp [hty, hne']
    · rw [hi] at hold
      exact hold_old (holds_DelAddressesByProc _ _ _ _ _ hold)
    · rw [hi] at hold
      exact hold_old (holds_DelAddressByNode _ _ _ _ _ _ _ hold)

theorem steps_connectionSeen (s : DiscoveryPrivate) (es : List Event) (tr : List CbCall)
    (hcb : s.connectionCb = true) (hsrv : s.connectionSrvCb = true)
    (h : ConnectionSeen s tr) : ConnectionSeen (s.steps es) (tr ++ s.trace es) := by
  induction es generalizing s tr with
  | nil => simpa [steps, trace] using h
  | cons e es ih =>
    obtain ⟨_, _, h1, h2, _⟩ := step_shape s e
    have := ih (s.step e) (tr ++ s.stepCalls e) (by rw [h1]; exact hcb)
      (by rw [h2]; exact hsrv) (step_connectionSeen s e tr hcb hsrv h)
    rw [steps_cons]
    simpa [trace, List.append_assoc] using this

end DiscoveryPrivate

/-- C13, counterexample: the first datagram that engine B receives is the
UNADV of process A for `/t`; `onDisconnection` is invoked for the triple
(A, n1, /t) and is the first callback of the run, so no connection callback
precedes it. -/
theorem C13_disconnection_without_connection :
    engineB.trace [Event.receive 8 "10.0.0.1" unadvFromA] =
      [⟨CbKind.disconnection, "/t", "tcp://1:1", "tcp://1:2", "A", "n1", Scope.All⟩] := by
  decide

/-- C13, as amended: the UNADV branch invokes the disconnection callback for
every accepted datagram, whether or not the record is known.  When the engine
started with an empty registry and with both connection callbacks set, every
callback that a received datagram causes for a triple which the registry holds
at that moment, so every disconnection callback for a known record, is
preceded in the sequence of callbacks by a connection callback (`onConnection`
or `onConnectionSrv`) for the same triple. -/
theorem C13_known_record_disconnection_preceded (s₀ : DiscoveryPrivate)
    (es : List Event) (now : Timestamp) (fromIp : String) (d : Datagram) (c : CbCall)
    (hempty : s₀.info = [])
    (hcb : s₀.connectionCb = true) (hsrv : s₀.connectionSrvCb = true)
    (hc : c ∈ ((s₀.steps es).DispatchDiscoveryMsg now fromIp d).calls)
    (hknown : GetAddress (s₀.steps es).info c.topic c.pUuid c.nUuid ≠ none) :
    ∃ c₁ ∈ s₀.trace es,
      (c₁.kind = CbKind.connection ∨ c₁.kind = CbKind.connectionSrv) ∧
      c₁.topic = c.topic ∧ c₁.pUuid = c.pUuid ∧ c₁.nUuid = c.nUuid := by
  have h0 : ConnectionSeen s₀ [] := by
    intro t p a hold _
    obtain ⟨m, v, hm, _, _⟩ := hold
    rw [hempty] at hm
    simp at hm
  have hinv := steps_connectionSeen s₀ es [] hcb hsrv h0
  rw [List.nil_append] at hinv
  obtain ⟨hne, hp, _⟩ := mem_dispatch_calls _ _ _ _ _ hc
  cases hg : GetAddress (s₀.steps es).info c.topic c.pUuid c.nUuid with
  | none => exact absurd hg hknown
  | some a =>
    obtain ⟨hold, hn⟩ := holds_of_GetAddress _ _ _ _ _ hg
    obtain ⟨c₁, hc₁, hk, ht, hpp, hnn⟩ := hinv c.topic c.pUuid a hold (by rw [hp]; exact hne)
    exact ⟨c₁, hc₁, hk, ht, hpp, hnn.trans hn⟩

/-- Witness of C13 as amended: scenario S5 on engine B, the ADV of process A
followed by its UNADV. -/
theorem C13_witness :
    engineB.info = [] ∧
    ∃ c₁ ∈ engineB.trace [Event.receive 5 "10.0.0.1" advFromA],
      (c₁.kind = CbKind.connection ∨ c₁.kind = CbKind.connectionSrv) ∧
      c₁.topic = "/t" ∧ c₁.pUuid = "A" ∧ c₁.nUuid = "n1" :=
  ⟨rfl, C13_known_record_disconnection_preceded engineB
    [Event.receive 5 "10.0.0.1" advFromA] 8 "10.0.0.1" unadvFromA
    ⟨CbKind.disconnection, "/t", "tcp://1:1", "tcp://1:2", "A", "n1", Scope.All⟩
    rfl rfl rfl (by decide) (by decide)⟩

namespace TopicStorage

theorem GetAddress_AddAddress_keep (data : TopicStorage) (t₀ a₀ c₀ p₀ n₀ : String)
    (sc : Scope) (t p n : String) (a : Address_t)
    (h : GetAddress data t p n = some a) :
    GetAddress (AddAddress data t₀ a₀ c₀ p₀ n₀ sc).2 t p n = some a := by
  rw [GetAddress_eq_records] at h ⊢
  rw [records_AddAddress]
  by_cases hc : t = t₀ ∧ p = p₀ ∧ GetAddress data t₀ p₀ n₀ = none
  · rw [if_pos hc]
    obtain ⟨rfl, rfl, _⟩ := hc
    rw [List.find?_append, h]
    rfl
  · rw [if_neg hc]
    exact h

theorem find_DelAddressesByProc_keep (data : TopicStorage) (p₀ t p : String)
    (m : Addresses_M) (v : List Address_t) (hne : p ≠ p₀)
    (hft : SMap.find data t = some m) (hfp : SMap.find m p = some v) :
    SMap.find (DelAddressesByProc data p₀) t = some (SMap.erase m p₀) := by
  induction data with
  | nil => simp [SMap.find] at hft
  | cons e rest ih =>
    obtain ⟨t₁, m₁⟩ := e
    rw [DelAddressesByProc_cons]
    by_cases ht : t₁ = t
    · subst ht
      simp only [SMap.find, if_true, Option.some.injEq] at hft
      subst hft
      have hnonempty : ¬ (SMap.erase m₁ p₀).isEmpty = true := by
        intro he
        have hnil := List.isEmpty_iff.mp he
        have := SMap.find_erase_ne m₁ p₀ p hne
        rw [hnil, hfp] at this
        simp [SMap.find] at this
      rw [if_neg hnonempty]
      simp only [SMap.find, if_true]
    · simp only [SMap.find, ht, if_false] at hft
      have ih := ih hft
      by_cases he : (SMap.erase m₁ p₀).isEmpty = true
      · rw [if_pos he]; exact ih
      · rw [if_neg he]
        simp only [SMap.find, ht, if_false]
        exact ih

theorem GetAddress_DelAddressesByProc_keep (data : TopicStorage) (p₀ t p n : String)
    (a : Address_t) (hne : p ≠ p₀) (h : GetAddress data t p n = some a) :
    GetAddress (DelAddressesByProc data p₀) t p n = some a := by
  unfold GetAddress at h
  cases hft : SMap.find data t with
  | none => simp [hft] at h
  | some m =>
    cases hfp : SMap.find m p with
    | none => simp [hft, hfp] at h
    | some v =>
      simp only [hft, hfp] at h
      unfold GetAddress
      rw [find_DelAddressesByProc_keep data p₀ t p m v hne hft hfp]
      simp only [SMap.find_erase_ne m p₀ p hne, hfp]
      exact h

end TopicStorage

namespace DiscoveryPrivate

theorem removesRecord_congr (s s₁ : DiscoveryPrivate) (t p n : String) (e : Event)
    (h1 : s₁.pUuid = s.pUuid) (h2 : s₁.hostAddr = s.hostAddr)
    (h : removesRecord s₁ t p n e) : removesRecord s t p n e := by
  cases e with
  | receive now fromIp d =>
    have hd : ∀ sc, s₁.scopeDrops fromIp sc = s.scopeDrops fromIp sc := by
      intro sc; simp only [scopeDrops, h2]
    simpa only [removesRecord, h1, hd] using h
  | advertise _ _ _ _ _ _ => exact h
  | unadvertise _ _ _ => exact h
  | discover _ _ => exact h

/-- An event after which a record of another process is gone is a datagram
that removes it. -/
theorem step_removes (s : DiscoveryPrivate) (e : Event) (t p n : String)
    (hne : p ≠ s.pUuid)
    (hbefore : GetAddress s.info t p n ≠ none)
    (hafter : GetAddress (s.step e).info t p n = none) :
    removesRecord s t p n e := by
  obtain ⟨a, ha⟩ := Option.ne_none_iff_exists'.mp hbefore
  obtain ⟨_, _, _, _, hinfo⟩ := step_shape s e
  rcases hinfo with hi | ⟨topic, addr, ctrl, nUuid, scope, hi⟩ | ⟨topic, nUuid, hi⟩ |
    ⟨now, fromIp, d, he, hs, hcase⟩
  · rw [hi, ha] at hafter; exact absurd hafter (by simp)
  · rw [hi, GetAddress_AddAddress_keep _ _ _ _ _ _ _ _ _ _ _ ha] at hafter
    exact absurd hafter (by simp)
  · rw [hi, GetAddress_DelAddressByNode_ne _ _ _ _ _ _ _ (fun h => hne h.2.1), ha] at hafter
    exact absurd hafter (by simp)
  · subst he
    rcases hcase with ⟨_, _, hi⟩ | ⟨hbye, hi⟩ | ⟨hpass, hun, hi⟩
    · rw [hi, GetAddress_AddAddress_keep _ _ _ _ _ _ _ _ _ _ _ ha] at hafter
      exact absurd hafter (by simp)
    · by_cases hp : p = d.pUuid
      · exact ⟨hp.symm, hne, Or.inl hbye⟩
      · rw [hi, GetAddress_DelAddressesByProc_keep _ _ _ _ _ _ hp ha] at hafter
        exact absurd hafter (by simp)
    · by_cases htriple : t = d.topic ∧ p = d.pUuid ∧ n = d.nUuid
      · obtain ⟨h1, h2, h3⟩ := htriple
        exact ⟨h2.symm, hne, Or.inr ⟨hun, h1.symm, h3.symm, hpass⟩⟩
      · rw [hi, GetAddress_DelAddressByNode_ne _ _ _ _ _ _ _ htriple, ha] at hafter
        exact absurd hafter (by simp)

theorem steps_removes (s : DiscoveryPrivate) (es : List Event) (t p n : String)
    (hne : p ≠ s.pUuid)
    (hbefore : GetAddress s.info t p n ≠ none)
    (hafter : GetAddress (s.steps es).info t p n = none) :
    ∃ e ∈ es, removesRecord s t p n e := by
  induction es generalizing s with
  | nil => exact absurd hafter hbefore
  | cons e es ih =>
    by_cases hstep : GetAddress (s.step e).info t p n = none
    · exact ⟨e, List.mem_cons_self _ _, step_removes s e t p n hne hbefore hstep⟩
    · obtain ⟨h1, h2, _⟩ := step_shape s e
      obtain ⟨e₁, he₁, hr⟩ := ih (s.step e) (by rw [h1]; exact hne) hstep hafter
      exact ⟨e₁, List.mem_cons_of_mem _ he₁, removesRecord_congr s _ t p n e₁ h1 h2 hr⟩

end DiscoveryPrivate

/-- C14, counterexample: engine B receives the ADV of process A and then calls
`Discover` for the topic; `onConnection` is invoked twice for the triple
(A, /t, n1) and no disconnection callback lies between the two. -/
theorem C14_discover_repeats_connection :
    engineB.trace [Event.receive 5 "10.0.0.1" advFromA, Event.discover "/t" false] =
      [⟨CbKind.connection, "/t", "tcp://1:1", "tcp://1:2", "A", "n1", Scope.All⟩,
       ⟨CbKind.connection, "/t", "tcp://1:1", "tcp://1:2", "A", "n1", Scope.All⟩] := by
  decide

/-! ## Advertise, unadvertise and the activity refresh -/

/-- C15: when the registry holds the record r for (topic, own pUuid, nUuid),
`Unadvertise` removes it and leaves the lookup of every other triple
unchanged; if the stored scope of r is not Process it publishes exactly one
datagram, UNADV for kind Msg and UNADV_SRV for kind Srv, with the engine's
pUuid, the topic, the nUuid and the stored address, control address and scope
of r; if the stored scope is Process it publishes nothing.  No callback is
invoked. -/
theorem C15_unadvertise_removes_and_announces (s : DiscoveryPrivate)
    (unadvType : MsgType) (topic nUuid : String) (r : Address_t)
    (hrec : GetAddress s.info topic s.pUuid nUuid = some r) :
    GetAddress (s.Unadvertise unadvType topic nUuid).st.info topic s.pUuid nUuid = none ∧
    (∀ t p n, ¬ (t = topic ∧ p = s.pUuid ∧ n = nUuid) →
      GetAddress (s.Unadvertise unadvType topic nUuid).st.info t p n =
        GetAddress s.info t p n) ∧
    (r.scope ≠ Scope.Process →
      (s.Unadvertise unadvType topic nUuid).sent =
        [⟨⟨s.pUuid, topic, if unadvType = MsgType.Msg then UnadvType else UnadvSrvType⟩,
          some ⟨r.addr, r.ctrl, nUuid, r.scope⟩⟩]) ∧
    (r.scope = Scope.Process → (s.Unadvertise unadvType topic nUuid).sent = []) ∧
    (s.Unadvertise unadvType topic nUuid).calls = [] := by
  have hinfo : (s.Unadvertise unadvType topic nUuid).st.info =
      DelAddressByNode s.info topic s.pUuid nUuid := by
    unfold Unadvertise
    simp only [hrec]
    split <;> rfl
  refine ⟨?_, ?_, ?_, ?_, ?_⟩
  · rw [hinfo]; exact GetAddress_DelAddressByNode_self _ _ _ _
  · intro t p n h
    rw [hinfo]; exact GetAddress_DelAddressByNode_ne _ _ _ _ _ _ _ h
  · intro hsc
    unfold Unadvertise
    simp only [hrec, hsc, if_false]
    cases unadvType with
    | Msg => simp [SendMsg]
    | Srv => simp [SendMsg]
  · intro hsc
    unfold Unadvertise
    simp only [hrec, hsc, if_true]
  · unfold Unadvertise
    simp only [hrec]
    split <;> rfl

/-- Witness of C15: engine A withdraws the topic that it advertised with scope
All and publishes one UNADV. -/
theorem C15_witness :
    GetAddress engineAOneTopic.info "/t" engineAOneTopic.pUuid "n1" =
      some ⟨"tcp://1:1", "tcp://1:2", "A", "n1", Scope.All⟩ ∧
    GetAddress (engineAOneTopic.Unadvertise MsgType.Msg "/t" "n1").st.info "/t" "A" "n1" =
      none ∧
    (engineAOneTopic.Unadvertise MsgType.Msg "/t" "n1").sent =
      [⟨⟨"A", "/t", UnadvType⟩, some ⟨"tcp://1:1", "tcp://1:2", "n1", Scope.All⟩⟩] :=
  have hrec : GetAddress engineAOneTopic.info "/t" engineAOneTopic.pUuid "n1" =
      some ⟨"tcp://1:1", "tcp://1:2", "A", "n1", Scope.All⟩ := by decide
  have h := C15_unadvertise_removes_and_announces engineAOneTopic MsgType.Msg "/t" "n1"
    _ hrec
  ⟨hrec, h.1, h.2.2.1 (by decide)⟩

/-- C16: when the registry holds no record for (topic, own pUuid, nUuid),
`Unadvertise` changes nothing: the state, with the registry, the beacon table
and the activity table, is the same, nothing is published and no callback is
invoked, whatever other processes have registered. -/
theorem C16_unadvertise_absent_is_noop (s : DiscoveryPrivate)
    (unadvType : MsgType) (topic nUuid : String)
    (hnone : GetAddress s.info topic s.pUuid nUuid = none) :
    (s.Unadvertise unadvType topic nUuid).st = s ∧
    (s.Unadvertise unadvType topic nUuid).st.info = s.info ∧
    (s.Unadvertise unadvType topic nUuid).st.beacons = s.beacons ∧
    (s.Unadvertise unadvType topic nUuid).st.activity = s.activity ∧
    (s.Unadvertise unadvType topic nUuid).sent = [] ∧
    (s.Unadvertise unadvType topic nUuid).calls = [] := by
  have h : s.Unadvertise unadvType topic nUuid = ⟨s, [], []⟩ := by
    unfold Unadvertise
    simp only [hnone]
  rw [h]
  exact ⟨rfl, rfl, rfl, rfl, rfl, rfl⟩

/-- Witness of C16: engine B knows the record of process A for (`/t`, n1) and
has none of its own; unadvertising (`/t`, n1) on B changes nothing. -/
theorem C16_witness :
    GetAddress engineBKnowsA.info "/t" "A" "n1" ≠ none ∧
    GetAddress engineBKnowsA.info "/t" engineBKnowsA.pUuid "n1" = none ∧
    (engineBKnowsA.Unadvertise MsgType.Msg "/t" "n1").st = engineBKnowsA ∧
    (engineBKnowsA.Unadvertise MsgType.Msg "/t" "n1").sent = [] :=
  have hnone : GetAddress engineBKnowsA.info "/t" engineBKnowsA.pUuid "n1" = none := by
    decide
  have h := C16_unadvertise_absent_is_noop engineBKnowsA MsgType.Msg "/t" "n1" hnone
  ⟨by decide, hnone, h.1, h.2.2.2.2.1⟩

/-- C17: `Advertise` with scope Process leaves a record for (topic, own pUuid,
nUuid) in the registry, the one that was there or else the record with exactly
the given fields, and has no network effect: the beacon table is unchanged and
nothing is published.  No callback is invoked and the activity table is
unchanged. -/
theorem C17_advertise_process_scope_is_local (s : DiscoveryPrivate)
    (advType : MsgType) (topic addr ctrl nUuid : String) :
    GetAddress (s.Advertise advType topic addr ctrl nUuid Scope.Process).st.info
        topic s.pUuid nUuid =
      some ((GetAddress s.info topic s.pUuid nUuid).getD
        ⟨addr, ctrl, s.pUuid, nUuid, Scope.Process⟩) ∧
    (s.Advertise advType topic addr ctrl nUuid Scope.Process).st.beacons = s.beacons ∧
    (s.Advertise advType topic addr ctrl nUuid Scope.Process).sent = [] ∧
    (s.Advertise advType topic addr ctrl nUuid Scope.Process).calls = [] ∧
    (s.Advertise advType topic addr ctrl nUuid Scope.Process).st.activity = s.activity := by
  have h : s.Advertise advType topic addr ctrl nUuid Scope.Process =
      ⟨{ s with info := (AddAddress s.info topic addr ctrl s.pUuid nUuid
          Scope.Process).2 }, [], []⟩ := by
    unfold Advertise
    simp only [if_true]
  rw [h]
  exact ⟨GetAddress_AddAddress_self _ _ _ _ _ _ _, rfl, rfl, rfl, rfl⟩

/-- C18 (fails on the code): engine B has no disconnection callback set and
its activity table holds process A, last seen at time 5.  The sweep at time
3006 removes the records of A from the registry and then calls the empty
`disconnectionCb`, which throws: the pass does not complete, and the activity
entry of A is still there. -/
theorem C18_sweep_throws_without_callback :
    engineBNoCallbacks.disconnectionCb = false ∧
    engineBNoCallbacks.activity = [("A", 5)] ∧
    engineBNoCallbacks.RunActivityTask tickMs 3006 4 =
      Sweep.threw { engineBNoCallbacks with info := [] } [] ∧
    engineBKnowsA.RunActivityTask tickMs 3006 4 =
      Sweep.finished { engineBKnowsA with info := [], activity := [] }
        [⟨CbKind.disconnection, "", "", "", "A", "", Scope.All⟩] := by
  decide

/-- C19: a datagram of another process P whose type is not BYE, whatever else
it does, leaves the activity table with P mapped to the reception time and
every other entry unchanged; for a HELLO that is the only effect: registry and
beacon table are unchanged, nothing is published and no callback is invoked. -/
theorem C19_activity_refresh (s : DiscoveryPrivate) (now : Timestamp)
    (fromIp : String) (d : Datagram)
    (hself : d.pUuid ≠ s.pUuid) (hbye : d.type ≠ ByeType) :
    SMap.find (s.DispatchDiscoveryMsg now fromIp d).st.activity d.pUuid = some now ∧
    (∀ p, p ≠ d.pUuid →
      SMap.find (s.DispatchDiscoveryMsg now fromIp d).st.activity p =
        SMap.find s.activity p) ∧
    (d.type = HelloType →
      (s.DispatchDiscoveryMsg now fromIp d).st.info = s.info ∧
      (s.DispatchDiscoveryMsg now fromIp d).st.beacons = s.beacons ∧
      (s.DispatchDiscoveryMsg now fromIp d).sent = [] ∧
      (s.DispatchDiscoveryMsg now fromIp d).calls = []) := by
  have hact : (s.DispatchDiscoveryMsg now fromIp d).st.activity =
      s.activity.insert d.pUuid now := by
    rcases dispatch_shape s now fromIp d with ⟨h, _⟩ | ⟨_, _, sent, h⟩ | ⟨_, _, _, h⟩ |
      ⟨_, h, _⟩ | ⟨_, _, _, h⟩
    · exact absurd h hself
    · rw [h]
    · rw [h]
    · exact absurd h hbye
    · rw [h]
  refine ⟨?_, ?_, ?_⟩
  · rw [hact]; exact SMap.find_insert_self _ _ _
  · intro p hp
    rw [hact]; exact SMap.find_insert_ne _ _ _ _ hp
  · intro hhello
    have h1 : ¬ (d.type = AdvType ∨ d.type = AdvSrvType) := by rw [hhello]; decide
    have h2 : ¬ (d.type = SubType ∨ d.type = SubSrvType) := by rw [hhello]; decide
    have h5 : ¬ (d.type = UnadvType ∨ d.type = UnadvSrvType) := by rw [hhello]; decide
    rw [dispatch_quiet s now fromIp d hself h1 h2 hbye h5]
    exact ⟨rfl, rfl, rfl, rfl⟩

/-- Witness of C19: engine B, which knows process A since time 5, receives a
SUB of process C at time 9. -/
theorem C19_witness :
    subFromC.pUuid ≠ engineBKnowsA.pUuid ∧ subFromC.type ≠ ByeType ∧
    SMap.find (engineBKnowsA.DispatchDiscoveryMsg 9 "10.0.0.3" subFromC).st.activity "C" =
      some 9 ∧
    SMap.find (engineBKnowsA.DispatchDiscoveryMsg 9 "10.0.0.3" subFromC).st.activity "A" =
      some 5 :=
  have h := C19_activity_refresh engineBKnowsA 9 "10.0.0.3" subFromC (by decide) (by decide)
  ⟨by decide, by decide, h.1, (h.2.1 "A" (by decide)).trans (by decide)⟩

/-! ## Packing a publisher record -/

theorem u64le_length (n : Nat) : (u64le n).length = 8 := by
  simp [u64le]

/-- Writing right behind the part `w` that was written so far. -/
theorem memcpy_append (w rest src : Bytes) :
    memcpy (w ++ rest) w.length src = (w ++ src) ++ rest.drop src.length := by
  unfold memcpy
  rw [List.take_left, List.drop_append_eq_append_drop]
  have h1 : w.length + src.length - w.length = src.length := by omega
  have h2 : List.drop (w.length + src.length) w = [] :=
    List.drop_eq_nil_of_le (by omega)
  rw [h1, h2, List.nil_append]

theorem memcpy_zero (buf src : Bytes) :
    memcpy buf 0 src = src ++ buf.drop src.length := by
  simp [memcpy]

namespace Publisher

theorem wire_length (p : Publisher) : p.wire.length = p.GetMsgLength := by
  simp only [wire, List.length_append, u64le_length, List.length_singleton, GetMsgLength]

theorem Pack_eq (p : Publisher) (buf : Bytes)
    (ht : p.topic ≠ []) (ha : p.addr ≠ []) (hn : p.nUuid ≠ []) :
    p.Pack buf = (p.GetMsgLength, p.wire ++ buf.drop p.GetMsgLength) := by
  have hc : (p.topic.isEmpty || p.addr.isEmpty || p.nUuid.isEmpty) = false := by
    cases htp : p.topic with
    | nil => exact absurd htp ht
    | cons _ _ =>
      cases hap : p.addr with
      | nil => exact absurd hap ha
      | cons _ _ =>
        cases hnp : p.nUuid with
        | nil => exact absurd hnp hn
        | cons _ _ => rfl
  unfold Pack
  rw [hc]
  simp only [Bool.false_eq_true, if_false]
  congr 1
  -- every write lands right behind what has been written
  have e1 : memcpy buf 0 (u64le p.topic.length) =
      u64le p.topic.length ++ buf.drop 8 := by
    rw [memcpy_zero, u64le_length]
  rw [e1]
  have e2 : memcpy (u64le p.topic.length ++ buf.drop 8) 8 p.topic =
      (u64le p.topic.length ++ p.topic) ++ (buf.drop 8).drop p.topic.length := by
    have := memcpy_append (u64le p.topic.length) (buf.drop 8) p.topic
    rwa [u64le_length] at this
  rw [e2]
  have e3 : memcpy ((u64le p.topic.length ++ p.topic) ++ (buf.drop 8).drop p.topic.length)
      (8 + p.topic.length) (u64le p.addr.length) =
      ((u64le p.topic.length ++ p.topic) ++ u64le p.addr.length) ++
        ((buf.drop 8).drop p.topic.length).drop 8 := by
    have := memcpy_append (u64le p.topic.length ++ p.topic)
      ((buf.drop 8).drop p.topic.length) (u64le p.addr.length)
    rwa [List.length_append, u64le_length, u64le_length] at this
  rw [e3]
  have e4 : memcpy (((u64le p.topic.length ++ p.topic) ++ u64le p.addr.length) ++
        ((buf.drop 8).drop p.topic.length).drop 8)
      (8 + p.topic.length + 8) p.addr =
      (((u64le p.topic.length ++ p.topic) ++ u64le p.addr.length) ++ p.addr) ++
        (((buf.drop 8).drop p.topic.length).drop 8).drop p.addr.length := by
    have := memcpy_append ((u64le p.topic.length ++ p.topic) ++ u64le p.addr.length)
      (((buf.drop 8).drop p.topic.length).drop 8) p.addr
    rwa [List.length_append, List.length_append, u64le_length, u64le_length] at this
  rw [e4]
  have e5 : memcpy ((((u64le p.topic.length ++ p.topic) ++ u64le p.addr.length) ++ p.addr) ++
        (((buf.drop 8).drop p.topic.length).drop 8).drop p.addr.length)
      (8 + p.topic.length + 8 + p.addr.length) (u64le p.nUuid.length) =
      ((((u64le p.topic.length ++ p.topic) ++ u64le p.addr.length) ++ p.addr) ++
          u64le p.nUuid.length) ++
        ((((buf.drop 8).drop p.topic.length).drop 8).drop p.addr.length).drop 8 := by
    have := memcpy_append
      (((u64le p.topic.length ++ p.topic) ++ u64le p.addr.length) ++ p.addr)
      ((((buf.drop 8).drop p.topic.length).drop 8).drop p.addr.length)
      (u64le p.nUuid.length)
    rwa [List.length_append, List.length_append, List.length_append, u64le_length,
      u64le_length, u64le_length] at this
  rw [e5]
  have e6 : memcpy (((((u64le p.topic.length ++ p.topic) ++ u64le p.addr.length) ++ p.addr) ++
          u64le p.nUuid.length) ++
        ((((buf.drop 8).drop p.topic.length).drop 8).drop p.addr.length).drop 8)
      (8 + p.topic.length + 8 + p.addr.length + 8) p.nUuid =
      (((((u64le p.topic.length ++ p.topic) ++ u64le p.addr.length) ++ p.addr) ++
          u64le p.nUuid.length) ++ p.nUuid) ++
        (((((buf.drop 8).drop p.topic.length).drop 8).drop p.addr.length).drop 8).drop
          p.nUuid.length := by
    have := memcpy_append
      ((((u64le p.topic.length ++ p.topic) ++ u64le p.addr.length) ++ p.addr) ++
          u64le p.nUuid.length)
      (((((buf.drop 8).drop p.topic.length).drop 8).drop p.addr.length).drop 8)
      p.nUuid
    rwa [List.length_append, List.length_append, List.length_append, List.length_append,
      u64le_length, u64le_length, u64le_length] at this
  rw [e6]
  have e7 : memcpy ((((((u64le p.topic.length ++ p.topic) ++ u64le p.addr.length) ++ p.addr) ++
          u64le p.nUuid.length) ++ p.nUuid) ++
        (((((buf.drop 8).drop p.topic.length).drop 8).drop p.addr.length).drop 8).drop
          p.nUuid.length)
      (8 + p.topic.length + 8 + p.addr.length + 8 + p.nUuid.length) [p.scope.toUInt8] =
      ((((((u64le p.topic.length ++ p.topic) ++ u64le p.addr.length) ++ p.addr) ++
          u64le p.nUuid.length) ++ p.nUuid) ++ [p.scope.toUInt8]) ++
        ((((((buf.drop 8).drop p.topic.length).drop 8).drop p.addr.length).drop 8).drop
          p.nUuid.length).drop 1 := by
    have := memcpy_append
      (((((u64le p.topic.length ++ p.topic) ++ u64le p.addr.length) ++ p.addr) ++
          u64le p.nUuid.length) ++ p.nUuid)
      ((((((buf.drop 8).drop p.topic.length).drop 8).drop p.addr.length).drop 8).drop
          p.nUuid.length)
      [p.scope.toUInt8]
    rwa [List.length_append, List.length_append, List.length_append, List.length_append,
      List.length_append, u64le_length, u64le_length, u64le_length,
      List.length_singleton] at this
  rw [e7]
  simp only [List.drop_drop, wire, GetMsgLength]

end Publisher

/-- C20: for a publisher whose topic, addr and nUuid are non-empty and a
buffer that has room for the record, `Pack` returns
8 + |topic| + 8 + |addr| + 8 + |nUuid| + 1 and writes exactly that many bytes
at the start of the buffer: the 64-bit little-endian length of the topic, the
topic, the length of addr, addr, the length of nUuid, nUuid, and one byte with
the scope; the rest of the buffer is kept.  The process UUID is not written:
a publisher that differs in its pUuid only packs to the same bytes. -/
theorem C20_publisher_pack_layout (p : Publisher) (buf : Bytes)
    (ht : p.topic ≠ []) (ha : p.addr ≠ []) (hn : p.nUuid ≠ [])
    (hcap : p.GetMsgLength ≤ buf.length) :
    (p.Pack buf).1 = 8 + p.topic.length + 8 + p.addr.length + 8 + p.nUuid.length + 1 ∧
    (p.Pack buf).2.take (p.Pack buf).1 =
      u64le p.topic.length ++ p.topic ++ u64le p.addr.length ++ p.addr ++
        u64le p.nUuid.length ++ p.nUuid ++ [p.scope.toUInt8] ∧
    (p.Pack buf).2.drop (p.Pack buf).1 = buf.drop (p.Pack buf).1 ∧
    (p.Pack buf).2.length = buf.length ∧
    (∀ x : Bytes, Publisher.Pack { p with pUuid := x } buf = p.Pack buf) := by
  rw [Publisher.Pack_eq p buf ht ha hn]
  have hlen := Publisher.wire_length p
  refine ⟨rfl, ?_, ?_, ?_, ?_⟩
  · show (p.wire ++ buf.drop p.GetMsgLength).take p.GetMsgLength = _
    rw [← hlen, List.take_left]
    rfl
  · show (p.wire ++ buf.drop p.GetMsgLength).drop p.GetMsgLength = _
    rw [← hlen, List.drop_left]
  · show (p.wire ++ buf.drop p.GetMsgLength).length = _
    rw [List.length_append, List.length_drop, hlen]
    omega
  · intro x
    rw [Publisher.Pack_eq { p with pUuid := x } buf ht ha hn]
    rfl

/-- Witness of C20: the sample publisher packed into a buffer of 40 zero
bytes gives 32 bytes of record followed by the last 8 bytes of the buffer. -/
theorem C20_witness :
    publisherSample.GetMsgLength ≤ (List.replicate 40 0).length ∧
    (publisherSample.Pack (List.replicate 40 0)).1 = 32 ∧
    (publisherSample.Pack (List.replicate 40 0)).2 =
      [2, 0, 0, 0, 0, 0, 0, 0, 47, 116, 3, 0, 0, 0, 0, 0, 0, 0, 97, 58, 49,
       2, 0, 0, 0, 0, 0, 0, 0, 110, 49, 2, 0, 0, 0, 0, 0, 0, 0, 0] :=
  have h := C20_publisher_pack_layout publisherSample (List.replicate 40 0)
    (by decide) (by decide) (by decide) (by decide)
  ⟨by decide, h.1, by decide⟩

/-! ## Reading a publisher record back -/

theorem decodeLE_u64le (n : Nat) : decodeLE (u64le n) = n % 2 ^ 64 := by
  have h : u64le n = [n % 2 ^ 64 / 256 ^ 0 % 256, n % 2 ^ 64 / 256 ^ 1 % 256,
      n % 2 ^ 64 / 256 ^ 2 % 256, n % 2 ^ 64 / 256 ^ 3 % 256, n % 2 ^ 64 / 256 ^ 4 % 256,
      n % 2 ^ 64 / 256 ^ 5 % 256, n % 2 ^ 64 / 256 ^ 6 % 256, n % 2 ^ 64 / 256 ^ 7 % 256] := rfl
  rw [h]
  simp only [decodeLE]
  have hm : n % 2 ^ 64 < 2 ^ 64 := Nat.mod_lt _ (by norm_num)
  generalize n % 2 ^ 64 = m at hm
  norm_num at hm ⊢
  omega

theorem readU64_at (w rest : Bytes) (n off : Nat) (hw : w.length = off) :
    readU64 (w ++ (u64le n ++ rest)) off = n % 2 ^ 64 := by
  subst hw
  unfold readU64
  rw [List.drop_left, ← u64le_length n, List.take_left, decodeLE_u64le]

theorem readString_at (w s rest : Bytes) (off len : Nat) (hw : w.length = off)
    (hs : s.length = len) : readString (w ++ (s ++ rest)) off len = s := by
  subst hw hs
  unfold readString
  rw [List.drop_left, List.take_left]

theorem readU8_at (w rest : Bytes) (b off : Nat) (hw : w.length = off) :
    readU8 (w ++ (b :: rest)) off = b % 256 := by
  subst hw
  unfold readU8
  induction w with
  | nil => rfl
  | cons x w ih => simpa using ih

namespace Publisher

/-- Unpacking a buffer that starts with a record of three length-prefixed
strings and a scope byte. -/
theorem Unpack_record (q : Publisher) (t a n : Bytes) (sc : Nat) (rest : Bytes)
    (ht : t.length < 2 ^ 64) (ha : a.length < 2 ^ 64) (hn : n.length < 2 ^ 64) :
    q.Unpack (some (u64le t.length ++ (t ++ (u64le a.length ++ (a ++
        (u64le n.length ++ (n ++ (sc :: rest)))))))) =
      (8 + t.length + 8 + a.length + 8 + n.length + 1,
        ⟨t, a, q.pUuid, n, ⟨sc % 256⟩⟩) := by
  have h1 : readU64 (u64le t.length ++ (t ++ (u64le a.length ++ (a ++
      (u64le n.length ++ (n ++ (sc :: rest))))))) 0 = t.length := by
    have := readU64_at [] (t ++ (u64le a.length ++ (a ++
      (u64le n.length ++ (n ++ (sc :: rest)))))) t.length 0 rfl
    rw [List.nil_append, Nat.mod_eq_of_lt ht] at this
    exact this
  have h2 : readString (u64le t.length ++ (t ++ (u64le a.length ++ (a ++
      (u64le n.length ++ (n ++ (sc :: rest))))))) 8 t.length = t :=
    readString_at _ _ _ _ _ (u64le_length _) rfl
  have h3 : readU64 (u64le t.length ++ (t ++ (u64le a.length ++ (a ++
      (u64le n.length ++ (n ++ (sc :: rest))))))) (8 + t.length) = a.length := by
    have := readU64_at (u64le t.length ++ t) (a ++ (u64le n.length ++ (n ++ (sc :: rest))))
      a.length (8 + t.length) (by rw [List.length_append, u64le_length])
    rw [List.append_assoc, Nat.mod_eq_of_lt ha] at this
    exact this
  have h4 : readString (u64le t.length ++ (t ++ (u64le a.length ++ (a ++
      (u64le n.length ++ (n ++ (sc :: rest))))))) (8 + t.length + 8) a.length = a := by
    have := readString_at (u64le t.length ++ t ++ u64le a.length) a
      (u64le n.length ++ (n ++ (sc :: rest))) (8 + t.length + 8) a.length
      (by simp only [List.length_append, u64le_length]) rfl
    simp only [List.append_assoc] at this
    exact this
  have h5 : readU64 (u64le t.length ++ (t ++ (u64le a.length ++ (a ++
      (u64le n.length ++ (n ++ (sc :: rest))))))) (8 + t.length + 8 + a.length) =
      n.length := by
    have := readU64_at (u64le t.length ++ t ++ u64le a.length ++ a) (n ++ (sc :: rest))
      n.length (8 + t.length + 8 + a.length)
      (by simp only [List.length_append, u64le_length])
    simp only [List.append_assoc] at this
    rw [Nat.mod_eq_of_lt hn] at this
    exact this
  have h6 : readString (u64le t.length ++ (t ++ (u64le a.length ++ (a ++
      (u64le n.length ++ (n ++ (sc :: rest))))))) (8 + t.length + 8 + a.length + 8)
      n.length = n := by
    have := readString_at (u64le t.length ++ t ++ u64le a.length ++ a ++ u64le n.length) n
      (sc :: rest) (8 + t.length + 8 + a.length + 8) n.length
      (by simp only [List.length_append, u64le_length]) rfl
    simp only [List.append_assoc] at this
    exact this
  have h7 : readU8 (u64le t.length ++ (t ++ (u64le a.length ++ (a ++
      (u64le n.length ++ (n ++ (sc :: rest)))))))
      (8 + t.length + 8 + a.length + 8 + n.length) = sc % 256 := by
    have := readU8_at (u64le t.length ++ t ++ u64le a.length ++ a ++ u64le n.length ++ n)
      rest sc (8 + t.length + 8 + a.length + 8 + n.length)
      (by simp only [List.length_append, u64le_length])
    simp only [List.append_assoc] at this
    exact this
  unfold Unpack
  simp only [h1, h2, h3, h4, h5, h6, h7, GetMsgLength]

theorem wire_eq (p : Publisher) (rest : Bytes) :
    p.wire ++ rest = u64le p.topic.length ++ (p.topic ++ (u64le p.addr.length ++
      (p.addr ++ (u64le p.nUuid.length ++ (p.nUuid ++ (p.scope.toUInt8 :: rest)))))) := by
  simp only [wire, List.append_assoc, List.singleton_append]

/-- Unpacking what `Pack` wrote. -/
theorem Unpack_wire (q p : Publisher) (rest : Bytes)
    (ht : p.topic.length < 2 ^ 64) (ha : p.addr.length < 2 ^ 64)
    (hn : p.nUuid.length < 2 ^ 64) (hs : p.scope.val < 256) :
    q.Unpack (some (p.wire ++ rest)) = (p.GetMsgLength, { p with pUuid := q.pUuid }) := by
  rw [wire_eq, Unpack_record q _ _ _ _ _ ht ha hn]
  have hsc : p.scope.toUInt8 % 256 = p.scope.val := by
    unfold Scope_t.toUInt8
    omega
  rw [hsc]
  rfl

end Publisher

/-- C22: for a publisher p with non-empty topic, addr and nUuid (lengths are
64-bit values, the scope fits the byte that carries it) and any publisher q,
unpacking into q what `p.Pack` wrote gives q the topic, addr, nUuid and scope
of p, `Unpack` returns what `Pack` returned, and q keeps its own pUuid; so the
unpacked publisher equals p exactly when q already had the pUuid of p.  The
buffer has room for the record and keeps its length. -/
theorem C22_publisher_unpack_pack (p q : Publisher) (buf : Bytes)
    (ht : p.topic ≠ []) (ha : p.addr ≠ []) (hn : p.nUuid ≠ [])
    (hlt : p.topic.length < 2 ^ 64) (hla : p.addr.length < 2 ^ 64)
    (hln : p.nUuid.length < 2 ^ 64) (hs : p.scope.val < 256)
    (hcap : p.GetMsgLength ≤ buf.length) :
    (q.Unpack (some (p.Pack buf).2)).2.topic = p.topic ∧
    (q.Unpack (some (p.Pack buf).2)).2.addr = p.addr ∧
    (q.Unpack (some (p.Pack buf).2)).2.nUuid = p.nUuid ∧
    (q.Unpack (some (p.Pack buf).2)).2.scope = p.scope ∧
    (q.Unpack (some (p.Pack buf).2)).1 = (p.Pack buf).1 ∧
    (q.Unpack (some (p.Pack buf).2)).2.pUuid = q.pUuid ∧
    ((q.Unpack (some (p.Pack buf).2)).2 = p ↔ q.pUuid = p.pUuid) ∧
    (p.Pack buf).2.length = buf.length := by
  rw [Publisher.Pack_eq p buf ht ha hn]
  simp only
  rw [Publisher.Unpack_wire q p _ hlt hla hln hs]
  refine ⟨rfl, rfl, rfl, rfl, rfl, rfl, ?_, ?_⟩
  swap
  · rw [List.length_append, List.length_drop, Publisher.wire_length]
    omega
  constructor
  · intro h
    have := congrArg Publisher.pUuid h
    exact this
  · intro h
    show ({ p with pUuid := q.pUuid } : Publisher) = p
    rw [h]

/-- Witness of C22: the sample publisher packed into 40 zero bytes and
unpacked into a blank publisher. -/
theorem C22_witness :
    publisherSample.GetMsgLength ≤ (List.replicate 40 0).length ∧
    (publisherBlank.Unpack (some (publisherSample.Pack (List.replicate 40 0)).2)).2.topic =
      [47, 116] ∧
    (publisherBlank.Unpack (some (publisherSample.Pack (List.replicate 40 0)).2)).1 = 32 ∧
    (publisherBlank.Unpack (some (publisherSample.Pack (List.replicate 40 0)).2)).2.pUuid =
      [] :=
  have h := C22_publisher_unpack_pack publisherSample publisherBlank (List.replicate 40 0)
    (by decide) (by decide) (by decide) (by decide) (by decide) (by decide) (by decide)
    (by decide)
  ⟨by decide, h.1, h.2.2.2.2.1.trans (by decide), h.2.2.2.2.2.1⟩

/-- C26: a buffer starts with a publisher record, three length-prefixed
strings (lengths are 64-bit values) and a scope byte.  If the three strings
are non-empty, `Unpack` followed by `Pack` into a fresh buffer with room for
the record returns the length n that `Unpack` returned and reproduces the
first n bytes of the input, the fresh buffer keeping its length; if one of
the strings is empty, `Unpack` still
returns a non-zero length, but the following `Pack` returns 0 and leaves the
fresh buffer as it was. -/
theorem C26_publisher_pack_unpack (q : Publisher) (t a n : Bytes) (sc : Nat)
    (rest fresh : Bytes)
    (hlt : t.length < 2 ^ 64) (hla : a.length < 2 ^ 64) (hln : n.length < 2 ^ 64)
    (hsc : sc < 256)
    (hcap : 8 + t.length + 8 + a.length + 8 + n.length + 1 ≤ fresh.length) :
    (t ≠ [] → a ≠ [] → n ≠ [] →
      ((q.Unpack (some (u64le t.length ++ t ++ u64le a.length ++ a ++ u64le n.length ++ n ++
          [sc] ++ rest))).2.Pack fresh).1 =
        (q.Unpack (some (u64le t.length ++ t ++ u64le a.length ++ a ++ u64le n.length ++ n ++
          [sc] ++ rest))).1 ∧
      ((q.Unpack (some (u64le t.length ++ t ++ u64le a.length ++ a ++ u64le n.length ++ n ++
          [sc] ++ rest))).2.Pack fresh).2.take
          (q.Unpack (some (u64le t.length ++ t ++ u64le a.length ++ a ++ u64le n.length ++
            n ++ [sc] ++ rest))).1 =
        (u64le t.length ++ t ++ u64le a.length ++ a ++ u64le n.length ++ n ++ [sc] ++
          rest).take
          (q.Unpack (some (u64le t.length ++ t ++ u64le a.length ++ a ++ u64le n.length ++
            n ++ [sc] ++ rest))).1 ∧
      ((q.Unpack (some (u64le t.length ++ t ++ u64le a.length ++ a ++ u64le n.length ++ n ++
          [sc] ++ rest))).2.Pack fresh).2.length = fresh.length) ∧
    ((t = [] ∨ a = [] ∨ n = []) →
      (q.Unpack (some (u64le t.length ++ t ++ u64le a.length ++ a ++ u64le n.length ++ n ++
          [sc] ++ rest))).1 ≠ 0 ∧
      (q.Unpack (some (u64le t.length ++ t ++ u64le a.length ++ a ++ u64le n.length ++ n ++
          [sc] ++ rest))).2.Pack fresh = (0, fresh)) := by
  have hbuf : u64le t.length ++ t ++ u64le a.length ++ a ++ u64le n.length ++ n ++ [sc] ++
      rest = u64le t.length ++ (t ++ (u64le a.length ++ (a ++
        (u64le n.length ++ (n ++ (sc :: rest)))))) := by
    simp only [List.append_assoc, List.singleton_append]
  rw [hbuf, Publisher.Unpack_record q t a n sc rest hlt hla hln, Nat.mod_eq_of_lt hsc]
  constructor
  · intro ht ha hn
    rw [Publisher.Pack_eq ⟨t, a, q.pUuid, n, ⟨sc⟩⟩ fresh ht ha hn]
    have hw : (Publisher.wire ⟨t, a, q.pUuid, n, ⟨sc⟩⟩).length =
        8 + t.length + 8 + a.length + 8 + n.length + 1 := Publisher.wire_length _
    have hwire : u64le t.length ++ (t ++ (u64le a.length ++ (a ++
        (u64le n.length ++ (n ++ (sc :: rest)))))) =
        Publisher.wire ⟨t, a, q.pUuid, n, ⟨sc⟩⟩ ++ rest := by
      rw [Publisher.wire_eq]
      simp only [Scope_t.toUInt8, Nat.mod_eq_of_lt hsc]
    refine ⟨rfl, ?_, ?_⟩
    · rw [hwire]
      simp only
      rw [← hw, List.take_left, List.take_left]
    · simp only
      rw [List.length_append, List.length_drop, hw]
      simp only [Publisher.GetMsgLength]
      omega
  · intro hempty
    refine ⟨by omega, ?_⟩
    unfold Publisher.Pack
    have hc : ((⟨t, a, q.pUuid, n, ⟨sc⟩⟩ : Publisher).topic.isEmpty ||
        (⟨t, a, q.pUuid, n, ⟨sc⟩⟩ : Publisher).addr.isEmpty ||
        (⟨t, a, q.pUuid, n, ⟨sc⟩⟩ : Publisher).nUuid.isEmpty) = true := by
      rcases hempty with h | h | h <;> simp [h]
    rw [if_pos hc]

/-- Witness of C26: the packed sample record, followed by eight more bytes, is
unpacked and packed again into 32 fresh bytes. -/
theorem C26_witness :
    ((publisherBlank.Unpack (some (u64le 2 ++ [47, 116] ++ u64le 3 ++ [97, 58, 49] ++
        u64le 2 ++ [110, 49] ++ [2] ++ [7, 7, 7, 7, 7, 7, 7, 7]))).2.Pack
        (List.replicate 32 0)).1 = 32 :=
  have h := (C26_publisher_pack_unpack publisherBlank [47, 116] [97, 58, 49] [110, 49] 2
    [7, 7, 7, 7, 7, 7, 7, 7] (List.replicate 32 0) (by decide) (by decide) (by decide)
    (by decide) (by decide)).1 (by decide) (by decide) (by decide)
  h.1.trans (by decide)

/-! ## Message and service publishers -/

/-- Writing at the offset that is the length of what was written so far. -/
theorem memcpy_at (w rest src : Bytes) (off : Nat) (hw : w.length = off) :
    memcpy (w ++ rest) off src = (w ++ src) ++ rest.drop src.length := by
  subst hw
  exact memcpy_append w rest src

theorem Publisher.GetMsgLength_pos (p : Publisher) : p.GetMsgLength ≠ 0 := by
  unfold Publisher.GetMsgLength
  omega

theorem Publisher.Pack_empty (p : Publisher) (buf : Bytes)
    (h : p.topic = [] ∨ p.addr = [] ∨ p.nUuid = []) : p.Pack buf = (0, buf) := by
  unfold Publisher.Pack
  have hc : (p.topic.isEmpty || p.addr.isEmpty || p.nUuid.isEmpty) = true := by
    rcases h with h | h | h <;> simp [h]
  rw [if_pos hc]

theorem isEmpty_false_of_ne_nil (l : Bytes) (h : l ≠ []) : l.isEmpty = false := by
  cases l with
  | nil => exact absurd rfl h
  | cons _ _ => rfl

namespace MessagePublisher

theorem msg_wire_length (m : MessagePublisher) : m.wire.length = m.GetMsgLength := by
  simp only [wire, List.length_append, u64le_length, Publisher.wire_length, GetMsgLength]

theorem msg_Pack_eq (m : MessagePublisher) (buf : Bytes)
    (ht : m.topic ≠ []) (ha : m.addr ≠ []) (hn : m.nUuid ≠ [])
    (hc : m.ctrl ≠ []) (hy : m.msgTypeName ≠ []) :
    m.Pack buf = (m.GetMsgLength, m.wire ++ buf.drop m.GetMsgLength) := by
  unfold Pack
  rw [isEmpty_false_of_ne_nil _ hc, isEmpty_false_of_ne_nil _ hy]
  simp only [Bool.or_self, Bool.false_eq_true, if_false]
  rw [Publisher.Pack_eq m.toPublisher buf ht ha hn]
  simp only [Publisher.GetMsgLength_pos, if_false]
  congr 1
  have hw := Publisher.wire_length m.toPublisher
  rw [memcpy_at _ _ _ _ hw,
    memcpy_at _ _ _ _ (by rw [List.length_append, hw, u64le_length]),
    memcpy_at _ _ _ _ (by rw [List.length_append, List.length_append, hw, u64le_length]),
    memcpy_at _ _ _ _ (by
      rw [List.length_append, List.length_append, List.length_append, hw, u64le_length,
        u64le_length])]
  simp only [List.drop_drop, u64le_length, wire, GetMsgLength]

theorem msg_Pack_empty (m : MessagePublisher) (buf : Bytes)
    (h : m.topic = [] ∨ m.addr = [] ∨ m.nUuid = [] ∨ m.ctrl = [] ∨ m.msgTypeName = []) :
    m.Pack buf = (0, buf) := by
  unfold Pack
  by_cases hcm : (m.ctrl.isEmpty || m.msgTypeName.isEmpty) = true
  · rw [if_pos hcm]
  · rw [if_neg hcm]
    have hbase : m.topic = [] ∨ m.addr = [] ∨ m.nUuid = [] := by
      rcases h with h | h | h | h | h
      · exact Or.inl h
      · exact Or.inr (Or.inl h)
      · exact Or.inr (Or.inr h)
      · exact absurd (by simp [h]) hcm
      · exact absurd (by simp [h]) hcm
    rw [Publisher.Pack_empty m.toPublisher buf hbase]
    simp only [if_true]

theorem msg_GetMsgLength_pos (m : MessagePublisher) : m.GetMsgLength ≠ 0 := by
  unfold GetMsgLength Publisher.GetMsgLength
  omega

end MessagePublisher

/-- C21: for a message publisher with non-empty topic, addr, nUuid, ctrl and
msgTypeName and a buffer with room for the record, `Pack` writes the publisher
record of the same object first and, right behind it at the offset
8 + |topic| + 8 + |addr| + 8 + |nUuid| + 1, the 64-bit length of ctrl, ctrl,
the 64-bit length of msgTypeName and msgTypeName; it returns the publisher
length + 8 + |ctrl| + 8 + |msgTypeName|, the number of bytes written, and
keeps the rest of the buffer. -/
theorem C21_message_publisher_pack_layout (m : MessagePublisher) (buf : Bytes)
    (ht : m.topic ≠ []) (ha : m.addr ≠ []) (hn : m.nUuid ≠ [])
    (hc : m.ctrl ≠ []) (hy : m.msgTypeName ≠ [])
    (hcap : m.GetMsgLength ≤ buf.length) :
    (m.Pack buf).1 =
      (8 + m.topic.length + 8 + m.addr.length + 8 + m.nUuid.length + 1) +
        8 + m.ctrl.length + 8 + m.msgTypeName.length ∧
    (m.Pack buf).2.take (8 + m.topic.length + 8 + m.addr.length + 8 + m.nUuid.length + 1) =
      (m.toPublisher.Pack buf).2.take
        (8 + m.topic.length + 8 + m.addr.length + 8 + m.nUuid.length + 1) ∧
    ((m.Pack buf).2.drop
        (8 + m.topic.length + 8 + m.addr.length + 8 + m.nUuid.length + 1)).take
        (8 + m.ctrl.length + 8 + m.msgTypeName.length) =
      u64le m.ctrl.length ++ m.ctrl ++ u64le m.msgTypeName.length ++ m.msgTypeName ∧
    (m.Pack buf).2.drop (m.Pack buf).1 = buf.drop (m.Pack buf).1 ∧
    (m.Pack buf).2.length = buf.length := by
  rw [MessagePublisher.msg_Pack_eq m buf ht ha hn hc hy, Publisher.Pack_eq m.toPublisher buf ht ha hn]
  have hw := Publisher.wire_length m.toPublisher
  have hwm := MessagePublisher.msg_wire_length m
  have hP : 8 + m.topic.length + 8 + m.addr.length + 8 + m.nUuid.length + 1 =
      m.toPublisher.wire.length := by rw [hw]; rfl
  have hwire : m.wire = m.toPublisher.wire ++
      (u64le m.ctrl.length ++ m.ctrl ++ u64le m.msgTypeName.length ++ m.msgTypeName) := by
    simp only [MessagePublisher.wire, List.append_assoc]
  have htail : (u64le m.ctrl.length ++ m.ctrl ++ u64le m.msgTypeName.length ++
      m.msgTypeName).length = 8 + m.ctrl.length + 8 + m.msgTypeName.length := by
    simp only [List.length_append, u64le_length]
  refine ⟨rfl, ?_, ?_, ?_, ?_⟩
  · simp only
    rw [hP, hwire, List.append_assoc, List.take_left, List.take_left]
  · simp only
    rw [hP, hwire, List.append_assoc, List.drop_left, ← htail, List.take_left]
  · simp only
    rw [← hwm, List.drop_left]
  · simp only
    rw [List.length_append, List.length_drop, hwm]
    omega

/-- Witness of C21: the sample message publisher packed into 60 bytes. -/
theorem C21_witness :
    messagePublisherSample.GetMsgLength ≤ (List.replicate 60 9).length ∧
    (messagePublisherSample.Pack (List.replicate 60 9)).1 = 52 ∧
    ((messagePublisherSample.Pack (List.replicate 60 9)).2.drop 32).take 20 =
      [3, 0, 0, 0, 0, 0, 0, 0, 99, 58, 50, 1, 0, 0, 0, 0, 0, 0, 0, 77] :=
  have h := C21_message_publisher_pack_layout messagePublisherSample (List.replicate 60 9)
    (by decide) (by decide) (by decide) (by decide) (by decide) (by decide)
  ⟨by decide, h.1, h.2.2.1.trans (by decide)⟩

/-- C23: `MessagePublisher::Pack` returns 0 exactly when one of topic, addr,
nUuid, ctrl and msgTypeName is empty, and whenever it returns 0 the buffer is
as it was (the function assigns to no field of the publisher); so a message
publisher with an empty topic and non-empty ctrl and msgTypeName packs to 0
with the buffer untouched. -/
theorem C23_message_publisher_pack_incomplete (m : MessagePublisher) (buf : Bytes) :
    ((m.Pack buf).1 = 0 ↔
      (m.topic = [] ∨ m.addr = [] ∨ m.nUuid = [] ∨ m.ctrl = [] ∨ m.msgTypeName = [])) ∧
    ((m.Pack buf).1 = 0 → (m.Pack buf).2 = buf) ∧
    (m.topic = [] → m.Pack buf = (0, buf)) := by
  have hiff : (m.Pack buf).1 = 0 ↔
      (m.topic = [] ∨ m.addr = [] ∨ m.nUuid = [] ∨ m.ctrl = [] ∨ m.msgTypeName = []) := by
    constructor
    · intro h0
      by_contra hne
      simp only [not_or] at hne
      obtain ⟨ht, ha, hn, hc, hy⟩ := hne
      rw [MessagePublisher.msg_Pack_eq m buf ht ha hn hc hy] at h0
      exact MessagePublisher.msg_GetMsgLength_pos m h0
    · intro h
      rw [MessagePublisher.msg_Pack_empty m buf h]
  refine ⟨hiff, ?_, ?_⟩
  · intro h0
    rw [MessagePublisher.msg_Pack_empty m buf (hiff.mp h0)]
  · intro ht
    exact MessagePublisher.msg_Pack_empty m buf (Or.inl ht)

namespace MessagePublisher

/-- `Unpack` once the value of `Publisher::Unpack` on the buffer is known. -/
theorem msg_Unpack_of_base (q : MessagePublisher) (buf : Bytes) (len : Nat) (p : Publisher)
    (h : q.toPublisher.Unpack (some buf) = (len, p)) (hlen : len ≠ 0) :
    q.Unpack (some buf) =
      (p.GetMsgLength + 8 + (readString buf (len + 8) (readU64 buf len)).length + 8 +
          (readString buf (len + 8 + readU64 buf len + 8)
            (readU64 buf (len + 8 + readU64 buf len))).length,
        ⟨p, readString buf (len + 8) (readU64 buf len),
          readString buf (len + 8 + readU64 buf len + 8)
            (readU64 buf (len + 8 + readU64 buf len))⟩) := by
  unfold Unpack
  simp only [h, if_neg hlen]
  rfl

/-- Unpacking what `Pack` wrote. -/
theorem msg_Unpack_wire (q m : MessagePublisher) (rest : Bytes)
    (ht : m.topic.length < 2 ^ 64) (ha : m.addr.length < 2 ^ 64)
    (hn : m.nUuid.length < 2 ^ 64) (hs : m.scope.val < 256)
    (hc : m.ctrl.length < 2 ^ 64) (hy : m.msgTypeName.length < 2 ^ 64) :
    q.Unpack (some (m.wire ++ rest)) =
      (m.GetMsgLength, { m with pUuid := q.pUuid }) := by
  have hw := Publisher.wire_length m.toPublisher
  have hbuf : m.wire ++ rest = m.toPublisher.wire ++
      (u64le m.ctrl.length ++ (m.ctrl ++ (u64le m.msgTypeName.length ++
        (m.msgTypeName ++ rest)))) := by
    simp only [wire, List.append_assoc]
  have hbase := Publisher.Unpack_wire q.toPublisher m.toPublisher
    (u64le m.ctrl.length ++ (m.ctrl ++ (u64le m.msgTypeName.length ++
      (m.msgTypeName ++ rest)))) ht ha hn hs
  have h1 : readU64 (m.toPublisher.wire ++ (u64le m.ctrl.length ++ (m.ctrl ++
      (u64le m.msgTypeName.length ++ (m.msgTypeName ++ rest)))))
      m.toPublisher.GetMsgLength = m.ctrl.length := by
    rw [readU64_at _ _ _ _ hw, Nat.mod_eq_of_lt hc]
  have h2 : readString (m.toPublisher.wire ++ (u64le m.ctrl.length ++ (m.ctrl ++
      (u64le m.msgTypeName.length ++ (m.msgTypeName ++ rest)))))
      (m.toPublisher.GetMsgLength + 8) m.ctrl.length = m.ctrl := by
    have := readString_at (m.toPublisher.wire ++ u64le m.ctrl.length) m.ctrl
      (u64le m.msgTypeName.length ++ (m.msgTypeName ++ rest))
      (m.toPublisher.GetMsgLength + 8) m.ctrl.length
      (by rw [List.length_append, hw, u64le_length]) rfl
    simp only [List.append_assoc] at this
    exact this
  have h3 : readU64 (m.toPublisher.wire ++ (u64le m.ctrl.length ++ (m.ctrl ++
      (u64le m.msgTypeName.length ++ (m.msgTypeName ++ rest)))))
      (m.toPublisher.GetMsgLength + 8 + m.ctrl.length) = m.msgTypeName.length := by
    have := readU64_at (m.toPublisher.wire ++ u64le m.ctrl.length ++ m.ctrl)
      (m.msgTypeName ++ rest) m.msgTypeName.length
      (m.toPublisher.GetMsgLength + 8 + m.ctrl.length)
      (by rw [List.length_append, List.length_append, hw, u64le_length])
    simp only [List.append_assoc] at this
    rw [Nat.mod_eq_of_lt hy] at this
    exact this
  have h4 : readString (m.toPublisher.wire ++ (u64le m.ctrl.length ++ (m.ctrl ++
      (u64le m.msgTypeName.length ++ (m.msgTypeName ++ rest)))))
      (m.toPublisher.GetMsgLength + 8 + m.ctrl.length + 8) m.msgTypeName.length =
      m.msgTypeName := by
    have := readString_at
      (m.toPublisher.wire ++ u64le m.ctrl.length ++ m.ctrl ++ u64le m.msgTypeName.length)
      m.msgTypeName rest (m.toPublisher.GetMsgLength + 8 + m.ctrl.length + 8)
      m.msgTypeName.length
      (by rw [List.length_append, List.length_append, List.length_append, hw, u64le_length,
        u64le_length]) rfl
    simp only [List.append_assoc] at this
    exact this
  rw [hbuf]
  generalize m.toPublisher.wire ++ (u64le m.ctrl.length ++ (m.ctrl ++
    (u64le m.msgTypeName.length ++ (m.msgTypeName ++ rest)))) = B at hbase h1 h2 h3 h4
  rw [msg_Unpack_of_base q B _ _ hbase (Publisher.GetMsgLength_pos _), h1, h2, h3, h4]
  rfl

end MessagePublisher

/-- C24: for a message publisher m with non-empty topic, addr, nUuid, ctrl and
msgTypeName (lengths are 64-bit values, the scope fits its byte) and any
message publisher q, unpacking into q what `m.Pack` wrote gives q the topic,
addr, nUuid, scope, ctrl and msgTypeName of m, and `Unpack` returns the length
that `Pack` returned. -/
theorem C24_message_publisher_unpack_pack (m q : MessagePublisher) (buf : Bytes)
    (ht : m.topic ≠ []) (ha : m.addr ≠ []) (hn : m.nUuid ≠ [])
    (hc : m.ctrl ≠ []) (hy : m.msgTypeName ≠ [])
    (hlt : m.topic.length < 2 ^ 64) (hla : m.addr.length < 2 ^ 64)
    (hln : m.nUuid.length < 2 ^ 64) (hs : m.scope.val < 256)
    (hlc : m.ctrl.length < 2 ^ 64) (hly : m.msgTypeName.length < 2 ^ 64)
    (hcap : m.GetMsgLength ≤ buf.length) :
    (q.Unpack (some (m.Pack buf).2)).2.topic = m.topic ∧
    (q.Unpack (some (m.Pack buf).2)).2.addr = m.addr ∧
    (q.Unpack (some (m.Pack buf).2)).2.nUuid = m.nUuid ∧
    (q.Unpack (some (m.Pack buf).2)).2.scope = m.scope ∧
    (q.Unpack (some (m.Pack buf).2)).2.ctrl = m.ctrl ∧
    (q.Unpack (some (m.Pack buf).2)).2.msgTypeName = m.msgTypeName ∧
    (q.Unpack (some (m.Pack buf).2)).1 = (m.Pack buf).1 ∧
    (m.Pack buf).2.length = buf.length := by
  rw [MessagePublisher.msg_Pack_eq m buf ht ha hn hc hy]
  simp only
  rw [MessagePublisher.msg_Unpack_wire q m _ hlt hla hln hs hlc hly]
  refine ⟨rfl, rfl, rfl, rfl, rfl, rfl, rfl, ?_⟩
  rw [List.length_append, List.length_drop, MessagePublisher.msg_wire_length]
  omega

/-- Witness of C24: the sample message publisher packed into 60 bytes and
unpacked into a blank one. -/
theorem C24_witness :
    messagePublisherSample.GetMsgLength ≤ (List.replicate 60 9).length ∧
    ((⟨publisherBlank, [], []⟩ : MessagePublisher).Unpack
      (some (messagePublisherSample.Pack (List.replicate 60 9)).2)).2.ctrl = [99, 58, 50] ∧
    ((⟨publisherBlank, [], []⟩ : MessagePublisher).Unpack
      (some (messagePublisherSample.Pack (List.replicate 60 9)).2)).1 = 52 :=
  have h := C24_message_publisher_unpack_pack messagePublisherSample
    ⟨publisherBlank, [], []⟩ (List.replicate 60 9)
    (by decide) (by decide) (by decide) (by decide) (by decide) (by decide) (by decide)
    (by decide) (by decide) (by decide) (by decide) (by decide)
  ⟨by decide, h.2.2.2.2.1, h.2.2.2.2.2.2.1.trans (by decide)⟩

namespace ServicePublisher

/-- `Unpack` once the value of `Publisher::Unpack` on the buffer is known. -/
theorem srv_Unpack_of_base (q : ServicePublisher) (buf : Bytes) (len : Nat) (p : Publisher)
    (h : q.toPublisher.Unpack (some buf) = (len, p)) (hlen : len ≠ 0) :
    q.Unpack (some buf) =
      ((⟨p, readString buf (len + 8) (readU64 buf len),
          readString buf (len + 8 + readU64 buf len + 8)
            (readU64 buf (len + 8 + readU64 buf len)),
          readString buf (len + 8 + readU64 buf len + 8 +
              readU64 buf (len + 8 + readU64 buf len) + 8)
            (readU64 buf (len + 8 + readU64 buf len + 8 +
              readU64 buf (len + 8 + readU64 buf len)))⟩ : ServicePublisher).GetMsgLength,
        ⟨p, readString buf (len + 8) (readU64 buf len),
          readString buf (len + 8 + readU64 buf len + 8)
            (readU64 buf (len + 8 + readU64 buf len)),
          readString buf (len + 8 + readU64 buf len + 8 +
              readU64 buf (len + 8 + readU64 buf len) + 8)
            (readU64 buf (len + 8 + readU64 buf len + 8 +
              readU64 buf (len + 8 + readU64 buf len)))⟩) := by
  unfold Unpack
  simp only [h, if_neg hlen]

theorem srv_wire_length (s : ServicePublisher) : s.wire.length = s.GetMsgLength := by
  simp only [wire, List.length_append, u64le_length, Publisher.wire_length, GetMsgLength,
    Publisher.GetMsgLength]
  omega

theorem srv_Pack_eq (s : ServicePublisher) (buf : Bytes)
    (ht : s.topic ≠ []) (ha : s.addr ≠ []) (hn : s.nUuid ≠ [])
    (hk : s.socketId ≠ []) (hq : s.reqTypeName ≠ []) (hp : s.repTypeName ≠ []) :
    s.Pack buf = (s.GetMsgLength, s.wire ++ buf.drop s.GetMsgLength) := by
  unfold Pack
  rw [isEmpty_false_of_ne_nil _ hk, isEmpty_false_of_ne_nil _ hq,
    isEmpty_false_of_ne_nil _ hp]
  simp only [Bool.or_self, Bool.false_eq_true, if_false]
  rw [Publisher.Pack_eq s.toPublisher buf ht ha hn]
  simp only [Publisher.GetMsgLength_pos, if_false]
  congr 1
  have hw := Publisher.wire_length s.toPublisher
  rw [memcpy_at _ _ _ _ hw,
    memcpy_at _ _ _ _ (by rw [List.length_append, hw, u64le_length]),
    memcpy_at _ _ _ _ (by rw [List.length_append, List.length_append, hw, u64le_length]),
    memcpy_at _ _ _ _ (by
      rw [List.length_append, List.length_append, List.length_append, hw, u64le_length,
        u64le_length]),
    memcpy_at _ _ _ _ (by
      rw [List.length_append, List.length_append, List.length_append, List.length_append,
        hw, u64le_length, u64le_length]),
    memcpy_at _ _ _ _ (by
      rw [List.length_append, List.length_append, List.length_append, List.length_append,
        List.length_append, hw, u64le_length, u64le_length, u64le_length])]
  simp only [List.drop_drop, u64le_length, wire]
  congr 2
  simp only [GetMsgLength, Publisher.GetMsgLength]
  omega

/-- Unpacking what `Pack` wrote. -/
theorem srv_Unpack_wire (q s : ServicePublisher) (rest : Bytes)
    (ht : s.topic.length < 2 ^ 64) (ha : s.addr.length < 2 ^ 64)
    (hn : s.nUuid.length < 2 ^ 64) (hs : s.scope.val < 256)
    (hk : s.socketId.length < 2 ^ 64) (hq : s.reqTypeName.length < 2 ^ 64)
    (hp : s.repTypeName.length < 2 ^ 64) :
    q.Unpack (some (s.wire ++ rest)) =
      (s.GetMsgLength, { s with pUuid := q.pUuid }) := by
  have hw := Publisher.wire_length s.toPublisher
  have hbuf : s.wire ++ rest = s.toPublisher.wire ++
      (u64le s.socketId.length ++ (s.socketId ++ (u64le s.reqTypeName.length ++
        (s.reqTypeName ++ (u64le s.repTypeName.length ++ (s.repTypeName ++ rest)))))) := by
    simp only [wire, List.append_assoc]
  have hbase := Publisher.Unpack_wire q.toPublisher s.toPublisher
    (u64le s.socketId.length ++ (s.socketId ++ (u64le s.reqTypeName.length ++
        (s.reqTypeName ++ (u64le s.repTypeName.length ++ (s.repTypeName ++ rest))))))
    ht ha hn hs
  have h1 : readU64 (s.toPublisher.wire ++
      (u64le s.socketId.length ++ (s.socketId ++ (u64le s.reqTypeName.length ++
        (s.reqTypeName ++ (u64le s.repTypeName.length ++ (s.repTypeName ++ rest)))))))
      s.toPublisher.GetMsgLength = s.socketId.length := by
    rw [readU64_at _ _ _ _ hw, Nat.mod_eq_of_lt hk]
  have h2 : readString (s.toPublisher.wire ++
      (u64le s.socketId.length ++ (s.socketId ++ (u64le s.reqTypeName.length ++
        (s.reqTypeName ++ (u64le s.repTypeName.length ++ (s.repTypeName ++ rest)))))))
      (s.toPublisher.GetMsgLength + 8) s.socketId.length = s.socketId := by
    have := readString_at (s.toPublisher.wire ++ u64le s.socketId.length) s.socketId
      (u64le s.reqTypeName.length ++
        (s.reqTypeName ++ (u64le s.repTypeName.length ++ (s.repTypeName ++ rest))))
      (s.toPublisher.GetMsgLength + 8) s.socketId.length
      (by rw [List.length_append, hw, u64le_length]) rfl
    simp only [List.append_assoc] at this
    exact this
  have h3 : readU64 (s.toPublisher.wire ++
      (u64le s.socketId.length ++ (s.socketId ++ (u64le s.reqTypeName.length ++
        (s.reqTypeName ++ (u64le s.repTypeName.length ++ (s.repTypeName ++ rest)))))))
      (s.toPublisher.GetMsgLength + 8 + s.socketId.length) = s.reqTypeName.length := by
    have := readU64_at (s.toPublisher.wire ++ u64le s.socketId.length ++ s.socketId)
      (s.reqTypeName ++ (u64le s.repTypeName.length ++ (s.repTypeName ++ rest)))
      s.reqTypeName.length (s.toPublisher.GetMsgLength + 8 + s.socketId.length)
      (by rw [List.length_append, List.length_append, hw, u64le_length])
    simp only [List.append_assoc] at this
    rw [Nat.mod_eq_of_lt hq] at this
    exact this
  have h4 : readString (s.toPublisher.wire ++
      (u64le s.socketId.length ++ (s.socketId ++ (u64le s.reqTypeName.length ++
        (s.reqTypeName ++ (u64le s.repTypeName.length ++ (s.repTypeName ++ rest)))))))
      (s.toPublisher.GetMsgLength + 8 + s.socketId.length + 8) s.reqTypeName.length =
      s.reqTypeName := by
    have := readString_at
      (s.toPublisher.wire ++ u64le s.socketId.length ++ s.socketId ++
        u64le s.reqTypeName.length)
      s.reqTypeName (u64le s.repTypeName.length ++ (s.repTypeName ++ rest))
      (s.toPublisher.GetMsgLength + 8 + s.socketId.length + 8) s.reqTypeName.length
      (by rw [List.length_append, List.length_append, List.length_append, hw, u64le_length,
        u64le_length]) rfl
    simp only [List.append_assoc] at this
    exact this
  have h5 : readU64 (s.toPublisher.wire ++
      (u64le s.socketId.length ++ (s.socketId ++ (u64le s.reqTypeName.length ++
        (s.reqTypeName ++ (u64le s.repTypeName.length ++ (s.repTypeName ++ rest)))))))
      (s.toPublisher.GetMsgLength + 8 + s.socketId.length + 8 + s.reqTypeName.length) =
      s.repTypeName.length := by
    have := readU64_at
      (s.toPublisher.wire ++ u64le s.socketId.length ++ s.socketId ++
        u64le s.reqTypeName.length ++ s.reqTypeName)
      (s.repTypeName ++ rest) s.repTypeName.length
      (s.toPublisher.GetMsgLength + 8 + s.socketId.length + 8 + s.reqTypeName.length)
      (by rw [List.length_append, List.length_append, List.length_append,
        List.length_append, hw, u64le_length, u64le_length])
    simp only [List.append_assoc] at this
    rw [Nat.mod_eq_of_lt hp] at this
    exact this
  have h6 : readString (s.toPublisher.wire ++
      (u64le s.socketId.length ++ (s.socketId ++ (u64le s.reqTypeName.length ++
        (s.reqTypeName ++ (u64le s.repTypeName.length ++ (s.repTypeName ++ rest)))))))
      (s.toPublisher.GetMsgLength + 8 + s.socketId.length + 8 + s.reqTypeName.length + 8)
      s.repTypeName.length = s.repTypeName := by
    have := readString_at
      (s.toPublisher.wire ++ u64le s.socketId.length ++ s.socketId ++
        u64le s.reqTypeName.length ++ s.reqTypeName ++ u64le s.repTypeName.length)
      s.repTypeName rest
      (s.toPublisher.GetMsgLength + 8 + s.socketId.length + 8 + s.reqTypeName.length + 8)
      s.repTypeName.length
      (by rw [List.length_append, List.length_append, List.length_append,
        List.length_append, List.length_append, hw, u64le_length, u64le_length,
        u64le_length]) rfl
    simp only [List.append_assoc] at this
    exact this
  rw [hbuf]
  generalize s.toPublisher.wire ++
      (u64le s.socketId.length ++ (s.socketId ++ (u64le s.reqTypeName.length ++
        (s.reqTypeName ++ (u64le s.repTypeName.length ++ (s.repTypeName ++ rest)))))) = B
    at hbase h1 h2 h3 h4 h5 h6
  rw [srv_Unpack_of_base q B _ _ hbase (Publisher.GetMsgLength_pos _), h1, h2, h3, h4, h5, h6]
  rfl

end ServicePublisher

/-- C25: for a service publisher s with non-empty topic, addr, nUuid,
socketId, reqTypeName and repTypeName (lengths are 64-bit values, the scope
fits its byte) and any service publisher q, unpacking into q what `s.Pack`
wrote gives q the topic, addr, nUuid, scope, socketId, reqTypeName and
repTypeName of s, and `Pack` and `Unpack` both return
8*6 + 1 + |topic| + |addr| + |nUuid| + |socketId| + |reqTypeName| +
|repTypeName|, the number of bytes of the record that was written. -/
theorem C25_service_publisher_unpack_pack (s q : ServicePublisher) (buf : Bytes)
    (ht : s.topic ≠ []) (ha : s.addr ≠ []) (hn : s.nUuid ≠ [])
    (hk : s.socketId ≠ []) (hq : s.reqTypeName ≠ []) (hp : s.repTypeName ≠ [])
    (hlt : s.topic.length < 2 ^ 64) (hla : s.addr.length < 2 ^ 64)
    (hln : s.nUuid.length < 2 ^ 64) (hs : s.scope.val < 256)
    (hlk : s.socketId.length < 2 ^ 64) (hlq : s.reqTypeName.length < 2 ^ 64)
    (hlp : s.repTypeName.length < 2 ^ 64)
    (hcap : s.GetMsgLength ≤ buf.length) :
    (q.Unpack (some (s.Pack buf).2)).2.topic = s.topic ∧
    (q.Unpack (some (s.Pack buf).2)).2.addr = s.addr ∧
    (q.Unpack (some (s.Pack buf).2)).2.nUuid = s.nUuid ∧
    (q.Unpack (some (s.Pack buf).2)).2.scope = s.scope ∧
    (q.Unpack (some (s.Pack buf).2)).2.socketId = s.socketId ∧
    (q.Unpack (some (s.Pack buf).2)).2.reqTypeName = s.reqTypeName ∧
    (q.Unpack (some (s.Pack buf).2)).2.repTypeName = s.repTypeName ∧
    (s.Pack buf).1 = 8 * 6 + 1 + s.topic.length + s.addr.length + s.nUuid.length +
      s.socketId.length + s.reqTypeName.length + s.repTypeName.length ∧
    (q.Unpack (some (s.Pack buf).2)).1 = 8 * 6 + 1 + s.topic.length + s.addr.length +
      s.nUuid.length + s.socketId.length + s.reqTypeName.length + s.repTypeName.length ∧
    (s.Pack buf).2.take (s.Pack buf).1 =
      s.toPublisher.wire ++ u64le s.socketId.length ++ s.socketId ++
        u64le s.reqTypeName.length ++ s.reqTypeName ++
        u64le s.repTypeName.length ++ s.repTypeName ∧
    (s.Pack buf).2.length = buf.length := by
  rw [ServicePublisher.srv_Pack_eq s buf ht ha hn hk hq hp]
  simp only
  rw [ServicePublisher.srv_Unpack_wire q s _ hlt hla hln hs hlk hlq hlp]
  have hlen : s.GetMsgLength = 8 * 6 + 1 + s.topic.length + s.addr.length + s.nUuid.length +
      s.socketId.length + s.reqTypeName.length + s.repTypeName.length := by
    unfold ServicePublisher.GetMsgLength
    omega
  refine ⟨rfl, rfl, rfl, rfl, rfl, rfl, rfl, hlen, hlen, ?_, ?_⟩
  · rw [← ServicePublisher.srv_wire_length, List.take_left]
    rfl
  · rw [List.length_append, List.length_drop, ServicePublisher.srv_wire_length]
    omega

/-- Witness of C25: the sample service publisher packed into 70 bytes and
unpacked into a blank one. -/
theorem C25_witness :
    servicePublisherSample.GetMsgLength ≤ (List.replicate 70 9).length ∧
    (servicePublisherSample.Pack (List.replicate 70 9)).1 = 59 ∧
    ((⟨publisherBlank, [], [], []⟩ : ServicePublisher).Unpack
      (some (servicePublisherSample.Pack (List.replicate 70 9)).2)).2.repTypeName = [82] :=
  have h := C25_service_publisher_unpack_pack servicePublisherSample
    ⟨publisherBlank, [], [], []⟩ (List.replicate 70 9)
    (by decide) (by decide) (by decide) (by decide) (by decide) (by decide) (by decide)
    (by decide) (by decide) (by decide) (by decide) (by decide) (by decide) (by decide)
  ⟨by decide, h.2.2.2.2.2.2.2.1.trans (by decide), h.2.2.2.2.2.2.1⟩

/-! ## Reachable states and the activity sweep -/

namespace DiscoveryPrivate

/-- An event keeps the activity table free of the engine's own pUuid. -/
theorem step_noOwnEntry (s : DiscoveryPrivate) (e : Event) (h : s.NoOwnEntry) :
    (s.step e).NoOwnEntry := by
  cases e with
  | advertise advType topic addr ctrl nUuid scope =>
    obtain ⟨b, hb⟩ := Advertise_eq s advType topic addr ctrl nUuid scope
    have hst : s.step (Event.advertise advType topic addr ctrl nUuid scope) =
        (s.Advertise advType topic addr ctrl nUuid scope).st := rfl
    rw [hst, hb]
    exact h
  | unadvertise unadvType topic nUuid =>
    have hst : s.step (Event.unadvertise unadvType topic nUuid) =
        (s.Unadvertise unadvType topic nUuid).st := rfl
    rcases Unadvertise_eq s unadvType topic nUuid with h1 | ⟨b, sent, h1⟩
    · rw [hst, h1]
      exact h
    · rw [hst, h1]
      exact h
  | discover topic isSrvCall =>
    have hst : s.step (Event.discover topic isSrvCall) = s := Discover_st s topic isSrvCall
    rw [hst]
    exact h
  | receive now fromIp d =>
    have hst : s.step (Event.receive now fromIp d) =
        (s.DispatchDiscoveryMsg now fromIp d).st := rfl
    have hins : ∀ e ∈ s.activity.insert d.pUuid now, d.pUuid ≠ s.pUuid → e.1 ≠ s.pUuid := by
      intro e he hd
      rcases SMap.mem_insert _ _ _ _ he with h1 | h1
      · rw [h1]
        exact hd
      · exact h e h1
    rcases dispatch_shape s now fromIp d with ⟨_, h1⟩ | ⟨hs, _, sent, h1⟩ | ⟨hs, ht, hp, h1⟩ |
      ⟨hs, ht, h1⟩ | ⟨hs, ht, hp, h1⟩
    · rw [hst, h1]
      exact h
    · rw [hst, h1]
      exact fun e he => hins e he hs
    · rw [hst, h1]
      exact fun e he => hins e he hs
    · rw [hst, h1]
      exact fun e he => hins e (SMap.mem_erase _ _ _ he) hs
    · rw [hst, h1]
      exact fun e he => hins e he hs

/-- A sweep loop that comes to its end keeps the pUuid and adds no activity
entry. -/
theorem sweepLoop_finished_sub (elapsedMs : Timestamp → Timestamp → Int) (now : Timestamp)
    (fuel : Nat) (rest : List (String × Timestamp)) (s : DiscoveryPrivate)
    (calls : List CbCall) (st : DiscoveryPrivate) (out : List CbCall)
    (h : sweepLoop elapsedMs now fuel rest s calls = Sweep.finished st out) :
    st.pUuid = s.pUuid ∧ ∀ e ∈ st.activity, e ∈ s.activity := by
  induction fuel generalizing rest s calls with
  | zero =>
    simp only [sweepLoop] at h
    exact absurd h (by simp)
  | succ fuel ih =>
    cases rest with
    | nil =>
      simp only [sweepLoop] at h
      obtain ⟨h1, _⟩ := Sweep.finished.inj h
      rw [← h1]
      exact ⟨rfl, fun e he => he⟩
    | cons e rest =>
      obtain ⟨p, t⟩ := e
      by_cases hp : p = s.pUuid
      · have step : sweepLoop elapsedMs now (fuel + 1) ((p, t) :: rest) s calls =
            sweepLoop elapsedMs now fuel ((p, t) :: rest) s calls := by
          simp only [sweepLoop, hp, if_true]
        rw [step] at h
        exact ih _ _ _ h
      · by_cases hexp : elapsedMs now t > (s.silenceInterval : Int)
        · by_cases hcb : s.disconnectionCb = true
          · have step : sweepLoop elapsedMs now (fuel + 1) ((p, t) :: rest) s calls =
                sweepLoop elapsedMs now fuel rest
                  { s with info := TopicStorage.DelAddressesByProc s.info p,
                           activity := s.activity.erase p }
                  (calls ++ [goneCall p]) := by
              simp only [sweepLoop, hp, if_false, hexp, if_true, hcb, goneCall]
            rw [step] at h
            obtain ⟨h1, h2⟩ := ih rest
              { s with info := TopicStorage.DelAddressesByProc s.info p,
                       activity := s.activity.erase p }
              (calls ++ [goneCall p]) h
            exact ⟨h1, fun e he => SMap.mem_erase _ _ _ (h2 e he)⟩
          · have hcb2 : s.disconnectionCb = false := (Bool.not_eq_true _).mp hcb
            have step : sweepLoop elapsedMs now (fuel + 1) ((p, t) :: rest) s calls =
                Sweep.threw { s with info := TopicStorage.DelAddressesByProc s.info p }
                  calls := by
              simp only [sweepLoop, hp, if_false, hexp, if_true, hcb2, Bool.false_eq_true]
            rw [step] at h
            exact absurd h (by simp)
        · have step : sweepLoop elapsedMs now (fuel + 1) ((p, t) :: rest) s calls =
              sweepLoop elapsedMs now fuel rest s calls := by
            simp only [sweepLoop, hp, if_false, hexp]
          rw [step] at h
          exact ih _ _ _ h

/-- Without an own entry among those still to visit, the sweep loop needs one
iteration per entry: with the callback set it comes to its end, and without it
it comes to its end when no entry is expired and throws at the first expired
entry otherwise, leaving the entries after it unvisited. -/
theorem sweepLoop_noCallback (elapsedMs : Timestamp → Timestamp → Int) (now : Timestamp)
    (fuel : Nat) (rest : List (String × Timestamp)) (s : DiscoveryPrivate)
    (calls : List CbCall)
    (hfuel : rest.length < fuel)
    (hcb : s.disconnectionCb = false)
    (hself : ∀ e ∈ rest, e.1 ≠ s.pUuid) :
    sweepLoop elapsedMs now fuel rest s calls =
      match s.expiredKeys elapsedMs now rest with
      | [] => Sweep.finished s calls
      | p :: _ => Sweep.threw { s with info := TopicStorage.DelAddressesByProc s.info p }
          calls := by
  induction rest generalizing fuel with
  | nil =>
    cases fuel with
    | zero => exact absurd hfuel (Nat.lt_irrefl _)
    | succ fuel => simp [sweepLoop, expiredKeys]
  | cons e rest ih =>
    obtain ⟨p, t⟩ := e
    cases fuel with
    | zero => exact absurd hfuel (Nat.not_lt_zero _)
    | succ fuel =>
      have hp : p ≠ s.pUuid := hself (p, t) (List.mem_cons_self _ _)
      have hrest : ∀ e ∈ rest, e.1 ≠ s.pUuid :=
        fun e he => hself e (List.mem_cons_of_mem _ he)
      have hlen : rest.length < fuel := by
        simp only [List.length_cons] at hfuel; omega
      rw [expiredKeys_cons]
      by_cases hexp : elapsedMs now t > (s.silenceInterval : Int)
      · rw [if_pos hexp]
        simp only [sweepLoop, hp, if_false, hexp, if_true, hcb, Bool.false_eq_true]
      · have step : sweepLoop elapsedMs now (fuel + 1) ((p, t) :: rest) s calls =
            sweepLoop elapsedMs now fuel rest s calls := by
          simp only [sweepLoop, hp, if_false, hexp]
        rw [step, if_neg hexp]
        exact ih fuel hlen hrest

/-- An action keeps the activity table free of the engine's own pUuid. -/
theorem perform_noOwnEntry (s s1 : DiscoveryPrivate) (a : Action) (h : s.NoOwnEntry)
    (ha : s.perform a = some s1) : s1.NoOwnEntry := by
  cases a with
  | event e =>
    have : s.step e = s1 := Option.some.inj ha
    rw [← this]
    exact step_noOwnEntry s e h
  | configure silence activity advertise heartbit connection disconnection connectionSrv
      disconnectionSrv =>
    have : s.configure silence activity advertise heartbit connection disconnection
      connectionSrv disconnectionSrv = s1 := Option.some.inj ha
    rw [← this]
    exact h
  | sweep elapsedMs now fuel =>
    have hp : s.perform (Action.sweep elapsedMs now fuel) =
        match s.RunActivityTask elapsedMs now fuel with
        | Sweep.finished st _ => some st
        | Sweep.threw _ _ => none
        | Sweep.spinning => none := rfl
    rw [hp] at ha
    cases hr : s.RunActivityTask elapsedMs now fuel with
    | finished st out =>
      rw [hr] at ha
      have hst : st = s1 := Option.some.inj ha
      rw [← hst]
      obtain ⟨h1, h2⟩ := sweepLoop_finished_sub elapsedMs now fuel s.activity s [] st out hr
      intro e he
      rw [h1]
      exact h e (h2 e he)
    | threw st out =>
      rw [hr] at ha
      exact absurd ha (by simp)
    | spinning =>
      rw [hr] at ha
      exact absurd ha (by simp)

theorem performAll_noOwnEntry (s s1 : DiscoveryPrivate) (as : List Action)
    (h : s.NoOwnEntry) (ha : s.performAll as = some s1) : s1.NoOwnEntry := by
  induction as generalizing s with
  | nil =>
    have : s = s1 := Option.some.inj ha
    rw [← this]
    exact h
  | cons a as ih =>
    have hp : s.performAll (a :: as) =
        match s.perform a with
        | none => none
        | some s2 => performAll s2 as := rfl
    rw [hp] at ha
    cases hr : s.perform a with
    | none =>
      rw [hr] at ha
      exact absurd ha (by simp)
    | some s2 =>
      rw [hr] at ha
      exact ih s2 (perform_noOwnEntry s s2 a h hr) ha

theorem new_noOwnEntry (pUuid hostAddr : String) : (new pUuid hostAddr).NoOwnEntry := by
  intro e he
  exact absurd he (List.not_mem_nil _)

end DiscoveryPrivate

/-- C27 (fails on the code at the unguarded callback): in every state s that
the freshly constructed engine reaches by calls of the interface, received
datagrams, changes of callbacks and tunables and sweep passes, no activity
entry is keyed by the own pUuid, so a sweep pass with one iteration per entry
(and one to leave the loop) never takes the skip-self branch and is never left
spinning.  With the disconnection callback set the pass visits every entry
once and comes to its end; without it the pass comes to its end only when no
entry is expired, and otherwise throws at the first expired entry.  So it does
after the fresh engine B heard of A at time 5 and of C at time 3000: the pass
at time 3006 throws at the entry of A and the entry of C is not visited. -/
theorem C27_no_own_activity_entry :
    (∀ (pUuid hostAddr : String) (acts : List Action) (s : DiscoveryPrivate),
      (DiscoveryPrivate.new pUuid hostAddr).performAll acts = some s →
        s.activity.find s.pUuid = none ∧
        (∀ t, (s.pUuid, t) ∉ s.activity) ∧
        ∀ (elapsedMs : Timestamp → Timestamp → Int) (now : Timestamp) (fuel : Nat),
          s.activity.length < fuel →
            s.RunActivityTask elapsedMs now fuel ≠ Sweep.spinning ∧
            (s.disconnectionCb = true →
              s.RunActivityTask elapsedMs now fuel =
                Sweep.finished (s.dropProcs (s.expiredKeys elapsedMs now s.activity))
                  ((s.expiredKeys elapsedMs now s.activity).map goneCall)) ∧
            (s.disconnectionCb = false →
              s.RunActivityTask elapsedMs now fuel =
                match s.expiredKeys elapsedMs now s.activity with
                | [] => Sweep.finished s []
                | p :: _ =>
                  Sweep.threw { s with info := TopicStorage.DelAddressesByProc s.info p }
                    [])) ∧
    (∃ s, (DiscoveryPrivate.new "B" "10.0.0.2").performAll sweepAfterTwoPeers = some s ∧
      s.disconnectionCb = false ∧
      s.activity = [("A", 5), ("C", 3000)] ∧
      s.RunActivityTask tickMs 3006 3 = Sweep.threw { s with info := [] } [] ∧
      s.perform (Action.sweep tickMs 3006 3) = none) := by
  refine ⟨?_, ?_⟩
  · intro pUuid hostAddr acts s hs
    have hno : s.NoOwnEntry :=
      performAll_noOwnEntry _ s acts (new_noOwnEntry pUuid hostAddr) hs
    have hmem : ∀ t, (s.pUuid, t) ∉ s.activity := fun t ht => hno (s.pUuid, t) ht rfl
    refine ⟨?_, hmem, ?_⟩
    · cases hf : s.activity.find s.pUuid with
      | none => rfl
      | some t => exact absurd (SMap.mem_of_find _ _ _ hf) (hmem t)
    · intro elapsedMs now fuel hfuel
      have hT : s.disconnectionCb = true →
          s.RunActivityTask elapsedMs now fuel =
            Sweep.finished (s.dropProcs (s.expiredKeys elapsedMs now s.activity))
              ((s.expiredKeys elapsedMs now s.activity).map goneCall) := by
        intro hcb
        have := sweepLoop_finished elapsedMs now fuel s.activity s [] hfuel hcb hno
        rw [List.nil_append] at this
        exact this
      have hF : s.disconnectionCb = false →
          s.RunActivityTask elapsedMs now fuel =
            match s.expiredKeys elapsedMs now s.activity with
            | [] => Sweep.finished s []
            | p :: _ =>
              Sweep.threw { s with info := TopicStorage.DelAddressesByProc s.info p } [] :=
        fun hcb => sweepLoop_noCallback elapsedMs now fuel s.activity s [] hfuel hcb hno
      refine ⟨?_, hT, hF⟩
      cases hcb : s.disconnectionCb with
      | true =>
        rw [hT hcb]
        simp
      | false =>
        rw [hF hcb]
        cases s.expiredKeys elapsedMs now s.activity with
        | nil => simp
        | cons p ps => simp
  · exact ⟨_, rfl, by decide, by decide, by decide, by decide⟩

/-! ## Connections between removals, sweep passes included -/

namespace DiscoveryPrivate

/-- A sweep loop that comes to its end keeps the host address and the calls
made so far, and reports every process of which it removed a record. -/
theorem sweepLoop_finished_info (elapsedMs : Timestamp → Timestamp → Int) (now : Timestamp)
    (fuel : Nat) (rest : List (String × Timestamp)) (s : DiscoveryPrivate)
    (calls : List CbCall) (st : DiscoveryPrivate) (out : List CbCall)
    (h : sweepLoop elapsedMs now fuel rest s calls = Sweep.finished st out) :
    st.hostAddr = s.hostAddr ∧ (∀ c ∈ calls, c ∈ out) ∧
    ∀ t p n a, GetAddress s.info t p n = some a → GetAddress st.info t p n = none →
      goneCall p ∈ out := by
  induction fuel generalizing rest s calls with
  | zero =>
    simp only [sweepLoop] at h
    exact absurd h (by simp)
  | succ fuel ih =>
    cases rest with
    | nil =>
      simp only [sweepLoop] at h
      obtain ⟨h1, h2⟩ := Sweep.finished.inj h
      rw [← h1, ← h2]
      refine ⟨rfl, fun c hc => hc, ?_⟩
      intro t p n a ha hnone
      rw [ha] at hnone
      exact absurd hnone (by simp)
    | cons e rest =>
      obtain ⟨q, tq⟩ := e
      by_cases hq : q = s.pUuid
      · have step : sweepLoop elapsedMs now (fuel + 1) ((q, tq) :: rest) s calls =
            sweepLoop elapsedMs now fuel ((q, tq) :: rest) s calls := by
          simp only [sweepLoop, hq, if_true]
        rw [step] at h
        exact ih _ _ _ h
      · by_cases hexp : elapsedMs now tq > (s.silenceInterval : Int)
        · by_cases hcb : s.disconnectionCb = true
          · have step : sweepLoop elapsedMs now (fuel + 1) ((q, tq) :: rest) s calls =
                sweepLoop elapsedMs now fuel rest
                  { s with info := TopicStorage.DelAddressesByProc s.info q,
                           activity := s.activity.erase q }
                  (calls ++ [goneCall q]) := by
              simp only [sweepLoop, hq, if_false, hexp, if_true, hcb, goneCall]
            rw [step] at h
            obtain ⟨h1, h2, h3⟩ := ih rest
              { s with info := TopicStorage.DelAddressesByProc s.info q,
                       activity := s.activity.erase q }
              (calls ++ [goneCall q]) h
            refine ⟨h1, fun c hc => h2 c (List.mem_append_left _ hc), ?_⟩
            intro t p n a ha hnone
            by_cases hp : p = q
            · rw [hp]
              exact h2 _ (List.mem_append_right _ (List.mem_singleton_self _))
            · exact h3 t p n a
                (GetAddress_DelAddressesByProc_keep s.info q t p n a hp ha) hnone
          · have hcb2 : s.disconnectionCb = false := (Bool.not_eq_true _).mp hcb
            have step : sweepLoop elapsedMs now (fuel + 1) ((q, tq) :: rest) s calls =
                Sweep.threw { s with info := TopicStorage.DelAddressesByProc s.info q }
                  calls := by
              simp only [sweepLoop, hq, if_false, hexp, if_true, hcb2, Bool.false_eq_true]
            rw [step] at h
            exact absurd h (by simp)
        · have step : sweepLoop elapsedMs now (fuel + 1) ((q, tq) :: rest) s calls =
              sweepLoop elapsedMs now fuel rest s calls := by
            simp only [sweepLoop, hq, if_false, hexp]
          rw [step] at h
          exact ih _ _ _ h

/-- An action keeps the pUuid and the host address of the engine. -/
theorem perform_fields (s s1 : DiscoveryPrivate) (a : Action)
    (ha : s.perform a = some s1) : s1.pUuid = s.pUuid ∧ s1.hostAddr = s.hostAddr := by
  cases a with
  | event e =>
    have : s.step e = s1 := Option.some.inj ha
    rw [← this]
    exact ⟨(step_shape s e).1, (step_shape s e).2.1⟩
  | configure silence activity advertise heartbit connection disconnection connectionSrv
      disconnectionSrv =>
    have : s.configure silence activity advertise heartbit connection disconnection
      connectionSrv disconnectionSrv = s1 := Option.some.inj ha
    rw [← this]
    exact ⟨rfl, rfl⟩
  | sweep elapsedMs now fuel =>
    have hp : s.perform (Action.sweep elapsedMs now fuel) =
        match s.RunActivityTask elapsedMs now fuel with
        | Sweep.finished st _ => some st
        | Sweep.threw _ _ => none
        | Sweep.spinning => none := rfl
    rw [hp] at ha
    cases hr : s.RunActivityTask elapsedMs now fuel with
    | finished st out =>
      rw [hr] at ha
      have hst : st = s1 := Option.some.inj ha
      rw [← hst]
      exact ⟨(sweepLoop_finished_sub elapsedMs now fuel s.activity s [] st out hr).1,
        (sweepLoop_finished_info elapsedMs now fuel s.activity s [] st out hr).1⟩
    | threw st out =>
      rw [hr] at ha
      exact absurd ha (by simp)
    | spinning =>
      rw [hr] at ha
      exact absurd ha (by simp)

/-- An action after which a record of another process is gone is a datagram
that removes it or a sweep pass that reports the process gone. -/
theorem perform_removes (s s1 : DiscoveryPrivate) (a : Action) (t p n : String)
    (hne : p ≠ s.pUuid)
    (hbefore : GetAddress s.info t p n ≠ none)
    (ha : s.perform a = some s1)
    (hafter : GetAddress s1.info t p n = none) :
    removesRecordAt s t p n a := by
  cases a with
  | event e =>
    have : s.step e = s1 := Option.some.inj ha
    rw [← this] at hafter
    exact step_removes s e t p n hne hbefore hafter
  | configure silence activity advertise heartbit connection disconnection connectionSrv
      disconnectionSrv =>
    have : s.configure silence activity advertise heartbit connection disconnection
      connectionSrv disconnectionSrv = s1 := Option.some.inj ha
    rw [← this] at hafter
    exact absurd hafter hbefore
  | sweep elapsedMs now fuel =>
    have hp : s.perform (Action.sweep elapsedMs now fuel) =
        match s.RunActivityTask elapsedMs now fuel with
        | Sweep.finished st _ => some st
        | Sweep.threw _ _ => none
        | Sweep.spinning => none := rfl
    rw [hp] at ha
    cases hr : s.RunActivityTask elapsedMs now fuel with
    | finished st out =>
      rw [hr] at ha
      have hst : st = s1 := Option.some.inj ha
      rw [← hst] at hafter
      obtain ⟨r, hrec⟩ := Option.ne_none_iff_exists'.mp hbefore
      exact ⟨st, out, hr,
        (sweepLoop_finished_info elapsedMs now fuel s.activity s [] st out hr).2.2
          t p n r hrec hafter⟩
    | threw st out =>
      rw [hr] at ha
      exact absurd ha (by simp)
    | spinning =>
      rw [hr] at ha
      exact absurd ha (by simp)

theorem performAll_cons (s : DiscoveryPrivate) (a : Action) (as : List Action) :
    s.performAll (a :: as) =
      match s.perform a with
      | none => none
      | some s1 => performAll s1 as := rfl

/-- When a record of another process is there before a run of actions and gone
after it, one of the actions removed it. -/
theorem performAll_removes (s s2 : DiscoveryPrivate) (as : List Action) (t p n : String)
    (hne : p ≠ s.pUuid)
    (hbefore : GetAddress s.info t p n ≠ none)
    (hrun : s.performAll as = some s2)
    (hafter : GetAddress s2.info t p n = none) :
    ∃ pre a post sm, as = pre ++ a :: post ∧ s.performAll pre = some sm ∧
      removesRecordAt sm t p n a := by
  induction as generalizing s with
  | nil =>
    have : s = s2 := Option.some.inj hrun
    rw [← this] at hafter
    exact absurd hafter hbefore
  | cons a as ih =>
    rw [performAll_cons] at hrun
    cases hr : s.perform a with
    | none =>
      rw [hr] at hrun
      exact absurd hrun (by simp)
    | some s1 =>
      rw [hr] at hrun
      by_cases hstep : GetAddress s1.info t p n = none
      · exact ⟨[], a, as, s, rfl, rfl, perform_removes s s1 a t p n hne hbefore hr hstep⟩
      · obtain ⟨h1, _⟩ := perform_fields s s1 a hr
        obtain ⟨pre, b, post, sm, hsplit, hpre, hrem⟩ :=
          ih s1 (by rw [h1]; exact hne) hstep hrun
        refine ⟨a :: pre, b, post, sm, by rw [hsplit]; rfl, ?_, hrem⟩
        rw [performAll_cons, hr]
        exact hpre

end DiscoveryPrivate

/-- C14, as amended: `Discover` invokes the connection callback for every known
record at each call, so the bound holds for the callbacks caused by received
datagrams.  When two received datagrams each cause a connection callback for
the same (remote pUuid, topic, nUuid), then among the interface calls, setter
calls, received datagrams and sweep passes between them there is a
disconnection event for the triple that removes the record: an UNADV or
UNADV_SRV for the triple that passes the scope filter, a BYE of the process,
or a sweep pass that reports the process gone. -/
theorem C14_connection_once_between_removals (s : DiscoveryPrivate)
    (now₁ : Timestamp) (ip₁ : String) (d₁ : Datagram) (as : List Action)
    (s₂ : DiscoveryPrivate)
    (now₂ : Timestamp) (ip₂ : String) (d₂ : Datagram) (c₁ c₂ : CbCall)
    (h₁ : c₁ ∈ (s.DispatchDiscoveryMsg now₁ ip₁ d₁).calls)
    (hk₁ : c₁.kind = CbKind.connection ∨ c₁.kind = CbKind.connectionSrv)
    (hrun : (s.DispatchDiscoveryMsg now₁ ip₁ d₁).st.performAll as = some s₂)
    (h₂ : c₂ ∈ (s₂.DispatchDiscoveryMsg now₂ ip₂ d₂).calls)
    (hk₂ : c₂.kind = CbKind.connection ∨ c₂.kind = CbKind.connectionSrv)
    (ht : c₂.topic = c₁.topic) (hp : c₂.pUuid = c₁.pUuid) (hn : c₂.nUuid = c₁.nUuid) :
    ∃ pre a post sm, as = pre ++ a :: post ∧
      (s.DispatchDiscoveryMsg now₁ ip₁ d₁).st.performAll pre = some sm ∧
      sm.pUuid = s.pUuid ∧ sm.hostAddr = s.hostAddr ∧
      removesRecordAt sm c₁.topic c₁.pUuid c₁.nUuid a := by
  obtain ⟨hs₁, hp₁, hrest₁⟩ := mem_dispatch_calls _ _ _ _ _ h₁
  obtain ⟨ht₁, hn₁, hty₁, hpass₁, _⟩ := hrest₁ hk₁
  obtain ⟨hs₂, hp₂, hrest₂⟩ := mem_dispatch_calls _ _ _ _ _ h₂
  obtain ⟨ht₂, hn₂, _, _, hnone₂⟩ := hrest₂ hk₂
  have hst : (s.DispatchDiscoveryMsg now₁ ip₁ d₁).st =
      s.step (Event.receive now₁ ip₁ d₁) := rfl
  obtain ⟨hpu, hha, _⟩ := step_shape s (Event.receive now₁ ip₁ d₁)
  have hpresent : GetAddress (s.DispatchDiscoveryMsg now₁ ip₁ d₁).st.info
      c₁.topic c₁.pUuid c₁.nUuid ≠ none := by
    rw [dispatch_adv_accepted s now₁ ip₁ d₁ hs₁ hty₁ hpass₁, ht₁, hp₁, hn₁]
    show GetAddress (AddAddress s.info d₁.topic d₁.addr d₁.ctrl d₁.pUuid d₁.nUuid
      d₁.scope).2 d₁.topic d₁.pUuid d₁.nUuid ≠ none
    rw [GetAddress_AddAddress_self]
    simp
  have habsent : GetAddress s₂.info c₁.topic c₁.pUuid c₁.nUuid = none := by
    rw [← ht, ← hp, ← hn, ht₂, hp₂, hn₂]
    exact hnone₂
  have hne : c₁.pUuid ≠ (s.DispatchDiscoveryMsg now₁ ip₁ d₁).st.pUuid := by
    rw [hst, hpu, hp₁]; exact hs₁
  obtain ⟨pre, a, post, sm, hsplit, hpre, hrem⟩ :=
    performAll_removes _ s₂ as _ _ _ hne hpresent hrun habsent
  have hfields : ∀ (l : List Action) (x y : DiscoveryPrivate), x.performAll l = some y →
      y.pUuid = x.pUuid ∧ y.hostAddr = x.hostAddr := by
    intro l
    induction l with
    | nil =>
      intro x y hxy
      have : x = y := Option.some.inj hxy
      rw [this]
      exact ⟨rfl, rfl⟩
    | cons b l ih =>
      intro x y hxy
      rw [performAll_cons] at hxy
      cases hr : x.perform b with
      | none =>
        rw [hr] at hxy
        exact absurd hxy (by simp)
      | some x1 =>
        rw [hr] at hxy
        obtain ⟨f1, f2⟩ := perform_fields x x1 b hr
        obtain ⟨g1, g2⟩ := ih x1 y hxy
        exact ⟨g1.trans f1, g2.trans f2⟩
  obtain ⟨k1, k2⟩ := hfields pre _ sm hpre
  exact ⟨pre, a, post, sm, hsplit, hpre, by rw [k1, hst, hpu], by rw [k2, hst, hha], hrem⟩

/-- Witness of C14 as amended: engine B receives the ADV of process A at time
5 and again at time 3010, with the sweep pass of time 3006 in between, which
reports A gone. -/
theorem C14_witness :
    ∃ pre a post sm, [Action.sweep tickMs 3006 4] = pre ++ a :: post ∧
      (engineB.DispatchDiscoveryMsg 5 "10.0.0.1" advFromA).st.performAll pre = some sm ∧
      sm.pUuid = engineB.pUuid ∧ sm.hostAddr = engineB.hostAddr ∧
      removesRecordAt sm "/t" "A" "n1" a :=
  C14_connection_once_between_removals engineB 5 "10.0.0.1" advFromA
    [Action.sweep tickMs 3006 4] { engineBKnowsA with info := [], activity := [] }
    3010 "10.0.0.1" advFromA
    ⟨CbKind.connection, "/t", "tcp://1:1", "tcp://1:2", "A", "n1", Scope.All⟩
    ⟨CbKind.connection, "/t", "tcp://1:1", "tcp://1:2", "A", "n1", Scope.All⟩
    (by decide) (Or.inl rfl) (by decide) (by decide) (Or.inl rfl) rfl rfl rfl

end Transport
